import Mathlib

/-!
VasaajaNewest: peer synchronisation core

Shallow embedding of `src/services/SyncService.js` and of the parts of
`src/services/BluetoothService.js` it drives (the message codec and
`sendData`), followed by the properties of the specification that concern
them.

Modelling conventions

* A JavaScript object with optional fields is a structure whose optional
  fields are `Option`s; `none` stands for `null` (or an absent field).
* `AsyncStorage` is a key/value list; the value kept under a key is the
  array of entries that `JSON.parse` gives back for the stored text.
* The external collaborators (position fix, storage, characteristic write,
  clock) answer through an `Env`; a `false` answer is a rejected promise.
* Everything an operation does towards the outside (a call of
  `BluetoothService.sendData`, an application callback) is appended to the
  `trace` of the state, in program order.
* Each asynchronous operation runs to completion without interleaving
  (one logical actor per device).
-/

namespace Vasaaja

/-! ## Data model -/

/-- Plain entry object, the fields of `Entry.toObject` in `src/models/Entry.js`.
An empty `id` stands for a missing (falsy) id. A `groupId` or `createdBy` that
is `none` is `null`, as the constructor of `Entry` sets it; an object that
lacks the field is not told apart from it. -/
structure Entry where
  id : String
  vasaNumber : String := ""
  emoNumber : String := ""
  groupId : Option String := none
  createdBy : Option String := none
  creatorName : String := ""
  createdAt : String := ""
  updatedAt : String := ""
  synced : Bool := false
  notes : String := ""
deriving DecidableEq, Repr

/-- Device handle of the transport: `device.id` and `device.name`. -/
structure Device where
  id : String
  name : Option String := none
deriving DecidableEq, Repr

/-- Protocol message object as it is written by `sendData` and handed to
`handleDataReceived`: every field is optional, as in the decoded JSON. -/
structure Message where
  type : Option String := none
  source : Option String := none
  timestamp : Option Nat := none
  groupId : Option String := none
  entry : Option Entry := none
  entryId : Option String := none
deriving DecidableEq, Repr

/-- Observable effects of the engine, in program order. -/
inductive Event where
  /-- `BluetoothService.sendData(m)` was called; `written` tells whether the
  characteristic write was performed and succeeded. -/
  | sendData (m : Message) (written : Bool)
  | onDeviceConnected (d : Device)
  | onDeviceDisconnected (d : Device)
  | onEntryReceived (e : Entry)
  | onSyncComplete
  | onSyncError
deriving DecidableEq, Repr

/-- Answers of the external collaborators during one operation. -/
structure Env where
  /-- `LocationService.getCurrentLocation()` resolves. -/
  locationFix : Bool := true
  /-- `AsyncStorage.getItem` resolves. -/
  storageRead : Bool := true
  /-- `AsyncStorage.setItem` resolves. -/
  storageWrite : Bool := true
  /-- `writeCharacteristicWithResponseForService` resolves; the argument is the
  number of events recorded so far, so that successive writes may differ. -/
  charWrite : Nat → Bool := fun _ => true
  /-- `connectedDevice.cancelConnection()` resolves. -/
  cancelConnection : Bool := true
  /-- `Date.now()`. -/
  now : Nat := 0
  /-- `BluetoothService.requestPermissions()` reports every permission granted. -/
  bluetoothPermission : Bool := true
  /-- `LocationService.requestLocationPermission()` reports the permission granted. -/
  locationPermission : Bool := true
  /-- `manager.startDeviceScan` returns without throwing. -/
  scanStart : Bool := true
  /-- `device.connect` resolves. -/
  connect : Bool := true
  /-- `discoverAllServicesAndCharacteristics` resolves. -/
  discoverServices : Bool := true

/-- State of the `SyncService` singleton together with the collaborator state
it reads and writes (`AsyncStorage`, `BluetoothService.connectedDevice`, the
interval timers). The defaults are the values set by the constructors. -/
structure SyncState where
  isHost : Bool := false
  currentGroupId : Option String := none
  /-- `Map` from device id to device, in insertion order. -/
  connectedPeers : List (String × Device) := []
  syncInterval : Option Nat := none
  pendingEntries : List Entry := []
  /-- The callback fields: `true` when a handler is installed. -/
  onSyncComplete : Bool := false
  onSyncError : Bool := false
  onDeviceConnected : Bool := false
  onDeviceDisconnected : Bool := false
  onEntryReceived : Bool := false
  initialized : Bool := false
  userId : Option String := none
  /-- `AsyncStorage`: key, parsed array of entries. -/
  storage : List (String × List Entry) := []
  /-- `BluetoothService.connectedDevice`. -/
  connectedDevice : Option Device := none
  /-- Active interval timers and the next handle `setInterval` returns. -/
  timers : List Nat := []
  nextTimer : Nat := 1
  trace : List Event := []
  /-- `BluetoothService.isScanning`. -/
  isScanning : Bool := false
  /-- `BluetoothService.devices`, the devices seen by the scan. -/
  devices : List (String × Device) := []
  /-- The three `BluetoothService` handlers are bound to the service
  (lines 42-44). -/
  handlersInstalled : Bool := false
deriving DecidableEq, Repr

/-! ## Collaborators -/

/-- `AsyncStorage.getItem(key)`. -/
def getItem (st : List (String × List Entry)) (key : String) : Option (List Entry) :=
  match st with
  | [] => none
  | (k, v) :: rest => if k = key then some v else getItem rest key

/-- `AsyncStorage.setItem(key, value)`. -/
def setItem (st : List (String × List Entry)) (key : String) (value : List Entry) :
    List (String × List Entry) :=
  match st with
  | [] => [(key, value)]
  | (k, v) :: rest => if k = key then (k, value) :: rest else (k, v) :: setItem rest key value

/-- Template literal `groupEntries_${this.currentGroupId}`. -/
def groupEntriesKey (g : Option String) : String :=
  "groupEntries_" ++ g.getD "null"

/-- Template literal `entries_${this.userId}`. -/
def entriesKey (u : Option String) : String :=
  "entries_" ++ u.getD "undefined"

/-- `Map.prototype.set`: an existing key keeps its place. -/
def mapSet (m : List (String × Device)) (k : String) (d : Device) : List (String × Device) :=
  match m with
  | [] => [(k, d)]
  | (k1, d1) :: rest => if k1 = k then (k1, d) :: rest else (k1, d1) :: mapSet rest k d

/-- `Map.prototype.delete`. -/
def mapDelete (m : List (String × Device)) (k : String) : List (String × Device) :=
  m.filter (fun p => p.1 != k)

/-- Appends an event to the trace. -/
def emit (s : SyncState) (ev : Event) : SyncState :=
  { s with trace := s.trace ++ [ev] }

/-- `BluetoothService.sendData(data)`: without a connected device the error is
thrown and caught inside, nothing is written and `false` is returned; a failed
write is caught the same way. It never throws to its caller. -/
def sendData (env : Env) (s : SyncState) (data : Message) : SyncState × Bool :=
  match s.connectedDevice with
  | none => (emit s (Event.sendData data false), false)
  | some _ =>
    if env.charWrite s.trace.length then (emit s (Event.sendData data true), true)
    else (emit s (Event.sendData data false), false)

/-! ## SyncService -/

/-- `sendEntryAcknowledgement(entryId, targetId)`. -/
def sendEntryAcknowledgement (env : Env) (s : SyncState) (entryId : String)
    (_targetId : Option String) : SyncState :=
  (sendData env s { type := some "ENTRY_ACK", source := s.userId, entryId := some entryId }).1

/-- `processReceivedEntry(entry, sourceId)`, lines 179-221, run to its end with
no other handler in between; `EntryTask` has its steps from one `await` to the
next. A rejected position fix or storage call lands in the `catch`, which only
logs. A group id that is `none` stands for `null`; a field that is missing
altogether is not told apart from it, which the comparison of line 186 does
when one side is `null` and the other is missing. -/
def processReceivedEntry (env : Env) (s : SyncState) (entry : Entry)
    (sourceId : Option String) : SyncState :=
  if !s.isHost || entry.id == "" then s
  else if entry.groupId != s.currentGroupId then s
  else if !env.locationFix then s
  else if !env.storageRead then s
  else
    let key := groupEntriesKey s.currentGroupId
    let groupEntries := (getItem s.storage key).getD []
    -- `findIndex(e => e.id === entry.id) >= 0`
    if groupEntries.any (fun e => e.id == entry.id) then
      sendEntryAcknowledgement env s entry.id sourceId
    else if !env.storageWrite then s
    else
      let s1 := { s with storage := setItem s.storage key (groupEntries ++ [entry]) }
      let s2 := sendEntryAcknowledgement env s1 entry.id sourceId
      if s2.onEntryReceived then emit s2 (Event.onEntryReceived entry) else s2

/-- `markEntryAsSynced(entryId)`, lines 224-249. -/
def markEntryAsSynced (env : Env) (s : SyncState) (entryId : String) : SyncState :=
  if !env.storageRead then s
  else
    match getItem s.storage (entriesKey s.userId) with
    | none => s
    | some entries =>
      let updatedEntries :=
        entries.map (fun entry => if entry.id == entryId then { entry with synced := true } else entry)
      if !env.storageWrite then s
      else
        let s1 := { s with
          storage := setItem s.storage (entriesKey s.userId) updatedEntries
          pendingEntries := s.pendingEntries.filter (fun e => e.id != entryId) }
        if s1.onSyncComplete && s1.pendingEntries.length == 0 then emit s1 Event.onSyncComplete
        else s1

/-- `sendEntry(entry)`, lines 252-283. `sendData` and `processReceivedEntry`
catch their own errors, so the `catch` with `onSyncError` is never entered. -/
def sendEntry (env : Env) (s : SyncState) (entry : Entry) : SyncState :=
  if s.isHost then processReceivedEntry env s entry s.userId
  else
    let s1 := { s with pendingEntries := s.pendingEntries ++ [entry] }
    if s1.connectedPeers.length > 0 then
      (sendData env s1
        { type := some "ENTRY", source := s1.userId, groupId := s1.currentGroupId,
          entry := some entry }).1
    else s1

/-- First loop of `syncPendingEntries` (lines 316-320): the stored unsynced
entries are pushed unless an entry with the same id is queued already. -/
def mergeUnsynced (pending : List Entry) (unsyncedEntries : List Entry) : List Entry :=
  unsyncedEntries.foldl
    (fun acc entry => if acc.any (fun p => p.id == entry.id) then acc else acc ++ [entry])
    pending

/-- Second loop of `syncPendingEntries` (lines 324-326), `for (const entry of
this.pendingEntries) await this.sendEntry(entry)`. The array iterator is live:
each `next()` compares its index with the current length of the array, which
`sendEntry` may have changed. The first argument bounds the number of
`next()` calls; the Boolean tells whether the iterator reported the end. -/
def sendLoop (env : Env) : Nat → Nat → SyncState → SyncState × Bool
  | 0, _, s => (s, false)
  | fuel + 1, i, s =>
    match s.pendingEntries.get? i with
    | none => (s, true)
    | some entry => sendLoop env fuel (i + 1) (sendEntry env s entry)

/-- `syncPendingEntries()`, lines 301-330. The Boolean tells whether the
operation returned within the given number of loop steps. -/
def syncPendingEntries (env : Env) (fuel : Nat) (s : SyncState) : SyncState × Bool :=
  if s.isHost || s.pendingEntries.length == 0 || s.connectedPeers.length == 0 then (s, true)
  else if !env.storageRead then (s, true)
  else
    let s1 :=
      match getItem s.storage (entriesKey s.userId) with
      | none => s
      | some entries =>
        let unsyncedEntries :=
          entries.filter (fun e => e.groupId == s.currentGroupId && !e.synced)
        { s with pendingEntries := mergeUnsynced s.pendingEntries unsyncedEntries }
    sendLoop env fuel 0 s1

/-- `sendAllEntries(targetId)`, lines 333-363. -/
def sendAllEntries (env : Env) (s : SyncState) (_targetId : Option String) : SyncState :=
  if !s.isHost then s
  else if !env.storageRead then s
  else
    match getItem s.storage (groupEntriesKey s.currentGroupId) with
    | none => s
    | some groupEntries =>
      groupEntries.foldl
        (fun acc entry =>
          (sendData env acc
            { type := some "ENTRY", source := acc.userId, groupId := acc.currentGroupId,
              entry := some entry }).1)
        s

/-- `sendPing()`. -/
def sendPing (env : Env) (s : SyncState) : SyncState :=
  (sendData env s { type := some "PING", source := s.userId, timestamp := some env.now }).1

/-- `sendPong(targetId)`. -/
def sendPong (env : Env) (s : SyncState) (_targetId : Option String) : SyncState :=
  (sendData env s { type := some "PONG", source := s.userId, timestamp := some env.now }).1

/-- `requestFullSync()`. -/
def requestFullSync (env : Env) (s : SyncState) : SyncState :=
  if s.isHost || s.connectedPeers.length == 0 then s
  else
    (sendData env s
      { type := some "SYNC_REQUEST", source := s.userId, groupId := s.currentGroupId }).1

/-- `handleConnectionStateChange(connected, device)`, lines 113-132. The call of
`syncPendingEntries` is not awaited; it is run here to its end (or as far as
the given number of loop steps allows). -/
def handleConnectionStateChange (env : Env) (fuel : Nat) (s : SyncState)
    (connected : Bool) (device : Option Device) : SyncState × Bool :=
  match device with
  | none => (s, true)
  | some d =>
    if connected then
      let s1 := { s with connectedPeers := mapSet s.connectedPeers d.id d }
      let s2 := if s1.onDeviceConnected then emit s1 (Event.onDeviceConnected d) else s1
      if !s2.isHost then syncPendingEntries env fuel s2 else (s2, true)
    else
      let s1 := { s with connectedPeers := mapDelete s.connectedPeers d.id }
      if s1.onDeviceDisconnected then (emit s1 (Event.onDeviceDisconnected d), true)
      else (s1, true)

/-- Truthiness of an optional string field: present and not empty. -/
def truthy (x : Option String) : Bool :=
  match x with
  | none => false
  | some v => v != ""

/-- `handleDataReceived(data)`, lines 135-176; `none` is a `null` payload. -/
def handleDataReceived (env : Env) (s : SyncState) (data : Option Message) : SyncState :=
  match data with
  | none => s
  | some d =>
    if !truthy d.type then s
    else if d.type == some "PING" then sendPong env s d.source
    else if d.type == some "PONG" then s
    else if d.type == some "ENTRY" then
      match d.entry with
      | none => s
      | some entry => if s.isHost then processReceivedEntry env s entry d.source else s
    else if d.type == some "ENTRY_ACK" then
      if !s.isHost && truthy d.entryId then markEntryAsSynced env s (d.entryId.getD "") else s
    else if d.type == some "SYNC_REQUEST" then
      if s.isHost && d.groupId == s.currentGroupId then sendAllEntries env s d.source else s
    else s

/-- `BluetoothService.disconnect()`, lines 241-256. The connection-state
handler is called with a `null` device, for which
`handleConnectionStateChange` does nothing. -/
def disconnect (env : Env) (s : SyncState) : SyncState :=
  match s.connectedDevice with
  | none => s
  | some _ => if env.cancelConnection then { s with connectedDevice := none } else s

/-- `stop()`, lines 423-438. -/
def stop (env : Env) (s : SyncState) : SyncState :=
  let s1 :=
    match s.syncInterval with
    | none => s
    | some h =>
      if h = 0 then s
      else { s with timers := s.timers.filter (fun t => t != h), syncInterval := none }
  let s2 := disconnect env s1
  { s2 with isHost := false, currentGroupId := none, connectedPeers := [], pendingEntries := [] }

/-! ## Start of the engine -/

/-- `BluetoothService.initialize()`, lines 78-100: without the permissions the
error is thrown and caught inside and `false` is returned. -/
def initializeBluetooth (env : Env) : Bool :=
  env.bluetoothPermission

/-- `LocationService.initialize()`, lines 36-56, with the same shape. -/
def initializeLocation (env : Env) : Bool :=
  env.locationPermission

/-- `SyncService.initialize(userId)`, lines 21-52. A failed collaborator makes
it throw inside its own `try`; the `catch` returns `false`. The user id is
assigned before the collaborators are asked. -/
def initializeSync (env : Env) (s : SyncState) (userId : Option String) : SyncState × Bool :=
  if s.initialized then (s, true)
  else
    let s1 := { s with userId := userId }
    if !initializeBluetooth env then (s1, false)
    else if !initializeLocation env then (s1, false)
    else ({ s1 with handlersInstalled := true, initialized := true }, true)

/-- `BluetoothService.startScan()`, lines 103-143; `none` is the `undefined` that
is returned when a scan is running already. The timeout that stops the scan
after 30 seconds is a later event. -/
def startScan (env : Env) (s : SyncState) : SyncState × Option Bool :=
  if s.isScanning then (s, none)
  else if env.scanStart then ({ s with devices := [], isScanning := true }, some true)
  else ({ s with devices := [], isScanning := false }, some false)

/-- `startPeriodicPing()`, lines 366-371: the handle of the new interval is
stored in `syncInterval`, whatever was stored there. -/
def startPeriodicPing (s : SyncState) : SyncState :=
  { s with
    syncInterval := some s.nextTimer
    timers := s.timers ++ [s.nextTimer]
    nextTimer := s.nextTimer + 1 }

/-- `startHosting(groupId)`, lines 55-72. The value returned by `initialize`
is not looked at; nothing in the `try` throws, so `true` is returned. -/
def startHosting (env : Env) (s : SyncState) (groupId : String) : SyncState × Bool :=
  let s1 := if !s.initialized then (initializeSync env s s.userId).1 else s
  let s2 := { s1 with isHost := true, currentGroupId := some groupId }
  (startPeriodicPing s2, true)

/-- `joinGroup(groupId)`, lines 75-92. Neither the value returned by
`initialize` nor the one returned by `startScan` is looked at. -/
def joinGroup (env : Env) (s : SyncState) (groupId : String) : SyncState × Bool :=
  let s1 := if !s.initialized then (initializeSync env s s.userId).1 else s
  let s2 := { s1 with isHost := false, currentGroupId := some groupId }
  ((startScan env s2).1, true)

/-! ## Observations and operations -/

/-- Messages handed to `BluetoothService.sendData`, in order. -/
def sent (t : List Event) : List Message :=
  t.filterMap (fun ev => match ev with
    | Event.sendData m _ => some m
    | _ => none)

/-- Whether a call of `sendData` in state `s` performs the write. -/
def written (env : Env) (s : SyncState) : Bool :=
  s.connectedDevice.isSome && env.charWrite s.trace.length

/-- Stored authoritative list of group `g`, empty when nothing is stored. -/
def storedGroupEntries (s : SyncState) (g : String) : List Entry :=
  (getItem s.storage (groupEntriesKey (some g))).getD []

/-- The acknowledgement `{type: 'ENTRY_ACK', source, entryId}`. -/
def entryAck (source : Option String) (entryId : String) : Message :=
  { type := some "ENTRY_ACK", source := source, entryId := some entryId }

/-- Engine operations other than `stop()` and `destroy()`. -/
inductive Op where
  | sendEntry (entry : Entry)
  | syncPendingEntries (fuel : Nat)
  | connectionStateChange (fuel : Nat) (connected : Bool) (device : Option Device)
  | dataReceived (data : Option Message)
  | requestFullSync
  | sendPing

/-- State after an operation; a loop that has not ended within its bound is
observed at the step it has reached. -/
def Op.run (env : Env) (s : SyncState) : Op → SyncState
  | Op.sendEntry entry => Vasaaja.sendEntry env s entry
  | Op.syncPendingEntries fuel => (Vasaaja.syncPendingEntries env fuel s).1
  | Op.connectionStateChange fuel connected device =>
    (handleConnectionStateChange env fuel s connected device).1
  | Op.dataReceived data => handleDataReceived env s data
  | Op.requestFullSync => Vasaaja.requestFullSync env s
  | Op.sendPing => Vasaaja.sendPing env s

/-- The operation handles an `ENTRY_ACK` that carries the given id. -/
def Op.acknowledges (id : String) : Op → Bool
  | Op.dataReceived (some d) => d.type == some "ENTRY_ACK" && d.entryId == some id
  | _ => false

/-! ## Concrete states -/

/-- Host of group `g1` with nothing stored. -/
def hostG1 : SyncState :=
  { isHost := true, currentGroupId := some "g1", userId := some "host", initialized := true }

/-- Entry `e1` of group `g1`, not yet synced. -/
def entryE1 : Entry :=
  { id := "e1", vasaNumber := "123", emoNumber := "456", groupId := some "g1" }

/-- Entry `e2` of group `g1`, not yet synced. -/
def entryE2 : Entry :=
  { id := "e2", vasaNumber := "124", emoNumber := "457", groupId := some "g1" }

/-- Member of group `g1` right after a restart: one unsynced entry in its local
store, an empty in-memory queue, and the transport just connected. -/
def restartedMember : SyncState :=
  { currentGroupId := some "g1", userId := some "u1", initialized := true,
    storage := [("entries_u1", [entryE1])],
    connectedDevice := some { id := "d1" } }

/-- Connected member of group `g1` with one queued entry. -/
def connectedMember : SyncState :=
  { currentGroupId := some "g1", userId := some "u1", initialized := true,
    connectedPeers := [("d1", { id := "d1" })],
    pendingEntries := [entryE1],
    connectedDevice := some { id := "d1" } }

/-- Member that queued an entry which is not in its local store. -/
def unstoredMember : SyncState :=
  { currentGroupId := some "g1", userId := some "u1", initialized := true,
    pendingEntries := [entryE1] }

/-- Member with a completion handler, one queued entry and its stored copy. -/
def listeningMember : SyncState :=
  { currentGroupId := some "g1", userId := some "u1", initialized := true,
    onSyncComplete := true,
    pendingEntries := [entryE1],
    storage := [("entries_u1", [entryE1, entryE2])] }

/-- Connected member of group `g1` with nothing queued and nothing stored, that
listens for sync errors. -/
def joinedMember : SyncState :=
  { currentGroupId := some "g1", userId := some "u1", initialized := true,
    handlersInstalled := true, onSyncError := true,
    connectedPeers := [("d1", { id := "d1" })],
    connectedDevice := some { id := "d1" } }

/-- The message `{type: 'ENTRY', source, groupId, entry}` of `sendEntry` and
`sendAllEntries`. -/
def entryMessage (source groupId : Option String) (entry : Entry) : Message :=
  { type := some "ENTRY", source := source, groupId := groupId, entry := some entry }

/-- Host of group `g1` that stores `e1` and `e2` and is connected to the
device `d1`. -/
def answeringHost : SyncState :=
  { hostG1 with
    storage := [("groupEntries_g1", [entryE1, entryE2])]
    connectedPeers := [("d1", { id := "d1" })]
    connectedDevice := some { id := "d1" } }

/-- The request `{type: 'SYNC_REQUEST', source: 'u1', groupId: 'g1'}`. -/
def syncRequestG1 : Message :=
  { type := some "SYNC_REQUEST", source := some "u1", groupId := some "g1" }

/-! ## Handlers that overlap -/

/-- A call of `processReceivedEntry` that waits at one of its three `await`s.
`handleDataReceived` is started for every notification without being awaited
(`BluetoothService.js`, lines 203-207), so that another handler can run while
this one waits. -/
inductive EntryTask where
  /-- Waits for the position fix, line 193. -/
  | awaitingFix (entry : Entry) (sourceId : Option String)
  /-- Waits for `AsyncStorage.getItem(key)`, line 196. -/
  | awaitingRead (entry : Entry) (sourceId : Option String) (key : String)
  /-- Waits for `AsyncStorage.setItem(key, groupEntries)`, line 209; the list
  is the one that was read, with the entry pushed. -/
  | awaitingWrite (entry : Entry) (sourceId : Option String) (key : String)
      (groupEntries : List Entry)
deriving DecidableEq, Repr

/-- The guards of `processReceivedEntry`, lines 181-189, which run when the
function is called; `none` when it returns there. -/
def EntryTask.start (s : SyncState) (entry : Entry) (sourceId : Option String) :
    Option EntryTask :=
  if !s.isHost || entry.id == "" then none
  else if entry.groupId != s.currentGroupId then none
  else some (EntryTask.awaitingFix entry sourceId)

/-- What `processReceivedEntry` does when the `await` it waits at is settled,
up to its next `await` or its end (`none`), in the state of that moment. A
rejection ends in the `catch` of line 218. The stored list is read when
`getItem` is settled and written when `setItem` is. -/
def EntryTask.resume (env : Env) (s : SyncState) : EntryTask → SyncState × Option EntryTask
  | EntryTask.awaitingFix entry sourceId =>
    if !env.locationFix then (s, none)
    else (s, some (EntryTask.awaitingRead entry sourceId (groupEntriesKey s.currentGroupId)))
  | EntryTask.awaitingRead entry sourceId key =>
    if !env.storageRead then (s, none)
    else
      let groupEntries := (getItem s.storage key).getD []
      if groupEntries.any (fun e => e.id == entry.id) then
        (sendEntryAcknowledgement env s entry.id sourceId, none)
      else
        (s, some (EntryTask.awaitingWrite entry sourceId (groupEntriesKey s.currentGroupId)
          (groupEntries ++ [entry])))
  | EntryTask.awaitingWrite entry sourceId key groupEntries =>
    if !env.storageWrite then (s, none)
    else
      let s1 := { s with storage := setItem s.storage key groupEntries }
      let s2 := sendEntryAcknowledgement env s1 entry.id sourceId
      (if s2.onEntryReceived then emit s2 (Event.onEntryReceived entry) else s2, none)

/-- A task run to its end with nothing in between; it has three `await`s. -/
def EntryTask.finish (env : Env) : Nat → SyncState → Option EntryTask → SyncState
  | _, s, none => s
  | 0, s, some _ => s
  | n + 1, s, some t => EntryTask.finish env n (t.resume env s).1 (t.resume env s).2

/-- The task that `handleDataReceived(data)` starts on the host for an `ENTRY`
message, lines 152-156. -/
def entryTask (s : SyncState) (data : Option Message) : Option EntryTask :=
  match data with
  | none => none
  | some d =>
    if d.type == some "ENTRY" then
      match d.entry with
      | none => none
      | some entry => if s.isHost then EntryTask.start s entry d.source else none
    else none

/-- The handlers that wait, and the state they share. -/
structure Overlap where
  state : SyncState
  tasks : List (Option EntryTask)
deriving DecidableEq, Repr

/-- The `i`-th handler goes on to its next `await`. -/
def Overlap.step (env : Env) (o : Overlap) (i : Nat) : Overlap :=
  match o.tasks.get? i with
  | some (some t) =>
    { state := (t.resume env o.state).1, tasks := o.tasks.set i (t.resume env o.state).2 }
  | _ => o

/-- The handlers go on in the given order. -/
def Overlap.run (env : Env) (o : Overlap) (schedule : List Nat) : Overlap :=
  schedule.foldl (Overlap.step env) o

/-- The host of `g1` when the messages `ENTRY{e1}` and `ENTRY{e2}` of the
member `u1` have arrived one behind the other: both handlers wait for the
position fix. -/
def twoEntriesArrived : Overlap :=
  { state := hostG1
    tasks :=
      [entryTask hostG1 (some (entryMessage (some "u1") (some "g1") entryE1)),
       entryTask hostG1 (some (entryMessage (some "u1") (some "g1") entryE2))] }

/-! ## Message codec: the strings

A JavaScript string is the list of its UTF-16 code units. The built-in
functions used by the `Buffer` polyfill follow ECMA-262 (`encodeURIComponent`,
`decodeURIComponent`, `escape`, `unescape`) and the HTML standard (`btoa`,
`atob`); a thrown exception is `none`. -/

/-- Code units of a literal text. -/
def utf16EncodeCodePoint (cp : Nat) : List Nat :=
  if cp < 65536 then [cp]
  else [55296 + (cp - 65536) / 1024, 56320 + (cp - 65536) % 1024]

/-- The JavaScript string with the given text. -/
def js (s : String) : List Nat :=
  s.toList.flatMap (fun ch => utf16EncodeCodePoint ch.toNat)

/-- Leading surrogate, `0xD800` to `0xDBFF`. -/
def isLeadingSurrogate (c : Nat) : Bool := 55296 ≤ c && c < 56320

/-- Trailing surrogate, `0xDC00` to `0xDFFF`. -/
def isTrailingSurrogate (c : Nat) : Bool := 56320 ≤ c && c < 57344

/-- ASCII letter or decimal digit. -/
def isAlphaNum (c : Nat) : Bool :=
  (48 ≤ c && c ≤ 57) || (65 ≤ c && c ≤ 90) || (97 ≤ c && c ≤ 122)

/-- The set `uriUnreserved`: letters, digits and `-_.!~*'()`. -/
def uriUnreserved (c : Nat) : Bool :=
  isAlphaNum c || c == 45 || c == 95 || c == 46 || c == 33 || c == 126 || c == 42 ||
    c == 39 || c == 40 || c == 41

/-- Upper-case hexadecimal digit of a value below 16. -/
def hexDigit (n : Nat) : Nat := if n < 10 then 48 + n else 55 + n

/-- Hexadecimal digit, either case. -/
def isHexDigit (c : Nat) : Bool :=
  (48 ≤ c && c ≤ 57) || (65 ≤ c && c ≤ 70) || (97 ≤ c && c ≤ 102)

/-- Value of a hexadecimal digit. -/
def hexValue (c : Nat) : Nat :=
  if c ≤ 57 then c - 48 else if c ≤ 70 then c - 55 else c - 87

/-- The escape `%XY` of an octet. -/
def percentOctet (b : Nat) : List Nat := [37, hexDigit (b / 16), hexDigit (b % 16)]

/-- UTF-8 octets of a code point. -/
def utf8Octets (cp : Nat) : List Nat :=
  if cp < 128 then [cp]
  else if cp < 2048 then [192 + cp / 64, 128 + cp % 64]
  else if cp < 65536 then [224 + cp / 4096, 128 + cp / 64 % 64, 128 + cp % 64]
  else [240 + cp / 262144, 128 + cp / 4096 % 64, 128 + cp / 64 % 64, 128 + cp % 64]

/-- The abstract operation `UTF16SurrogatePairToCodePoint`. -/
def surrogatePairToCodePoint (lead trail : Nat) : Nat :=
  (lead - 55296) * 1024 + (trail - 56320) + 65536

/-- The escapes of the UTF-8 octets of a code point. -/
def percentCodePoint (cp : Nat) : List Nat :=
  (utf8Octets cp).flatMap percentOctet

/-- `encodeURIComponent(string)`: the operation `Encode` with the unreserved
set. An unpaired surrogate throws a `URIError`. -/
def encodeURIComponent : List Nat → Option (List Nat)
  | [] => some []
  | [c] =>
    if uriUnreserved c then some [c]
    else if isLeadingSurrogate c || isTrailingSurrogate c then none
    else some (percentCodePoint c)
  | c :: d :: rest =>
    if uriUnreserved c then (encodeURIComponent (d :: rest)).map (fun r => c :: r)
    else if isTrailingSurrogate c then none
    else if isLeadingSurrogate c then
      if isTrailingSurrogate d then
        (encodeURIComponent rest).map
          (fun r => percentCodePoint (surrogatePairToCodePoint c d) ++ r)
      else none
    else (encodeURIComponent (d :: rest)).map (fun r => percentCodePoint c ++ r)

/-- `unescape(string)` of Annex B: `%uXXXX` and `%XX` with hexadecimal digits
are replaced by the code unit they name, every other code unit is kept. -/
def unescape : List Nat → List Nat
  | [] => []
  | c :: rest =>
    if c = 37 then
      match rest with
      | 117 :: h1 :: h2 :: h3 :: h4 :: rest4 =>
        if isHexDigit h1 && isHexDigit h2 && isHexDigit h3 && isHexDigit h4 then
          (hexValue h1 * 4096 + hexValue h2 * 256 + hexValue h3 * 16 + hexValue h4)
            :: unescape rest4
        else 37 :: unescape (117 :: h1 :: h2 :: h3 :: h4 :: rest4)
      | h1 :: h2 :: rest2 =>
        if isHexDigit h1 && isHexDigit h2 then
          (hexValue h1 * 16 + hexValue h2) :: unescape rest2
        else 37 :: unescape (h1 :: h2 :: rest2)
      | [h1] => 37 :: unescape [h1]
      | [] => [37]
    else c :: unescape rest

/-- Character of the base64 alphabet for a value below 64. -/
def base64Char (n : Nat) : Nat :=
  if n < 26 then 65 + n
  else if n < 52 then 71 + n
  else if n < 62 then n - 4
  else if n = 62 then 43
  else 47

/-- Membership in the base64 alphabet. -/
def isBase64Char (c : Nat) : Bool :=
  isAlphaNum c || c == 43 || c == 47

/-- Value of a character of the base64 alphabet. -/
def base64Value (c : Nat) : Nat :=
  if c = 43 then 62
  else if c = 47 then 63
  else if c ≤ 57 then c + 4
  else if c ≤ 90 then c - 65
  else c - 71

/-- Base64 of a sequence of octets, with padding (RFC 4648). -/
def base64Encode : List Nat → List Nat
  | [] => []
  | [a] => [base64Char (a / 4), base64Char (a % 4 * 16), 61, 61]
  | [a, b] =>
    [base64Char (a / 4), base64Char (a % 4 * 16 + b / 16), base64Char (b % 16 * 4), 61]
  | a :: b :: c :: rest =>
    base64Char (a / 4) :: base64Char (a % 4 * 16 + b / 16) ::
      base64Char (b % 16 * 4 + c / 64) :: base64Char (c % 64) :: base64Encode rest

/-- `btoa(data)`: a code unit above `0xFF` throws `InvalidCharacterError`. -/
def btoa (data : List Nat) : Option (List Nat) :=
  if data.all (fun c => c < 256) then some (base64Encode data) else none

/-- ASCII whitespace: tab, line feed, form feed, carriage return, space. -/
def isAsciiWhitespace (c : Nat) : Bool :=
  c == 9 || c == 10 || c == 12 || c == 13 || c == 32

/-- Removes one or two `=` from the end. -/
def stripPadding (data : List Nat) : List Nat :=
  if data.getLast? = some 61 then
    if data.dropLast.getLast? = some 61 then data.dropLast.dropLast else data.dropLast
  else data

/-- Octets of a sequence of 6-bit values; a rest of two or three values gives
one or two octets, the spare bits are dropped. -/
def decodeSextets : List Nat → List Nat
  | a :: b :: c :: d :: rest =>
    (a * 4 + b / 16) :: (b % 16 * 16 + c / 4) :: (c % 4 * 64 + d) :: decodeSextets rest
  | [a, b, c] => [a * 4 + b / 16, b % 16 * 16 + c / 4]
  | [a, b] => [a * 4 + b / 16]
  | _ => []

/-- `atob(data)`: forgiving-base64 decode of the HTML standard. -/
def atob (data : List Nat) : Option (List Nat) :=
  let d1 := data.filter (fun c => !isAsciiWhitespace c)
  let d2 := if d1.length % 4 = 0 then stripPadding d1 else d1
  if d2.length % 4 = 1 then none
  else if d2.all isBase64Char then some (decodeSextets (d2.map base64Value))
  else none

/-- The set of `escape` that is left as it is: letters, digits and `@*_+-./`. -/
def escapeUnescaped (c : Nat) : Bool :=
  isAlphaNum c || c == 64 || c == 42 || c == 95 || c == 43 || c == 45 || c == 46 || c == 47

/-- `escape(string)` of Annex B. -/
def escape (s : List Nat) : List Nat :=
  s.flatMap (fun c =>
    if escapeUnescaped c then [c]
    else if c < 256 then percentOctet c
    else [37, 117, hexDigit (c / 4096), hexDigit (c / 256 % 16), hexDigit (c / 16 % 16),
          hexDigit (c % 16)])

/-- Item read by `Decode`: a code unit taken as it is, or the octet of an
escape `%XY`. -/
inductive UriItem where
  | unit (c : Nat)
  | octet (b : Nat)
deriving DecidableEq, Repr

/-- First pass of `Decode`: every `%` has to be followed by two hexadecimal
digits, else `URIError`. -/
def uriItems : List Nat → Option (List UriItem)
  | [] => some []
  | c :: rest =>
    if c = 37 then
      match rest with
      | h1 :: h2 :: rest2 =>
        if isHexDigit h1 && isHexDigit h2 then
          (uriItems rest2).map (fun r => UriItem.octet (hexValue h1 * 16 + hexValue h2) :: r)
        else none
      | _ => none
    else (uriItems rest).map (fun r => UriItem.unit c :: r)

/-- Continuation octet `10xxxxxx`. -/
def isContinuation (b : Nat) : Bool := 128 ≤ b && b < 192

/-- Whether `cp`, read from a group of `n` octets, is a code point in its
shortest UTF-8 form: no overlong form, no surrogate, nothing above `0x10FFFF`. -/
def validUtf8 (n cp : Nat) : Bool :=
  if n = 2 then decide (128 ≤ cp)
  else if n = 3 then decide (2048 ≤ cp) && !(decide (55296 ≤ cp) && decide (cp < 57344))
  else decide (65536 ≤ cp) && decide (cp < 1114112)

/-- Progress of `Decode` inside a group of octets: outside of a group, or
waiting for `remaining` continuation octets of a group of `size` octets whose
bits so far are `acc`. -/
inductive OctetGroup where
  | outside
  | inside (remaining acc size : Nat)
deriving DecidableEq, Repr

/-- Second pass of `Decode` with an empty reserved set: an octet below `0x80`
is its code unit; a leading octet `110xxxxx`, `1110xxxx` or `11110xxx` must be
followed by one, two or three escaped continuation octets, and the group must
be the valid UTF-8 form of a code point, which is written in UTF-16. -/
def decodeItemsFrom : OctetGroup → List UriItem → Option (List Nat)
  | OctetGroup.outside, [] => some []
  | OctetGroup.inside _ _ _, [] => none
  | OctetGroup.outside, UriItem.unit c :: rest =>
    (decodeItemsFrom OctetGroup.outside rest).map (fun r => c :: r)
  | OctetGroup.outside, UriItem.octet b :: rest =>
    if b < 128 then (decodeItemsFrom OctetGroup.outside rest).map (fun r => b :: r)
    else if b < 192 then none
    else if b < 224 then decodeItemsFrom (OctetGroup.inside 1 (b % 32) 2) rest
    else if b < 240 then decodeItemsFrom (OctetGroup.inside 2 (b % 16) 3) rest
    else if b < 248 then decodeItemsFrom (OctetGroup.inside 3 (b % 8) 4) rest
    else none
  | OctetGroup.inside _ _ _, UriItem.unit _ :: _ => none
  | OctetGroup.inside remaining acc size, UriItem.octet b :: rest =>
    if isContinuation b then
      if remaining ≤ 1 then
        if validUtf8 size (acc * 64 + b % 64) then
          (decodeItemsFrom OctetGroup.outside rest).map
            (fun r => utf16EncodeCodePoint (acc * 64 + b % 64) ++ r)
        else none
      else decodeItemsFrom (OctetGroup.inside (remaining - 1) (acc * 64 + b % 64) size) rest
    else none

/-- Second pass of `Decode`, started outside of a group. -/
def decodeItems (items : List UriItem) : Option (List Nat) :=
  decodeItemsFrom OctetGroup.outside items

/-- `decodeURIComponent(string)`. The operation `Decode` of ECMA-262 reads the
escapes and groups the octets in one pass; the two passes here fail on the same
strings and give the same result on the others. -/
def decodeURIComponent (s : List Nat) : Option (List Nat) :=
  (uriItems s).bind decodeItems

/-! ### The `Buffer` polyfill of `BluetoothService.js` -/

/-- `Buffer.from(str, 'utf8').toString('base64')`, line 13:
`btoa(unescape(encodeURIComponent(str)))`. -/
def bufferUtf8ToBase64 (str : List Nat) : Option (List Nat) :=
  (encodeURIComponent str).bind (fun e => btoa (unescape e))

/-- `Buffer.from(str, 'base64').toString('utf8')`, line 22:
`decodeURIComponent(escape(atob(str)))`. -/
def bufferBase64ToUtf8 (str : List Nat) : Option (List Nat) :=
  (atob str).bind (fun b => decodeURIComponent (escape b))

/-- `encodeBase64(str)`, lines 269-271; nothing is caught here. -/
def encodeBase64 (str : List Nat) : Option (List Nat) :=
  bufferUtf8ToBase64 str

/-- Well-formed UTF-16: 16-bit code units, every surrogate in a pair. -/
def wellFormed : List Nat → Bool
  | [] => true
  | [c] => decide (c < 65536) && !isLeadingSurrogate c && !isTrailingSurrogate c
  | c :: d :: rest =>
    if isLeadingSurrogate c then isTrailingSurrogate d && wellFormed rest
    else decide (c < 65536) && !isTrailingSurrogate c && wellFormed (d :: rest)

/-- UTF-8 octets of a well-formed string. -/
def utf8OfString : List Nat → List Nat
  | [] => []
  | [c] => utf8Octets c
  | c :: d :: rest =>
    if isLeadingSurrogate c then utf8Octets (surrogatePairToCodePoint c d) ++ utf8OfString rest
    else utf8Octets c ++ utf8OfString (d :: rest)

/-- The 6-bit values that `base64Encode` writes, without the padding. -/
def sextets : List Nat → List Nat
  | [] => []
  | [a] => [a / 4, a % 4 * 16]
  | [a, b] => [a / 4, a % 4 * 16 + b / 16, b % 16 * 4]
  | a :: b :: c :: rest =>
    a / 4 :: (a % 4 * 16 + b / 16) :: (b % 16 * 4 + c / 64) :: c % 64 :: sextets rest

/-- Number of `=` that `base64Encode` appends. -/
def paddingLength : List Nat → Nat
  | [] => 0
  | [_] => 2
  | [_, _] => 1
  | _ :: _ :: _ :: rest => paddingLength rest

/-- The item that `uriItems` reads for an octet written by `escape`. -/
def escapedItem (b : Nat) : UriItem :=
  if escapeUnescaped b then UriItem.unit b else UriItem.octet b

/-! ## Message codec: JSON

`JSON.stringify` and `JSON.parse` of ECMA-262 on the values that occur in
protocol messages. Numbers are the integers that a double holds exactly (safe
integers), written in plain decimal; a number literal with a fraction or an
exponent is outside of the model and is refused by `jsonParse`. The members of
an object are listed in the order of their creation. -/

/-- JSON value. A number is the number that its literal writes; the rounding
to a double is left out. -/
inductive Json where
  | null
  | bool (b : Bool)
  | number (n : Int)
  /-- The number `m / 10 ^ k` that is not an integer: `k` is positive and `m`
  is not a multiple of 10. -/
  | fraction (m : Int) (k : Nat)
  | string (s : List Nat)
  | array (items : List Json)
  | object (members : List (List Nat × Json))

/-- Lower-case hexadecimal digit of a value below 16. -/
def hexDigitLower (n : Nat) : Nat := if n < 10 then 48 + n else 87 + n

/-- Text that `QuoteJSONString` writes for one code unit that is not part of a
surrogate pair. -/
def quoteUnit (c : Nat) : List Nat :=
  if c = 8 then [92, 98]
  else if c = 9 then [92, 116]
  else if c = 10 then [92, 110]
  else if c = 12 then [92, 102]
  else if c = 13 then [92, 114]
  else if c = 34 then [92, 34]
  else if c = 92 then [92, 92]
  else if c < 32 || isLeadingSurrogate c || isTrailingSurrogate c then
    [92, 117, hexDigitLower (c / 4096), hexDigitLower (c / 256 % 16),
      hexDigitLower (c / 16 % 16), hexDigitLower (c % 16)]
  else [c]

/-- Body of `QuoteJSONString`: a surrogate pair is copied, every other code
unit goes through `quoteUnit` (so an unpaired surrogate is escaped). -/
def quoteBody : List Nat → List Nat
  | [] => []
  | [c] => quoteUnit c
  | c :: d :: rest =>
    if isLeadingSurrogate c && isTrailingSurrogate d then c :: d :: quoteBody rest
    else quoteUnit c ++ quoteBody (d :: rest)

/-- `QuoteJSONString(value)`. -/
def quoteJSONString (s : List Nat) : List Nat :=
  34 :: (quoteBody s ++ [34])

/-- Decimal digits of a natural number, `Number::toString` on a non-negative
safe integer. -/
def naturalToString (n : Nat) : List Nat :=
  if n = 0 then [48] else ((Nat.digits 10 n).reverse.map (fun d => 48 + d))

/-- `Number::toString` on a safe integer. -/
def integerToString (n : Int) : List Nat :=
  if n < 0 then 45 :: naturalToString n.natAbs else naturalToString n.natAbs

/-- `Number::toString` on the number `m / 10 ^ k` that is not an integer, whose
decimal digits are those of `m` (ECMA-262, 6.1.6.1.20, with `n` the place of
the decimal point): the digits with the point inside for `0 < n ≤ 21`, behind
`0.` and zeros for `-5 ≤ n ≤ 0`, the exponential form otherwise. These are the
digits that a double writes when they are 15 at most. -/
def fractionToString (m : Int) (k : Nat) : List Nat :=
  let digits := naturalToString m.natAbs
  let n : Int := (digits.length : Int) - (k : Int)
  let body :=
    if 0 < n ∧ n ≤ 21 then digits.take n.toNat ++ 46 :: digits.drop n.toNat
    else if -5 ≤ n ∧ n ≤ 0 then 48 :: 46 :: (List.replicate (-n).toNat 48 ++ digits)
    else
      (if digits.length = 1 then digits else digits.take 1 ++ 46 :: digits.drop 1) ++
        101 :: (if 0 < n then 43 :: naturalToString (n - 1).toNat
          else 45 :: naturalToString (1 - n).toNat)
  if m < 0 then 45 :: body else body

mutual
/-- `JSON.stringify(value)` without indentation: `SerializeJSONProperty`. -/
def jsonStringify : Json → List Nat
  | Json.null => [110, 117, 108, 108]
  | Json.bool true => [116, 114, 117, 101]
  | Json.bool false => [102, 97, 108, 115, 101]
  | Json.number n => integerToString n
  | Json.fraction m k => fractionToString m k
  | Json.string s => quoteJSONString s
  | Json.array [] => [91, 93]
  | Json.array (v :: rest) => 91 :: (jsonStringify v ++ (stringifyMoreItems rest ++ [93]))
  | Json.object [] => [123, 125]
  | Json.object ((k, v) :: rest) =>
    123 :: (quoteJSONString k ++ 58 :: (jsonStringify v ++ (stringifyMoreMembers rest ++ [125])))
/-- The elements after the first, each behind a comma. -/
def stringifyMoreItems : List Json → List Nat
  | [] => []
  | v :: rest => 44 :: (jsonStringify v ++ stringifyMoreItems rest)
/-- The members after the first, each behind a comma. -/
def stringifyMoreMembers : List (List Nat × Json) → List Nat
  | [] => []
  | (k, v) :: rest =>
    44 :: (quoteJSONString k ++ 58 :: (jsonStringify v ++ stringifyMoreMembers rest))
end

/-- JSON whitespace: tab, line feed, carriage return, space. -/
def isJsonWhitespace (c : Nat) : Bool := c == 9 || c == 10 || c == 13 || c == 32

/-- Skips JSON whitespace. -/
def skipWhitespace : List Nat → List Nat
  | [] => []
  | c :: rest => if isJsonWhitespace c then skipWhitespace rest else c :: rest

/-- Decimal digit. -/
def isDigit (c : Nat) : Bool := 48 ≤ c && c ≤ 57

/-- Longest run of decimal digits at the front, and what follows it. -/
def takeDigits : List Nat → List Nat × List Nat
  | [] => ([], [])
  | c :: rest =>
    if isDigit c then ((takeDigits rest).1.cons c, (takeDigits rest).2) else ([], c :: rest)

/-- Value of a run of decimal digits. -/
def digitsValue (ds : List Nat) : Nat :=
  ds.foldl (fun acc c => acc * 10 + (c - 48)) 0

/-- Integer part of a number literal: `0`, or digits that do not start with
`0`. -/
def parseNatural (input : List Nat) : Option (Nat × List Nat) :=
  match takeDigits input with
  | ([], _) => none
  | (d :: ds, rest) =>
    if d = 48 && !ds.isEmpty then none else some (digitsValue (d :: ds), rest)

/-- Fraction of a number literal, which gives its digits: nothing, or a point
and one digit at least. -/
def parseFraction (input : List Nat) : Option (List Nat × List Nat) :=
  match input with
  | [] => some ([], [])
  | c :: rest =>
    if c = 46 then
      match takeDigits rest with
      | ([], _) => none
      | (d :: ds, rest1) => some (d :: ds, rest1)
    else some ([], c :: rest)

/-- Digits of an exponent, one at least, with the sign that stands before
them. -/
def parseExponentDigits (negative : Bool) (input : List Nat) : Option (Int × List Nat) :=
  match takeDigits input with
  | ([], _) => none
  | (d :: ds, rest) =>
    some (if negative then -(digitsValue (d :: ds) : Int) else (digitsValue (d :: ds) : Int),
      rest)

/-- Exponent of a number literal: nothing, or `e` or `E`, a sign or none, and
one digit at least. -/
def parseExponent (input : List Nat) : Option (Int × List Nat) :=
  match input with
  | [] => some (0, [])
  | c :: rest =>
    if c = 101 || c = 69 then
      match rest with
      | [] => none
      | sign :: rest1 =>
        if sign = 45 then parseExponentDigits true rest1
        else if sign = 43 then parseExponentDigits false rest1
        else parseExponentDigits false (sign :: rest1)
    else some (0, c :: rest)

/-- Takes the factors 10 that `m` and `10 ^ k` share out of `m / 10 ^ k`. -/
def reduceDecimal : Nat → Nat → Nat × Nat
  | m, 0 => (m, 0)
  | m, k + 1 => if m % 10 = 0 then reduceDecimal (m / 10) k else (m, k + 1)

/-- The number `mantissa × 10 ^ exponent` with its sign, as a value. -/
def decimalValue (negative : Bool) (mantissa : Nat) (exponent : Int) : Json :=
  let sign : Int := if negative then -1 else 1
  if 0 ≤ exponent then Json.number (sign * (mantissa * 10 ^ exponent.toNat : Nat))
  else
    let r := reduceDecimal mantissa (-exponent).toNat
    if r.2 = 0 then Json.number (sign * (r.1 : Nat)) else Json.fraction (sign * (r.1 : Nat)) r.2

/-- Number literal: a sign or none, the integer part, a fraction or none, an
exponent or none. -/
def parseNumber (input : List Nat) : Option (Json × List Nat) :=
  match input with
  | [] => none
  | c :: rest =>
    match parseNatural (if c = 45 then rest else c :: rest) with
    | none => none
    | some (whole, rest1) =>
      match parseFraction rest1 with
      | none => none
      | some (fraction, rest2) =>
        match parseExponent rest2 with
        | none => none
        | some (exponent, rest3) =>
          some (decimalValue (c == 45)
            (whole * 10 ^ fraction.length + digitsValue fraction)
            (exponent - (fraction.length : Int)), rest3)

/-- Code unit named by the single-character escape `\c`. -/
def singleEscape (c : Nat) : Option Nat :=
  if c = 34 then some 34
  else if c = 92 then some 92
  else if c = 47 then some 47
  else if c = 98 then some 8
  else if c = 102 then some 12
  else if c = 110 then some 10
  else if c = 114 then some 13
  else if c = 116 then some 9
  else none

/-- Puts a code unit in front of a parsed string. -/
def consUnit (u : Nat) (p : Option (List Nat × List Nat)) : Option (List Nat × List Nat) :=
  p.map (fun q => (u :: q.1, q.2))

/-- String literal behind its opening quote: the code units up to the closing
quote, and what follows it. Control characters must be escaped. -/
def parseStringBody : List Nat → Option (List Nat × List Nat)
  | [] => none
  | c :: rest =>
    if c = 34 then some ([], rest)
    else if c = 92 then
      match rest with
      | [] => none
      | e :: rest1 =>
        if e = 117 then
          match rest1 with
          | h1 :: h2 :: h3 :: h4 :: rest4 =>
            if isHexDigit h1 && isHexDigit h2 && isHexDigit h3 && isHexDigit h4 then
              consUnit (hexValue h1 * 4096 + hexValue h2 * 256 + hexValue h3 * 16 + hexValue h4)
                (parseStringBody rest4)
            else none
          | _ => none
        else
          match singleEscape e with
          | some u => consUnit u (parseStringBody rest1)
          | none => none
    else if c < 32 then none
    else consUnit c (parseStringBody rest)

/-- Reads the given literal text from the front. -/
def expectText : List Nat → List Nat → Option (List Nat)
  | [], input => some input
  | _ :: _, [] => none
  | t :: ts, c :: rest => if t = c then expectText ts rest else none

/-- `CreateDataProperty` on the member list: an existing key gets the new
value at its place, a new key is appended. -/
def defineProperty (members : List (List Nat × Json)) (kv : List Nat × Json) :
    List (List Nat × Json) :=
  match members with
  | [] => [kv]
  | (k, v) :: rest =>
    if k = kv.1 then (k, kv.2) :: rest else (k, v) :: defineProperty rest kv

mutual
/-- JSON value at the front of the input. The first argument bounds the
nesting of calls. -/
def parseValue : Nat → List Nat → Option (Json × List Nat)
  | 0, _ => none
  | _ + 1, [] => none
  | fuel + 1, c :: rest =>
    if c = 110 then (expectText [117, 108, 108] rest).map (fun r => (Json.null, r))
    else if c = 116 then (expectText [114, 117, 101] rest).map (fun r => (Json.bool true, r))
    else if c = 102 then
      (expectText [97, 108, 115, 101] rest).map (fun r => (Json.bool false, r))
    else if c = 34 then (parseStringBody rest).map (fun p => (Json.string p.1, p.2))
    else if c = 91 then
      match skipWhitespace rest with
      | [] => none
      | d :: rest1 =>
        if d = 93 then some (Json.array [], rest1)
        else (parseElements fuel (d :: rest1)).map (fun p => (Json.array p.1, p.2))
    else if c = 123 then
      match skipWhitespace rest with
      | [] => none
      | d :: rest1 =>
        if d = 125 then some (Json.object [], rest1)
        else
          (parseMembers fuel (d :: rest1)).map
            (fun p => (Json.object (p.1.foldl defineProperty []), p.2))
    else parseNumber (c :: rest)
/-- Elements of an array up to the closing bracket; the input starts at the
first code unit of an element. -/
def parseElements : Nat → List Nat → Option (List Json × List Nat)
  | 0, _ => none
  | fuel + 1, input =>
    match parseValue fuel input with
    | none => none
    | some (v, rest) =>
      match skipWhitespace rest with
      | [] => none
      | d :: rest1 =>
        if d = 93 then some ([v], rest1)
        else if d = 44 then
          (parseElements fuel (skipWhitespace rest1)).map (fun p => (v :: p.1, p.2))
        else none
/-- Members of an object up to the closing brace; the input starts at the
opening quote of a key. -/
def parseMembers : Nat → List Nat → Option (List (List Nat × Json) × List Nat)
  | 0, _ => none
  | _ + 1, [] => none
  | fuel + 1, q :: input =>
    if q = 34 then
      match parseStringBody input with
      | none => none
      | some (k, rest) =>
        match skipWhitespace rest with
        | [] => none
        | colon :: rest1 =>
          if colon = 58 then
            match parseValue fuel (skipWhitespace rest1) with
            | none => none
            | some (v, rest2) =>
              match skipWhitespace rest2 with
              | [] => none
              | d :: rest3 =>
                if d = 125 then some ([(k, v)], rest3)
                else if d = 44 then
                  (parseMembers fuel (skipWhitespace rest3)).map (fun p => ((k, v) :: p.1, p.2))
                else none
          else none
    else none
end

/-- `JSON.parse(text)`; `none` is a `SyntaxError`. -/
def jsonParse (text : List Nat) : Option Json :=
  match parseValue (text.length + 1) (skipWhitespace text) with
  | none => none
  | some (v, rest) => if (skipWhitespace rest).isEmpty then some v else none

/-- `decodeBase64(base64)`, lines 274-282: any exception of the decoding or of
`JSON.parse` is caught and `null` is returned. -/
def decodeBase64 (base64 : List Nat) : Json :=
  match (bufferBase64ToUtf8 base64).bind jsonParse with
  | some v => v
  | none => Json.null

mutual
/-- Values that JSON represents exactly in this model: strings of 16-bit code
units, safe integers, objects that have every key once. -/
def representable : Json → Bool
  | Json.null => true
  | Json.bool _ => true
  | Json.number n => decide (-9007199254740992 < n) && decide (n < 9007199254740992)
  | Json.fraction _ _ => false
  | Json.string s => s.all (fun c => decide (c < 65536))
  | Json.array items => representableItems items
  | Json.object members =>
    representableMembers members && decide ((members.map Prod.fst).Nodup)
/-- Every element is representable. -/
def representableItems : List Json → Bool
  | [] => true
  | v :: rest => representable v && representableItems rest
/-- Every key and every value is representable. -/
def representableMembers : List (List Nat × Json) → Bool
  | [] => true
  | (k, v) :: rest =>
    k.all (fun c => decide (c < 65536)) && representable v && representableMembers rest
end

/-- The message `{type: 'ENTRY', source: 'u1', groupId: 'g1', entry: {...}}` that
`sendEntry` writes for an entry with the fields of `Entry.toObject`; the notes
hold a control character, a quote, letters outside of ASCII and a character
outside of the basic plane. -/
def entryMessageJson : Json :=
  Json.object
    [(js "type", Json.string (js "ENTRY")),
     (js "source", Json.string (js "u1")),
     (js "groupId", Json.string (js "g1")),
     (js "entry", Json.object
       [(js "id", Json.string (js "e1")),
        (js "vasaNumber", Json.string (js "123")),
        (js "emoNumber", Json.string (js "456")),
        (js "groupId", Json.string (js "g1")),
        (js "createdBy", Json.null),
        (js "creatorName", Json.string (js "Päivi")),
        (js "createdAt", Json.string (js "2024-05-01T10:00:00.000Z")),
        (js "synced", Json.bool false),
        (js "notes", Json.string (js "vasa \"1\"\n€ 𝄞"))])]

/-- What can follow a value inside a JSON text written by `jsonStringify`: the
end, a comma, a closing bracket or a closing brace. -/
def endsValue (rest : List Nat) : Bool :=
  match rest with
  | [] => true
  | c :: _ => c == 44 || c == 93 || c == 125

mutual
/-- Number of nested parser calls that reading a value back takes. -/
def jsonSize : Json → Nat
  | Json.array items => 1 + sizeItems items
  | Json.object members => 1 + sizeMembers members
  | _ => 1
/-- Size of the elements of an array. -/
def sizeItems : List Json → Nat
  | [] => 0
  | v :: rest => 1 + jsonSize v + sizeItems rest
/-- Size of the members of an object. -/
def sizeMembers : List (List Nat × Json) → Nat
  | [] => 0
  | (_, v) :: rest => 1 + jsonSize v + sizeMembers rest
end

/-! ## Connecting -/

/-- `BluetoothService.stopScan()`, lines 146-151. -/
def stopScan (s : SyncState) : SyncState :=
  if s.isScanning then { s with isScanning := false } else s

/-- `Map.prototype.get`. -/
def mapGet (m : List (String × Device)) (k : String) : Option Device :=
  match m with
  | [] => none
  | (k1, d1) :: rest => if k1 = k then some d1 else mapGet rest k

/-- `BluetoothService.connectToDevice(deviceId)`, lines 154-188, with the
device it returns (`none` is `null`). A device that was not seen by the scan
and a failed connection end in the `catch`, which calls the handler of the
connection state with `(false, null)`. The handler is the
`handleConnectionStateChange` of `SyncService` when the handlers are installed;
it is run to its end, as in `handleConnectionStateChange`. -/
def connectToDevice (env : Env) (fuel : Nat) (s : SyncState) (deviceId : String) :
    (SyncState × Bool) × Option Device :=
  let s1 := stopScan s
  let failed : (SyncState × Bool) × Option Device :=
    if s1.handlersInstalled then (handleConnectionStateChange env fuel s1 false none, none)
    else ((s1, true), none)
  match mapGet s1.devices deviceId with
  | none => failed
  | some device =>
    if env.connect && env.discoverServices then
      let s2 := { s1 with connectedDevice := some device }
      if s2.handlersInstalled then
        (handleConnectionStateChange env fuel s2 true (some device), some device)
      else ((s2, true), some device)
    else failed

/-- Member of group `g1` whose scan has seen the device `d1` of the host, with
the handlers of the service installed and a listener for disconnections. -/
def scanningMember : SyncState :=
  { currentGroupId := some "g1", userId := some "u1", initialized := true,
    handlersInstalled := true, onDeviceDisconnected := true,
    isScanning := true, devices := [("d1", { id := "d1" })] }

/-! ## Locations and distances -/

/-- The number operations that the distance functions use. The numbers of the
program are IEEE 754 doubles and `Math.sin`, `Math.cos`, `Math.sqrt` and
`Math.atan2` are those of the platform, so that they are taken as a
parameter. -/
structure Arithmetic (F : Type) where
  /-- An integer literal of the source. -/
  ofNat : Nat → F
  /-- The constant `Math.PI`. -/
  pi : F
  add : F → F → F
  sub : F → F → F
  mul : F → F → F
  div : F → F → F
  sin : F → F
  cos : F → F
  sqrt : F → F
  atan2 : F → F → F
  /-- The comparison `===` of two numbers. -/
  strictEq : F → F → Bool
  /-- The comparison `<=` of two numbers. -/
  le : F → F → Bool

/-- The arithmetic of the doubles. -/
def doubles : Arithmetic Float where
  ofNat := fun n => n.toFloat
  pi := 3.141592653589793
  add := fun x y => x + y
  sub := fun x y => x - y
  mul := fun x y => x * y
  div := fun x y => x / y
  sin := Float.sin
  cos := Float.cos
  sqrt := Float.sqrt
  atan2 := Float.atan2
  strictEq := fun x y => x == y
  le := fun x y => decide (x ≤ y)

/-- A location object `{latitude, longitude}`. -/
structure Location (F : Type) where
  latitude : F
  longitude : F

/-- The Haversine formula as both distance functions write it. -/
def haversine {F : Type} (M : Arithmetic F) (lat1 lon1 lat2 lon2 : F) : F :=
  let r := M.ofNat 6371000
  let phi1 := M.div (M.mul lat1 M.pi) (M.ofNat 180)
  let phi2 := M.div (M.mul lat2 M.pi) (M.ofNat 180)
  let dPhi := M.div (M.mul (M.sub lat2 lat1) M.pi) (M.ofNat 180)
  let dLambda := M.div (M.mul (M.sub lon2 lon1) M.pi) (M.ofNat 180)
  let a :=
    M.add (M.mul (M.sin (M.div dPhi (M.ofNat 2))) (M.sin (M.div dPhi (M.ofNat 2))))
      (M.mul
        (M.mul (M.mul (M.cos phi1) (M.cos phi2)) (M.sin (M.div dLambda (M.ofNat 2))))
        (M.sin (M.div dLambda (M.ofNat 2))))
  let c := M.mul (M.ofNat 2) (M.atan2 (M.sqrt a) (M.sqrt (M.sub (M.ofNat 1) a)))
  M.mul r c

/-- `LocationService.calculateDistance(lat1, lon1, lat2, lon2)`, lines 117-136. -/
def LocationService.calculateDistance {F : Type} (M : Arithmetic F)
    (lat1 lon1 lat2 lon2 : F) : F :=
  if M.strictEq lat1 lat2 && M.strictEq lon1 lon2 then M.ofNat 0
  else haversine M lat1 lon1 lat2 lon2

/-- `LocationService.isInProximity(location1, location2, proximityThreshold)`,
lines 139-150; a threshold that is not given is `none` and stands for 100. -/
def LocationService.isInProximity {F : Type} (M : Arithmetic F)
    (location1 location2 : Option (Location F)) (proximityThreshold : Option F) : Bool :=
  match location1, location2 with
  | some l1, some l2 =>
    let distance := calculateDistance M l1.latitude l1.longitude l2.latitude l2.longitude
    M.le distance (proximityThreshold.getD (M.ofNat 100))
  | _, _ => false

/-- `calculateDistance(point1, point2)` of `helpers.js`, lines 44-62; `none` is
`null`. -/
def helpers.calculateDistance {F : Type} (M : Arithmetic F)
    (point1 point2 : Option (Location F)) : Option F :=
  match point1, point2 with
  | some p1, some p2 => some (haversine M p1.latitude p1.longitude p2.latitude p2.longitude)
  | _, _ => none

/-- `isInProximity(location1, location2, thresholdMeters)` of `helpers.js`,
lines 92-99. -/
def helpers.isInProximity {F : Type} (M : Arithmetic F)
    (location1 location2 : Option (Location F)) (thresholdMeters : Option F) : Bool :=
  match location1, location2 with
  | some l1, some l2 =>
    match calculateDistance M (some l1) (some l2) with
    | none => false
    | some distance => M.le distance (thresholdMeters.getD (M.ofNat 100))
  | _, _ => false

/-! ## The `Entry` model -/

/-- The argument of `Entry.update`; a field that is `undefined` is `none`. -/
structure EntryUpdate where
  vasaNumber : Option String := none
  emoNumber : Option String := none
  notes : Option String := none
deriving DecidableEq, Repr

/-- `Entry.update(data)`, lines 97-106; `now` is `new Date().toISOString()`. -/
def Entry.update (e : Entry) (data : EntryUpdate) (now : String) : Entry :=
  let e1 := match data.vasaNumber with
    | some v => { e with vasaNumber := v }
    | none => e
  let e2 := match data.emoNumber with
    | some v => { e1 with emoNumber := v }
    | none => e1
  let e3 := match data.notes with
    | some v => { e2 with notes := v }
    | none => e2
  { e3 with updatedAt := now, synced := false }


/-! ## Validation -/

/-- Code unit that is `WhiteSpace` or `LineTerminator`, the units that
`String.prototype.trim` removes. -/
def isTrimWhitespace (c : Nat) : Bool :=
  c == 9 || c == 10 || c == 11 || c == 12 || c == 13 || c == 32 || c == 160 ||
  c == 5760 || (8192 ≤ c && c ≤ 8202) || c == 8232 || c == 8233 || c == 8239 ||
  c == 8287 || c == 12288 || c == 65279

/-- `String.prototype.trim`. -/
def trim (s : List Nat) : List Nat :=
  ((s.dropWhile isTrimWhitespace).reverse.dropWhile isTrimWhitespace).reverse

/-- Code unit of the class `[a-zA-Z0-9-]`. -/
def numberUnit (c : Nat) : Bool :=
  isAlphaNum c || c == 45

/-- Match of `[a-zA-Z0-9-]{lo,hi}$` at some place of the input, `count` units
of the class taken and at most `more` to take. The repetition is greedy; to
stop it before a unit that is left cannot match, as `$` is the end of the
input (the patterns have no `m` flag). -/
def matchRepeat (lo : Nat) : Nat → Nat → List Nat → Bool
  | _, count, [] => decide (lo ≤ count)
  | 0, _, _ :: _ => false
  | more + 1, count, c :: rest => numberUnit c && matchRepeat lo more (count + 1) rest

/-- `VALIDATION.VASA_NUMBER.test(s)`, the pattern `/^[a-zA-Z0-9-]{1,20}$/`. -/
def VALIDATION.VASA_NUMBER (s : List Nat) : Bool :=
  matchRepeat 1 20 0 s

/-- `VALIDATION.EMO_NUMBER.test(s)`, the pattern `/^[a-zA-Z0-9-]{1,20}$/`. -/
def VALIDATION.EMO_NUMBER (s : List Nat) : Bool :=
  matchRepeat 1 20 0 s

/-- Result `{isValid, message}` of the validation of one field. -/
structure FieldValidation where
  isValid : Bool
  message : String
deriving DecidableEq, Repr

/-- `validateVasaNumber(vasaNumber)`, lines 71-88; `none` is a missing field. -/
def validateVasaNumber (vasaNumber : Option String) : FieldValidation :=
  if !truthy vasaNumber || trim (js (vasaNumber.getD "")) == [] then
    ⟨false, "Vasan numero on pakollinen"⟩
  else if (js (vasaNumber.getD "")).length > 20 then
    ⟨false, "Vasan numero saa olla enintään 20 merkkiä pitkä"⟩
  else if !VALIDATION.VASA_NUMBER (js (vasaNumber.getD "")) then
    ⟨false, "Vasan numero voi sisältää vain kirjaimia, numeroita ja yhdysviivoja"⟩
  else ⟨true, ""⟩

/-- `validateEmoNumber(emoNumber)`, lines 95-112. -/
def validateEmoNumber (emoNumber : Option String) : FieldValidation :=
  if !truthy emoNumber || trim (js (emoNumber.getD "")) == [] then
    ⟨false, "Emon numero on pakollinen"⟩
  else if (js (emoNumber.getD "")).length > 20 then
    ⟨false, "Emon numero saa olla enintään 20 merkkiä pitkä"⟩
  else if !VALIDATION.EMO_NUMBER (js (emoNumber.getD "")) then
    ⟨false, "Emon numero voi sisältää vain kirjaimia, numeroita ja yhdysviivoja"⟩
  else ⟨true, ""⟩

/-- The object `{vasaNumber, emoNumber, groupId}` given to `validateEntry`. -/
structure EntryFields where
  vasaNumber : Option String := none
  emoNumber : Option String := none
  groupId : Option String := none
deriving DecidableEq, Repr

/-- Result `{isValid, errors}` of `validateEntry`. -/
structure EntryValidation where
  isValid : Bool
  errors : List String
deriving DecidableEq, Repr

/-- `validateEntry(entry)` of `validation.js`, lines 140-168; `none` is a
missing entry. -/
def validateEntry (entry : Option EntryFields) : EntryValidation :=
  match entry with
  | none => ⟨false, ["Merkintä puuttuu"]⟩
  | some e =>
    let errors : List String := []
    let vasaResult := validateVasaNumber e.vasaNumber
    let errors := if !vasaResult.isValid then errors ++ [vasaResult.message] else errors
    let emoResult := validateEmoNumber e.emoNumber
    let errors := if !emoResult.isValid then errors ++ [emoResult.message] else errors
    let errors := if !truthy e.groupId then errors ++ ["Ryhmän tunniste puuttuu"] else errors
    ⟨errors.length == 0, errors⟩

/-- The documented rule for a number: a string of 1 to 20 characters, each of
`[a-zA-Z0-9-]`. -/
def documentedNumber (x : Option String) : Bool :=
  match x with
  | none => false
  | some v =>
    decide (1 ≤ v.length) && decide (v.length ≤ 20) &&
      v.toList.all (fun ch => numberUnit ch.toNat)


/-! ## Entry identifiers -/

/-- The loop of `generateEntryIdentifier`, lines 77-80, over the code units of
`combined`. -/
def entryHash (combined : List Nat) : Nat :=
  combined.foldl (fun hash char => (hash * 31 + char) % 1000000) 0

/-- `Number.prototype.toString(16)` on a natural number. -/
def toStringHex (n : Nat) : List Nat :=
  if n = 0 then [48] else (Nat.digits 16 n).reverse.map hexDigitLower

/-- `generateEntryIdentifier(vasaNumber, emoNumber)` of `helpers.js`, lines
72-83; `timestamp` is the value of `new Date().getTime()`. The hash is not
negative, so that `Math.abs` returns it. -/
def generateEntryIdentifier (vasaNumber emoNumber : String) (timestamp : Nat) : List Nat :=
  let combined := js vasaNumber ++ [45] ++ js emoNumber ++ [45] ++ naturalToString timestamp
  toStringHex (entryHash combined)

/-! ## The `Group` model -/

/-- An element of `pendingMembers`. The location of the request plays no part
in the methods below and is left out. -/
structure PendingMember where
  userId : String
  username : String := ""
  requestedAt : String := ""
deriving DecidableEq, Repr

/-- An instance of `Group`, without its location and description. The
defaults are those of the constructor. -/
structure Group where
  id : String
  name : String := ""
  ownerId : Option String := none
  ownerName : String := ""
  members : List String := []
  pendingMembers : List PendingMember := []
  createdAt : String := ""
  updatedAt : String := ""
  active : Bool := true
deriving DecidableEq, Repr

/-- The argument of `addPendingRequest`; a field that is missing is `none`. -/
structure JoinRequest where
  userId : Option String := none
  username : Option String := none
  requestedAt : Option String := none
deriving DecidableEq, Repr

/-- `addMember(userId)`, lines 90-98; `now` is `new Date().toISOString()`. -/
def Group.addMember (g : Group) (userId : Option String) (now : String) : Group × Bool :=
  if !truthy userId || g.members.contains (userId.getD "") then (g, false)
  else ({ g with members := g.members ++ [userId.getD ""], updatedAt := now }, true)

/-- `removeMember(userId)`, lines 105-113. -/
def Group.removeMember (g : Group) (userId : Option String) (now : String) : Group × Bool :=
  if !truthy userId || !g.members.contains (userId.getD "") then (g, false)
  else
    ({ g with members := g.members.filter (fun id => id != userId.getD ""), updatedAt := now },
      true)

/-- `addPendingRequest(request)`, lines 120-144; `none` is a missing request. -/
def Group.addPendingRequest (g : Group) (request : Option JoinRequest) (now : String) :
    Group × Bool :=
  match request with
  | none => (g, false)
  | some r =>
    if !truthy r.userId then (g, false)
    else if g.members.contains (r.userId.getD "") then (g, false)
    else if g.pendingMembers.any (fun p => p.userId == r.userId.getD "") then (g, false)
    else
      let pending : PendingMember :=
        { userId := r.userId.getD ""
          username := r.username.getD ""
          requestedAt := if truthy r.requestedAt then r.requestedAt.getD "" else now }
      ({ g with pendingMembers := g.pendingMembers ++ [pending], updatedAt := now }, true)

/-- `acceptPendingRequest(userId)`, lines 151-171. -/
def Group.acceptPendingRequest (g : Group) (userId : Option String) (now : String) :
    Group × Bool :=
  if !truthy userId then (g, false)
  else
    match g.pendingMembers.findIdx? (fun p => p.userId == userId.getD "") with
    | none => (g, false)
    | some pendingIndex =>
      match g.pendingMembers[pendingIndex]? with
      | none => (g, false)
      | some pendingMember =>
        ({ g with
            pendingMembers := g.pendingMembers.eraseIdx pendingIndex
            members := g.members ++ [pendingMember.userId]
            updatedAt := now }, true)

/-- `rejectPendingRequest(userId)`, lines 178-194. -/
def Group.rejectPendingRequest (g : Group) (userId : Option String) (now : String) :
    Group × Bool :=
  if !truthy userId then (g, false)
  else
    match g.pendingMembers.findIdx? (fun p => p.userId == userId.getD "") with
    | none => (g, false)
    | some pendingIndex =>
      ({ g with pendingMembers := g.pendingMembers.eraseIdx pendingIndex, updatedAt := now },
        true)

/-- A call of one of the five methods that change the lists of a group. -/
inductive GroupOp where
  | addMember (userId : Option String)
  | removeMember (userId : Option String)
  | addPendingRequest (request : Option JoinRequest)
  | acceptPendingRequest (userId : Option String)
  | rejectPendingRequest (userId : Option String)
deriving DecidableEq, Repr

/-- The group after the call. -/
def GroupOp.run (now : String) (g : Group) (op : GroupOp) : Group :=
  match op with
  | GroupOp.addMember u => (g.addMember u now).1
  | GroupOp.removeMember u => (g.removeMember u now).1
  | GroupOp.addPendingRequest r => (g.addPendingRequest r now).1
  | GroupOp.acceptPendingRequest u => (g.acceptPendingRequest u now).1
  | GroupOp.rejectPendingRequest u => (g.rejectPendingRequest u now).1

/-- The lists of a group are consistent: no user id is twice in `members` and
no pending user id is in `members`. -/
def membershipConsistent (g : Group) : Bool :=
  decide g.members.Nodup && g.pendingMembers.all (fun p => !g.members.contains p.userId)

/-- The group that `new Group({id: 'g1', ownerId: 'u0'})` makes. -/
def groupG1 : Group := { id := "g1", ownerId := some "u0" }

/-! ## Adding an entry -/

/-- The signed-in user of `AuthContext`. -/
structure User where
  id : String
  username : String
deriving DecidableEq, Repr

/-- The `entryData` given to `addEntry`; an `id` in it replaces the fresh one,
as the object is spread after it. -/
structure EntryData where
  id : Option String := none
  vasaNumber : String := ""
  emoNumber : String := ""
  notes : String := ""
deriving DecidableEq, Repr

/-- `addEntry(entryData, groupId)` of `GroupContext.js`, lines 255-312, as the
storage it leaves and the entry it returns or the error it throws. `groups` is
what is stored under the key `groups`, `uuid` the value of `uuid.v4()` and
`now` that of `new Date().toISOString()`. The list of the user is written
(line 283) before the entry is marked (line 292). -/
def addEntry (env : Env) (user : Option User) (activeGroup : Option Group)
    (groups : Option (List Group)) (storage : List (String × List Entry))
    (uuid now : String) (entryData : EntryData) (groupId : Option String) :
    List (String × List Entry) × Except String Entry :=
  match user with
  | none => (storage, Except.error "Kirjaudu sisään lisätäksesi merkinnän")
  | some u =>
    let newEntry : Entry :=
      { id := entryData.id.getD uuid
        vasaNumber := entryData.vasaNumber
        emoNumber := entryData.emoNumber
        notes := entryData.notes
        createdBy := some u.id
        creatorName := u.username
        groupId := if truthy groupId then groupId else activeGroup.map (fun g => g.id)
        createdAt := now
        synced := false }
    if !truthy newEntry.groupId then (storage, Except.error "Valitse ryhmä merkinnälle")
    else if !env.storageRead then (storage, Except.error "getItem")
    else
      let userEntries := (getItem storage ("entries_" ++ u.id)).getD [] ++ [newEntry]
      if !env.storageWrite then (storage, Except.error "setItem")
      else
        let storage1 := setItem storage ("entries_" ++ u.id) userEntries
        match groups with
        | none => (storage1, Except.error "TypeError")
        | some allGroups =>
          match allGroups.find? (fun g => some g.id == newEntry.groupId) with
          | none => (storage1, Except.ok newEntry)
          | some group =>
            if group.ownerId == some u.id then
              let newEntry := { newEntry with synced := true }
              let groupEntries :=
                (getItem storage1 ("groupEntries_" ++ group.id)).getD [] ++ [newEntry]
              (setItem storage1 ("groupEntries_" ++ group.id) groupEntries, Except.ok newEntry)
            else (storage1, Except.ok newEntry)

/-- The owner of `groupG1`. -/
def ownerU0 : User := { id := "u0", username := "Aino" }

/-- The entry that `addEntry` makes for `ownerU0` from the numbers 123 and 456. -/
def entryOfOwner : Entry :=
  { id := "e1", vasaNumber := "123", emoNumber := "456", groupId := some "g1",
    createdBy := some "u0", creatorName := "Aino", createdAt := "t" }

/-! ## C1: codec round trip -/

theorem hexDigit_spec (n : Nat) (h : n < 16) :
    isHexDigit (hexDigit n) = true ∧ hexValue (hexDigit n) = n ∧ hexDigit n ≠ 117 ∧
      hexDigit n ≠ 37 := by
  interval_cases n <;> decide

theorem unescape_other (c : Nat) (r : List Nat) (h : c ≠ 37) :
    unescape (c :: r) = c :: unescape r := by
  rw [unescape.eq_def]
  simp [h]

theorem unescape_two (h1 h2 : Nat) (r : List Nat) (hne : h1 ≠ 117)
    (hx1 : isHexDigit h1 = true) (hx2 : isHexDigit h2 = true) :
    unescape (37 :: h1 :: h2 :: r) = (hexValue h1 * 16 + hexValue h2) :: unescape r := by
  rw [unescape]
  · simp [hx1, hx2]
  · intro _ _ _ _ h117 _
    exact hne h117

theorem unescape_percentOctet (b : Nat) (r : List Nat) (hb : b < 256) :
    unescape (percentOctet b ++ r) = b :: unescape r := by
  have h1 := hexDigit_spec (b / 16) (by omega)
  have h2 := hexDigit_spec (b % 16) (by omega)
  simp only [percentOctet, List.cons_append, List.nil_append]
  rw [unescape_two _ _ _ h1.2.2.1 h1.1 h2.1, h1.2.1, h2.2.1]
  congr 1
  omega

theorem unescape_percentOctets (bs r : List Nat) (hb : ∀ b ∈ bs, b < 256) :
    unescape (bs.flatMap percentOctet ++ r) = bs ++ unescape r := by
  induction bs with
  | nil => simp
  | cons b rest ih =>
    simp only [List.flatMap_cons, List.append_assoc, List.cons_append]
    rw [unescape_percentOctet _ _ (hb b (by simp)), ih (fun x hx => hb x (by simp [hx]))]

theorem utf8Octets_lt (cp : Nat) (h : cp < 1114112) : ∀ b ∈ utf8Octets cp, b < 256 := by
  intro b hb
  unfold utf8Octets at hb
  split at hb
  · simp at hb; omega
  · split at hb
    · simp at hb; omega
    · split at hb
      · simp at hb; omega
      · simp at hb; omega

theorem surrogatePair_lt (c d : Nat) (hc : isLeadingSurrogate c = true)
    (hd : isTrailingSurrogate d = true) :
    65536 ≤ surrogatePairToCodePoint c d ∧ surrogatePairToCodePoint c d < 1114112 := by
  simp only [isLeadingSurrogate, isTrailingSurrogate, Bool.and_eq_true, decide_eq_true_eq] at hc hd
  unfold surrogatePairToCodePoint
  omega

theorem uriUnreserved_ascii (c : Nat) (h : uriUnreserved c = true) : c < 128 ∧ c ≠ 37 := by
  simp only [uriUnreserved, isAlphaNum, Bool.or_eq_true, Bool.and_eq_true, decide_eq_true_eq,
    beq_iff_eq] at h
  omega

theorem utf8OfString_lt (s : List Nat) (h : wellFormed s = true) :
    ∀ b ∈ utf8OfString s, b < 256 := by
  induction s using wellFormed.induct with
  | case1 => simp [utf8OfString]
  | case2 c =>
    simp only [wellFormed, Bool.and_eq_true, decide_eq_true_eq] at h
    simp only [utf8OfString]
    exact utf8Octets_lt c (by omega)
  | case3 c d rest hc ih =>
    simp only [wellFormed, hc, if_true, Bool.and_eq_true] at h
    simp only [utf8OfString, hc, if_true]
    intro b hb
    rcases List.mem_append.mp hb with hb | hb
    · exact utf8Octets_lt _ (surrogatePair_lt c d hc h.1).2 b hb
    · exact ih h.2 b hb
  | case4 c d rest hc ih =>
    simp only [wellFormed, hc, Bool.and_eq_true, decide_eq_true_eq, Bool.false_eq_true,
      if_false] at h
    simp only [utf8OfString, hc]
    intro b hb
    simp only [Bool.false_eq_true, if_false] at hb
    rcases List.mem_append.mp hb with hb | hb
    · exact utf8Octets_lt _ (by omega) b hb
    · exact ih h.2 b hb

/-- On a well-formed string `unescape(encodeURIComponent(str))` is the string of
the UTF-8 octets. -/
theorem unescape_encodeURIComponent (s : List Nat) (h : wellFormed s = true) :
    (encodeURIComponent s).map unescape = some (utf8OfString s) := by
  induction s using wellFormed.induct with
  | case1 => simp [encodeURIComponent, utf8OfString, unescape]
  | case2 c =>
    simp only [wellFormed, Bool.and_eq_true, decide_eq_true_eq, Bool.not_eq_true'] at h
    by_cases hu : uriUnreserved c = true
    · have ha := uriUnreserved_ascii c hu
      simp [encodeURIComponent, hu, utf8OfString, utf8Octets, ha.1, unescape_other _ _ ha.2,
        unescape, ha.2]
    · have hlt := utf8Octets_lt c (by omega)
      have := unescape_percentOctets (utf8Octets c) [] hlt
      simp only [List.append_nil] at this
      simp [encodeURIComponent, hu, h.1.2, h.2, utf8OfString, percentCodePoint, this, unescape]
  | case3 c d rest hc ih =>
    simp only [wellFormed, hc, if_true, Bool.and_eq_true] at h
    have hnu : uriUnreserved c = false := by
      by_contra hcon
      have := uriUnreserved_ascii c (by simpa using hcon)
      simp only [isLeadingSurrogate, Bool.and_eq_true, decide_eq_true_eq] at hc
      omega
    have hnt : isTrailingSurrogate c = false := by
      simp only [isLeadingSurrogate, Bool.and_eq_true, decide_eq_true_eq] at hc
      simp [isTrailingSurrogate]; omega
    have ih' := ih h.2
    cases he : encodeURIComponent rest with
    | none => simp [he] at ih'
    | some e =>
      simp only [he, Option.map_some', Option.some.injEq] at ih'
      have hlt := utf8Octets_lt _ (surrogatePair_lt c d hc h.1).2
      simp [encodeURIComponent, hnu, hnt, hc, h.1, he, utf8OfString, percentCodePoint,
        unescape_percentOctets _ _ hlt, ih']
  | case4 c d rest hc ih =>
    simp only [wellFormed, hc, Bool.and_eq_true, decide_eq_true_eq, Bool.not_eq_true',
      Bool.false_eq_true, if_false] at h
    have ih' := ih h.2
    cases he : encodeURIComponent (d :: rest) with
    | none => simp [he] at ih'
    | some e =>
      simp only [he, Option.map_some', Option.some.injEq] at ih'
      by_cases hu : uriUnreserved c = true
      · have ha := uriUnreserved_ascii c hu
        simp [encodeURIComponent, hu, he, utf8OfString, hc, utf8Octets, ha.1,
          unescape_other _ _ ha.2, ih']
      · have hlt := utf8Octets_lt c (by omega)
        simp [encodeURIComponent, hu, h.1.2, hc, he, utf8OfString, percentCodePoint,
          unescape_percentOctets _ _ hlt, ih']

theorem base64Char_spec (n : Nat) (h : n < 64) :
    isBase64Char (base64Char n) = true ∧ base64Value (base64Char n) = n ∧
      base64Char n ≠ 61 ∧ isAsciiWhitespace (base64Char n) = false := by
  interval_cases n <;> decide

theorem base64Encode_eq (s : List Nat) :
    base64Encode s = (sextets s).map base64Char ++ List.replicate (paddingLength s) 61 := by
  induction s using sextets.induct with
  | case1 => rfl
  | case2 a => rfl
  | case3 a b => rfl
  | case4 a b c rest ih => simp [base64Encode, sextets, paddingLength, ih]

theorem sextets_lt (s : List Nat) (h : ∀ b ∈ s, b < 256) : ∀ x ∈ sextets s, x < 64 := by
  induction s using sextets.induct with
  | case1 => simp [sextets]
  | case2 a =>
    have := h a (by simp)
    simp only [sextets, List.mem_cons, List.mem_singleton, List.not_mem_nil, or_false]
    rintro x (rfl | rfl) <;> omega
  | case3 a b =>
    have := h a (by simp)
    have := h b (by simp)
    simp only [sextets, List.mem_cons, List.mem_singleton, List.not_mem_nil, or_false]
    rintro x (rfl | rfl | rfl) <;> omega
  | case4 a b c rest ih =>
    have := h a (by simp)
    have := h b (by simp)
    have := h c (by simp)
    have ih' := ih (fun x hx => h x (by simp [hx]))
    simp only [sextets, List.mem_cons]
    rintro x (rfl | rfl | rfl | rfl | hx)
    · omega
    · omega
    · omega
    · omega
    · exact ih' x hx

theorem decodeSextets_sextets (s : List Nat) (h : ∀ b ∈ s, b < 256) :
    decodeSextets (sextets s) = s := by
  induction s using sextets.induct with
  | case1 => rfl
  | case2 a =>
    have := h a (by simp)
    simp only [sextets, decodeSextets, List.cons.injEq, and_true]
    omega
  | case3 a b =>
    have := h a (by simp)
    have := h b (by simp)
    simp only [sextets, decodeSextets, List.cons.injEq, and_true]
    omega
  | case4 a b c rest ih =>
    have := h a (by simp)
    have := h b (by simp)
    have := h c (by simp)
    have ih' := ih (fun x hx => h x (by simp [hx]))
    simp only [sextets, decodeSextets, List.cons.injEq, ih', and_true]
    omega

theorem sextets_length (s : List Nat) :
    ((sextets s).length + paddingLength s) % 4 = 0 ∧ (sextets s).length % 4 ≠ 1 ∧
      paddingLength s ≤ 2 := by
  induction s using sextets.induct with
  | case1 => simp [sextets, paddingLength]
  | case2 a => simp [sextets, paddingLength]
  | case3 a b => simp [sextets, paddingLength]
  | case4 a b c rest ih =>
    simp only [sextets, paddingLength, List.length_cons]
    omega

theorem stripPadding_none (x : List Nat) (hx : ∀ c ∈ x, c ≠ 61) : stripPadding x = x := by
  unfold stripPadding
  split
  · rename_i h
    exact absurd rfl (hx 61 (List.mem_of_getLast?_eq_some h))
  · rfl

theorem stripPadding_padded (x : List Nat) (k : Nat) (hk : k ≤ 2) (hx : ∀ c ∈ x, c ≠ 61) :
    stripPadding (x ++ List.replicate k 61) = x := by
  have hlast : x.getLast? ≠ some 61 := fun h =>
    absurd rfl (hx 61 (List.mem_of_getLast?_eq_some h))
  interval_cases k
  · simpa using stripPadding_none x hx
  · simp only [List.replicate_one]
    unfold stripPadding
    simp [List.getLast?_concat, hlast]
  · have h2 : x ++ List.replicate 2 61 = (x ++ [61]) ++ [61] := by simp [List.replicate]
    rw [h2]
    unfold stripPadding
    simp [List.getLast?_concat]

/-- On octets `atob` undoes `btoa`. -/
theorem atob_btoa (s : List Nat) (h : ∀ b ∈ s, b < 256) :
    (btoa s).bind atob = some s := by
  have hall : s.all (fun c => decide (c < 256)) = true := by
    simpa [List.all_eq_true] using h
  have hsx := sextets_lt s h
  have hlen := sextets_length s
  have hne : ∀ c ∈ (sextets s).map base64Char, c ≠ 61 := by
    intro c hc
    obtain ⟨x, hx, rfl⟩ := List.mem_map.mp hc
    exact (base64Char_spec x (hsx x hx)).2.2.1
  have hfilter : (base64Encode s).filter (fun c => !isAsciiWhitespace c) = base64Encode s := by
    rw [List.filter_eq_self]
    intro c hc
    rw [base64Encode_eq] at hc
    rcases List.mem_append.mp hc with hc | hc
    · obtain ⟨x, hx, rfl⟩ := List.mem_map.mp hc
      simp [(base64Char_spec x (hsx x hx)).2.2.2]
    · rw [List.mem_replicate] at hc
      rw [hc.2]; decide
  have hlen4 : (base64Encode s).length % 4 = 0 := by
    rw [base64Encode_eq]; simpa using hlen.1
  have hstrip : stripPadding (base64Encode s) = (sextets s).map base64Char := by
    rw [base64Encode_eq]
    exact stripPadding_padded _ _ hlen.2.2 hne
  have hall64 : ((sextets s).map base64Char).all isBase64Char = true := by
    rw [List.all_eq_true]
    intro c hc
    obtain ⟨x, hx, rfl⟩ := List.mem_map.mp hc
    exact (base64Char_spec x (hsx x hx)).1
  have hval : ((sextets s).map base64Char).map base64Value = sextets s := by
    rw [List.map_map]
    conv_rhs => rw [← List.map_id (sextets s)]
    apply List.map_congr_left
    intro x hx
    exact (base64Char_spec x (hsx x hx)).2.1
  have hl1 : ¬ ((sextets s).map base64Char).length % 4 = 1 := by
    simpa using hlen.2.1
  simp only [btoa, hall, if_true, Option.some_bind, atob, hfilter, hlen4, hstrip, hl1, if_false,
    hall64, hval, decodeSextets_sextets s h]

theorem escapeUnescaped_ascii (c : Nat) (h : escapeUnescaped c = true) : c < 128 ∧ c ≠ 37 := by
  simp only [escapeUnescaped, isAlphaNum, Bool.or_eq_true, Bool.and_eq_true, decide_eq_true_eq,
    beq_iff_eq] at h
  omega

theorem uriItems_other (c : Nat) (r : List Nat) (h : c ≠ 37) :
    uriItems (c :: r) = (uriItems r).map (fun x => UriItem.unit c :: x) := by
  rw [uriItems.eq_def]
  simp [h]

theorem uriItems_percentOctet (b : Nat) (r : List Nat) (hb : b < 256) :
    uriItems (percentOctet b ++ r) = (uriItems r).map (fun x => UriItem.octet b :: x) := by
  have h1 := hexDigit_spec (b / 16) (by omega)
  have h2 := hexDigit_spec (b % 16) (by omega)
  have hv : hexValue (hexDigit (b / 16)) * 16 + hexValue (hexDigit (b % 16)) = b := by
    rw [h1.2.1, h2.2.1]; omega
  simp only [percentOctet, List.cons_append, List.nil_append]
  rw [uriItems.eq_def]
  simp [h1.1, h2.1, hv]

theorem uriItems_escape (bs : List Nat) (hb : ∀ b ∈ bs, b < 256) :
    uriItems (escape bs) = some (bs.map escapedItem) := by
  induction bs with
  | nil => simp [escape, uriItems]
  | cons b rest ih =>
    have ih' := ih (fun x hx => hb x (by simp [hx]))
    have hb' := hb b (by simp)
    unfold escape at ih' ⊢
    simp only [List.flatMap_cons, List.map_cons]
    by_cases hu : escapeUnescaped b = true
    · have ha := escapeUnescaped_ascii b hu
      simp only [hu, if_true, List.cons_append, List.nil_append]
      rw [uriItems_other _ _ ha.2, ih']
      simp [escapedItem, hu]
    · simp only [hu, hb', if_true, Bool.false_eq_true, if_false]
      rw [uriItems_percentOctet _ _ hb', ih']
      simp [escapedItem, hu]

theorem escapedItem_high (b : Nat) (h : 128 ≤ b) : escapedItem b = UriItem.octet b := by
  unfold escapedItem
  split
  · rename_i hu
    have := escapeUnescaped_ascii b hu
    omega
  · rfl

theorem decodeItems_ascii (b : Nat) (r : List UriItem) (h : b < 128) :
    decodeItems (escapedItem b :: r) = (decodeItems r).map (fun x => b :: x) := by
  unfold escapedItem
  split <;> simp [decodeItems, decodeItemsFrom, h]

theorem decodeItems_two (b1 b2 : Nat) (r : List UriItem) (h1 : 192 ≤ b1) (h1' : b1 < 224)
    (h2 : 128 ≤ b2) (h2' : b2 < 192) (hcp : 128 ≤ b1 % 32 * 64 + b2 % 64) :
    decodeItems (UriItem.octet b1 :: UriItem.octet b2 :: r) =
      (decodeItems r).map (fun x => utf16EncodeCodePoint (b1 % 32 * 64 + b2 % 64) ++ x) := by
  have n1 : ¬ b1 < 128 := by omega
  have n2 : ¬ b1 < 192 := by omega
  simp [decodeItems, decodeItemsFrom, validUtf8, n1, n2, h1', isContinuation, h2, h2', hcp]

theorem decodeItems_three (b1 b2 b3 : Nat) (r : List UriItem) (h1 : 224 ≤ b1) (h1' : b1 < 240)
    (h2 : 128 ≤ b2) (h2' : b2 < 192) (h3 : 128 ≤ b3) (h3' : b3 < 192)
    (hcp : 2048 ≤ b1 % 16 * 4096 + b2 % 64 * 64 + b3 % 64)
    (hs : ¬ (55296 ≤ b1 % 16 * 4096 + b2 % 64 * 64 + b3 % 64 ∧
      b1 % 16 * 4096 + b2 % 64 * 64 + b3 % 64 < 57344)) :
    decodeItems (UriItem.octet b1 :: UriItem.octet b2 :: UriItem.octet b3 :: r) =
      (decodeItems r).map
        (fun x => utf16EncodeCodePoint (b1 % 16 * 4096 + b2 % 64 * 64 + b3 % 64) ++ x) := by
  have n1 : ¬ b1 < 128 := by omega
  have n2 : ¬ b1 < 192 := by omega
  have n3 : ¬ b1 < 224 := by omega
  have hs' : 55296 ≤ b1 % 16 * 4096 + b2 % 64 * 64 + b3 % 64 →
      57344 ≤ b1 % 16 * 4096 + b2 % 64 * 64 + b3 % 64 := by omega
  have e : (b1 % 16 * 64 + b2 % 64) * 64 + b3 % 64 = b1 % 16 * 4096 + b2 % 64 * 64 + b3 % 64 := by
    omega
  simp [decodeItems, decodeItemsFrom, validUtf8, n1, n2, n3, h1', isContinuation, h2, h2', h3,
    h3', e, hcp, hs']
  intro ha hb
  exact absurd ⟨ha, hb⟩ hs

theorem decodeItems_four (b1 b2 b3 b4 : Nat) (r : List UriItem) (h1 : 240 ≤ b1) (h1' : b1 < 248)
    (h2 : 128 ≤ b2) (h2' : b2 < 192) (h3 : 128 ≤ b3) (h3' : b3 < 192)
    (h4 : 128 ≤ b4) (h4' : b4 < 192)
    (hcp : 65536 ≤ b1 % 8 * 262144 + b2 % 64 * 4096 + b3 % 64 * 64 + b4 % 64)
    (hmax : b1 % 8 * 262144 + b2 % 64 * 4096 + b3 % 64 * 64 + b4 % 64 < 1114112) :
    decodeItems
        (UriItem.octet b1 :: UriItem.octet b2 :: UriItem.octet b3 :: UriItem.octet b4 :: r) =
      (decodeItems r).map
        (fun x => utf16EncodeCodePoint
          (b1 % 8 * 262144 + b2 % 64 * 4096 + b3 % 64 * 64 + b4 % 64) ++ x) := by
  have n1 : ¬ b1 < 128 := by omega
  have n2 : ¬ b1 < 192 := by omega
  have n3 : ¬ b1 < 224 := by omega
  have n4 : ¬ b1 < 240 := by omega
  have e : ((b1 % 8 * 64 + b2 % 64) * 64 + b3 % 64) * 64 + b4 % 64 =
      b1 % 8 * 262144 + b2 % 64 * 4096 + b3 % 64 * 64 + b4 % 64 := by
    omega
  simp [decodeItems, decodeItemsFrom, validUtf8, n1, n2, n3, n4, h1', isContinuation, h2, h2',
    h3, h3', h4, h4', e, hcp, hmax]

/-- The items of the UTF-8 octets of a code point decode to its code units. -/
theorem decodeItems_codePoint (cp : Nat) (r : List UriItem) (hmax : cp < 1114112)
    (hs : ¬ (55296 ≤ cp ∧ cp < 57344)) :
    decodeItems ((utf8Octets cp).map escapedItem ++ r) =
      (decodeItems r).map (fun x => utf16EncodeCodePoint cp ++ x) := by
  unfold utf8Octets
  split
  · rename_i h
    have h16 : utf16EncodeCodePoint cp = [cp] := by simp [utf16EncodeCodePoint]; omega
    simp only [List.map_cons, List.map_nil, List.cons_append, List.nil_append]
    rw [decodeItems_ascii _ _ h, h16]
    rfl
  · split
    · rename_i h0 h
      simp only [List.map_cons, List.map_nil, List.cons_append, List.nil_append]
      rw [escapedItem_high _ (by omega), escapedItem_high _ (by omega),
        decodeItems_two _ _ _ (by omega) (by omega) (by omega) (by omega) (by omega)]
      have : (192 + cp / 64) % 32 * 64 + (128 + cp % 64) % 64 = cp := by omega
      rw [this]
    · split
      · rename_i h0 h1 h
        simp only [List.map_cons, List.map_nil, List.cons_append, List.nil_append]
        have e : (224 + cp / 4096) % 16 * 4096 + (128 + cp / 64 % 64) % 64 * 64 +
            (128 + cp % 64) % 64 = cp := by omega
        rw [escapedItem_high _ (by omega), escapedItem_high _ (by omega),
          escapedItem_high _ (by omega),
          decodeItems_three _ _ _ _ (by omega) (by omega) (by omega) (by omega) (by omega)
            (by omega) (by rw [e]; omega) (by rw [e]; exact hs)]
        rw [e]
      · rename_i h0 h1 h
        simp only [List.map_cons, List.map_nil, List.cons_append, List.nil_append]
        have e : (240 + cp / 262144) % 8 * 262144 + (128 + cp / 4096 % 64) % 64 * 4096 +
            (128 + cp / 64 % 64) % 64 * 64 + (128 + cp % 64) % 64 = cp := by omega
        rw [escapedItem_high _ (by omega), escapedItem_high _ (by omega),
          escapedItem_high _ (by omega), escapedItem_high _ (by omega),
          decodeItems_four _ _ _ _ _ (by omega) (by omega) (by omega) (by omega) (by omega)
            (by omega) (by omega) (by omega) (by rw [e]; omega) (by rw [e]; exact hmax)]
        rw [e]

theorem utf16EncodeCodePoint_pair (c d : Nat) (hc : isLeadingSurrogate c = true)
    (hd : isTrailingSurrogate d = true) :
    utf16EncodeCodePoint (surrogatePairToCodePoint c d) = [c, d] := by
  simp only [isLeadingSurrogate, isTrailingSurrogate, Bool.and_eq_true, decide_eq_true_eq] at hc hd
  unfold utf16EncodeCodePoint surrogatePairToCodePoint
  have h1 : ¬ ((c - 55296) * 1024 + (d - 56320) + 65536 < 65536) := by omega
  simp only [h1, if_false, List.cons.injEq, and_true]
  omega

/-- On the UTF-8 octets of a well-formed string `decodeURIComponent(escape(..))`
gives the string back. -/
theorem decodeURIComponent_escape (s : List Nat) (h : wellFormed s = true) :
    decodeURIComponent (escape (utf8OfString s)) = some s := by
  unfold decodeURIComponent
  rw [uriItems_escape _ (utf8OfString_lt s h)]
  simp only [Option.some_bind]
  induction s using wellFormed.induct with
  | case1 => simp [utf8OfString, decodeItems, decodeItemsFrom]
  | case2 c =>
    simp only [wellFormed, isLeadingSurrogate, isTrailingSurrogate, Bool.and_eq_true,
      decide_eq_true_eq, Bool.not_eq_true', Bool.and_eq_false_iff, decide_eq_false_iff_not] at h
    have := decodeItems_codePoint c [] (by omega) (by omega)
    simp only [List.append_nil] at this
    have h0 : decodeItems [] = some [] := by simp [decodeItems, decodeItemsFrom]
    simp only [utf8OfString, this, h0, Option.map_some', List.append_nil]
    simp [utf16EncodeCodePoint]; omega
  | case3 c d rest hc ih =>
    simp only [wellFormed, hc, if_true, Bool.and_eq_true] at h
    have hp := surrogatePair_lt c d hc h.1
    simp only [utf8OfString, hc, if_true, List.map_append]
    rw [decodeItems_codePoint _ _ hp.2 (by omega), ih h.2, utf16EncodeCodePoint_pair c d hc h.1]
    rfl
  | case4 c d rest hc ih =>
    have hc' := hc
    simp only [wellFormed, hc, Bool.and_eq_true, decide_eq_true_eq, Bool.not_eq_true',
      Bool.false_eq_true, if_false] at h
    simp only [isLeadingSurrogate, isTrailingSurrogate, Bool.and_eq_true,
      decide_eq_true_eq, Bool.and_eq_false_iff, decide_eq_false_iff_not] at hc' h
    simp only [utf8OfString, hc, Bool.false_eq_true, if_false, List.map_append]
    obtain ⟨⟨hlt, hnt⟩, hwf⟩ := h
    have h16 : utf16EncodeCodePoint c = [c] := by simp [utf16EncodeCodePoint, hlt]
    rw [decodeItems_codePoint c _ (by omega) (by omega), ih hwf, h16]
    rfl

/-! ### Strings and numbers of JSON -/

theorem hexDigitLower_spec (n : Nat) (h : n < 16) :
    isHexDigit (hexDigitLower n) = true ∧ hexValue (hexDigitLower n) = n := by
  interval_cases n <;> decide

theorem parseStringBody_raw (c : Nat) (t : List Nat) (h1 : 32 ≤ c) (h2 : c ≠ 34)
    (h3 : c ≠ 92) : parseStringBody (c :: t) = consUnit c (parseStringBody t) := by
  rw [parseStringBody.eq_def]
  have : ¬ c < 32 := by omega
  simp [h2, h3, this]

theorem parseStringBody_single (e u : Nat) (t : List Nat) (he : e ≠ 117)
    (hu : singleEscape e = some u) :
    parseStringBody (92 :: e :: t) = consUnit u (parseStringBody t) := by
  rw [parseStringBody.eq_def]
  simp [he, hu]

theorem parseStringBody_unicode (c : Nat) (t : List Nat) (hc : c < 65536) :
    parseStringBody
        (92 :: 117 :: hexDigitLower (c / 4096) :: hexDigitLower (c / 256 % 16) ::
          hexDigitLower (c / 16 % 16) :: hexDigitLower (c % 16) :: t)
      = consUnit c (parseStringBody t) := by
  have h1 := hexDigitLower_spec (c / 4096) (by omega)
  have h2 := hexDigitLower_spec (c / 256 % 16) (by omega)
  have h3 := hexDigitLower_spec (c / 16 % 16) (by omega)
  have h4 := hexDigitLower_spec (c % 16) (by omega)
  have hv : c / 4096 * 4096 + c / 256 % 16 * 256 + c / 16 % 16 * 16 + c % 16 = c := by omega
  rw [parseStringBody.eq_def]
  simp [h1.1, h2.1, h3.1, h4.1, h1.2, h2.2, h3.2, h4.2, hv]

theorem parseStringBody_quoteUnit (c : Nat) (t : List Nat) (hc : c < 65536) :
    parseStringBody (quoteUnit c ++ t) = consUnit c (parseStringBody t) := by
  unfold quoteUnit
  split
  · rename_i h; subst h; exact parseStringBody_single 98 8 t (by decide) (by decide)
  split
  · rename_i h; subst h; exact parseStringBody_single 116 9 t (by decide) (by decide)
  split
  · rename_i h; subst h; exact parseStringBody_single 110 10 t (by decide) (by decide)
  split
  · rename_i h; subst h; exact parseStringBody_single 102 12 t (by decide) (by decide)
  split
  · rename_i h; subst h; exact parseStringBody_single 114 13 t (by decide) (by decide)
  split
  · rename_i h; subst h; exact parseStringBody_single 34 34 t (by decide) (by decide)
  split
  · rename_i h; subst h; exact parseStringBody_single 92 92 t (by decide) (by decide)
  split
  · exact parseStringBody_unicode c t hc
  · rename_i h8 h9 h10 h12 h13 h34 h92 hraw
    simp only [Bool.or_eq_true, decide_eq_true_eq, not_or] at hraw
    exact parseStringBody_raw c t (by omega) h34 h92

/-- Reading back a quoted string. -/
theorem parseStringBody_quoteBody (s : List Nat) (t : List Nat)
    (hs : ∀ c ∈ s, c < 65536) :
    parseStringBody (quoteBody s ++ 34 :: t) = some (s, t) := by
  induction s using quoteBody.induct with
  | case1 => rw [quoteBody, List.nil_append, parseStringBody.eq_def]; simp
  | case2 c =>
    rw [quoteBody, parseStringBody_quoteUnit c _ (hs c (by simp)), parseStringBody.eq_def]
    simp [consUnit]
  | case3 c d rest hpair ih =>
    simp only [Bool.and_eq_true, isLeadingSurrogate, isTrailingSurrogate,
      decide_eq_true_eq] at hpair
    have ih' := ih (fun x hx => hs x (by simp [hx]))
    rw [quoteBody]
    simp only [isLeadingSurrogate, isTrailingSurrogate, hpair, Bool.and_self, decide_True,
      if_true, List.cons_append]
    rw [parseStringBody_raw c _ (by omega) (by omega) (by omega),
      parseStringBody_raw d _ (by omega) (by omega) (by omega), ih']
    rfl
  | case4 c d rest hpair ih =>
    have ih' := ih (fun x hx => hs x (by simp [hx]))
    rw [quoteBody]
    simp only [hpair, Bool.false_eq_true, if_false, List.append_assoc]
    rw [parseStringBody_quoteUnit c _ (hs c (by simp)), ih']
    rfl
theorem foldr_digits (l : List Nat) :
    l.foldr (fun d acc => acc * 10 + d) 0 = Nat.ofDigits 10 l := by
  induction l with
  | nil => rfl
  | cons d rest ih =>
    simp only [List.foldr_cons, ih, Nat.ofDigits_cons]
    omega

theorem naturalToString_isDigit (n : Nat) : ∀ c ∈ naturalToString n, isDigit c = true := by
  intro c hc
  unfold naturalToString at hc
  split at hc
  · simp at hc; subst hc; decide
  · simp only [List.mem_map, List.mem_reverse] at hc
    obtain ⟨d, hd, rfl⟩ := hc
    have := Nat.digits_lt_base (by norm_num : 1 < 10) hd
    simp [isDigit]; omega

theorem digitsValue_naturalToString (n : Nat) : digitsValue (naturalToString n) = n := by
  unfold naturalToString digitsValue
  split
  · rename_i h; subst h; rfl
  · rw [List.foldl_map, List.foldl_reverse]
    have : (fun (x : Nat) (y : Nat) => y * 10 + (48 + x - 48)) = fun d acc => acc * 10 + d := by
      funext x y; omega
    rw [this, foldr_digits, Nat.ofDigits_digits]

theorem naturalToString_head (n : Nat) :
    ∃ d ds, naturalToString n = d :: ds ∧ ¬ (d = 48 ∧ ds ≠ []) := by
  unfold naturalToString
  split
  · exact ⟨48, [], rfl, by simp⟩
  · rename_i h
    have hne : Nat.digits 10 n ≠ [] := by
      simpa [Nat.digits_eq_nil_iff_eq_zero] using h
    have hlast := Nat.getLast_digit_ne_zero 10 h
    obtain ⟨ys, y, hy⟩ : ∃ ys y, Nat.digits 10 n = ys ++ [y] := by
      refine ⟨(Nat.digits 10 n).dropLast, (Nat.digits 10 n).getLast hne, ?_⟩
      exact (List.dropLast_append_getLast hne).symm
    have hy0 : y ≠ 0 := by
      have : (Nat.digits 10 n).getLast hne = y := by
        simp [hy]
      rw [this] at hlast
      exact hlast
    refine ⟨48 + y, ys.reverse.map (fun d => 48 + d), ?_, ?_⟩
    · simp [hy]
    · intro hcon
      omega

theorem takeDigits_append (ds rest : List Nat) (hd : ∀ c ∈ ds, isDigit c = true)
    (hr : endsValue rest = true) : takeDigits (ds ++ rest) = (ds, rest) := by
  induction ds with
  | nil =>
    cases rest with
    | nil => rfl
    | cons c r =>
      simp only [endsValue, Bool.or_eq_true, beq_iff_eq] at hr
      have : isDigit c = false := by
        simp [isDigit]; omega
      simp [takeDigits, this]
  | cons d rest' ih =>
    have hdig := hd d (by simp)
    have ih' := ih (fun x hx => hd x (by simp [hx]))
    simp [takeDigits, hdig, ih']

theorem parseNatural_naturalToString (n : Nat) (rest : List Nat) (hr : endsValue rest = true) :
    parseNatural (naturalToString n ++ rest) = some (n, rest) := by
  obtain ⟨d, ds, hds, hlead⟩ := naturalToString_head n
  have htake := takeDigits_append (naturalToString n) rest (naturalToString_isDigit n) hr
  have hval := digitsValue_naturalToString n
  unfold parseNatural
  rw [htake, hds]
  rw [hds] at hval
  have hl : (d = 48 && !ds.isEmpty) = false := by
    by_cases h48 : d = 48
    · have : ds = [] := by
        by_contra hne
        exact hlead ⟨h48, hne⟩
      simp [this]
    · simp [h48]
  simp only [hl, Bool.false_eq_true, if_false, hval]

theorem parseFraction_ends (rest : List Nat) (hr : endsValue rest = true) :
    parseFraction rest = some ([], rest) := by
  cases rest with
  | nil => rfl
  | cons c r =>
    simp only [endsValue, Bool.or_eq_true, beq_iff_eq] at hr
    have : c ≠ 46 := by omega
    simp [parseFraction, this]

theorem parseExponent_ends (rest : List Nat) (hr : endsValue rest = true) :
    parseExponent rest = some (0, rest) := by
  cases rest with
  | nil => rfl
  | cons c r =>
    simp only [endsValue, Bool.or_eq_true, beq_iff_eq] at hr
    have : (c = 101 || c = 69) = false := by
      simp; omega
    simp [parseExponent, this]

theorem decimalValue_integer (negative : Bool) (n : Nat) :
    decimalValue negative (n * 10 ^ ([] : List Nat).length + digitsValue [])
        (0 - (([] : List Nat).length : Int))
      = Json.number (if negative then -(n : Int) else (n : Int)) := by
  cases negative <;> simp [decimalValue, digitsValue]

theorem parseNumber_integerToString (n : Int) (rest : List Nat) (hr : endsValue rest = true) :
    parseNumber (integerToString n ++ rest) = some (Json.number n, rest) := by
  unfold integerToString
  split
  · rename_i hneg
    simp only [List.cons_append, parseNumber, if_true]
    rw [parseNatural_naturalToString _ _ hr]
    simp only [parseFraction_ends rest hr, parseExponent_ends rest hr, decimalValue_integer]
    simp only [beq_self_eq_true, if_true, Option.some.injEq, Prod.mk.injEq, and_true,
      Json.number.injEq]
    omega
  · rename_i hpos
    obtain ⟨d, ds, hds, _⟩ := naturalToString_head n.natAbs
    have hdig : isDigit d = true := naturalToString_isDigit n.natAbs d (by simp [hds])
    have h45 : d ≠ 45 := by
      simp only [isDigit, Bool.and_eq_true, decide_eq_true_eq] at hdig
      omega
    have hp := parseNatural_naturalToString n.natAbs rest hr
    rw [hds] at hp ⊢
    simp only [List.cons_append, parseNumber, h45, if_false] at hp ⊢
    rw [hp]
    simp only [parseFraction_ends rest hr, parseExponent_ends rest hr, decimalValue_integer]
    have h45b : (d == 45) = false := by simp [h45]
    simp only [h45b, Bool.false_eq_true, if_false, Option.some.injEq, Prod.mk.injEq, and_true,
      Json.number.injEq]
    omega

theorem fractionToString_head (m : Int) (k : Nat) :
    ∃ c t, fractionToString m k = c :: t ∧ (c = 45 ∨ isDigit c = true) := by
  obtain ⟨d, ds, hds, _⟩ := naturalToString_head m.natAbs
  have hdig : isDigit d = true := naturalToString_isDigit m.natAbs d (by simp [hds])
  have hbody : ∀ body : List Nat, (∃ t, body = d :: t) ∨ (∃ t, body = 48 :: t) →
      ∃ c t, (if m < 0 then 45 :: body else body) = c :: t ∧ (c = 45 ∨ isDigit c = true) := by
    intro body hb
    split
    · exact ⟨45, body, rfl, Or.inl rfl⟩
    · rcases hb with ⟨t, rfl⟩ | ⟨t, rfl⟩
      · exact ⟨d, t, rfl, Or.inr hdig⟩
      · exact ⟨48, t, rfl, Or.inr (by decide)⟩
  unfold fractionToString
  simp only [hds]
  apply hbody
  split
  · rename_i h
    left
    obtain ⟨j, hj⟩ : ∃ j, ((((d :: ds).length : Nat) : Int) - (k : Int)).toNat = j + 1 := by
      refine ⟨((((d :: ds).length : Nat) : Int) - (k : Int)).toNat - 1, ?_⟩
      omega
    rw [hj]
    exact ⟨_, rfl⟩
  · split
    · right; exact ⟨_, rfl⟩
    · left
      split
      · exact ⟨_, rfl⟩
      · exact ⟨_, rfl⟩

/-! ### Values of JSON -/

theorem skipWhitespace_cons (c : Nat) (t : List Nat) (h : isJsonWhitespace c = false) :
    skipWhitespace (c :: t) = c :: t := by
  simp [skipWhitespace, h]

theorem integerToString_head (n : Int) :
    ∃ c t, integerToString n = c :: t ∧ (c = 45 ∨ isDigit c = true) := by
  unfold integerToString
  split
  · exact ⟨45, _, rfl, Or.inl rfl⟩
  · obtain ⟨d, ds, hds, _⟩ := naturalToString_head n.natAbs
    exact ⟨d, ds, hds, Or.inr (naturalToString_isDigit n.natAbs d (by simp [hds]))⟩

theorem jsonStringify_first (v : Json) :
    ∃ c t, jsonStringify v = c :: t ∧ c ≠ 93 ∧ c ≠ 125 ∧ isJsonWhitespace c = false := by
  cases v with
  | null => exact ⟨110, _, by rw [jsonStringify], by decide, by decide, by decide⟩
  | bool b =>
    cases b
    · exact ⟨102, _, by rw [jsonStringify], by decide, by decide, by decide⟩
    · exact ⟨116, _, by rw [jsonStringify], by decide, by decide, by decide⟩
  | number n =>
    obtain ⟨c, t, h, hc⟩ := integerToString_head n
    refine ⟨c, t, by simp [jsonStringify, h], ?_⟩
    rcases hc with rfl | hc
    · decide
    · simp only [isDigit, Bool.and_eq_true, decide_eq_true_eq] at hc
      refine ⟨by omega, by omega, ?_⟩
      simp [isJsonWhitespace]; omega
  | fraction m k =>
    obtain ⟨c, t, h, hc⟩ := fractionToString_head m k
    refine ⟨c, t, by simp [jsonStringify, h], ?_⟩
    rcases hc with rfl | hc
    · decide
    · simp only [isDigit, Bool.and_eq_true, decide_eq_true_eq] at hc
      refine ⟨by omega, by omega, ?_⟩
      simp [isJsonWhitespace]; omega
  | string s =>
    exact ⟨34, _, by rw [jsonStringify, quoteJSONString], by decide, by decide, by decide⟩
  | array items =>
    cases items with
    | nil => exact ⟨91, _, by rw [jsonStringify], by decide, by decide, by decide⟩
    | cons x xs => exact ⟨91, _, by rw [jsonStringify], by decide, by decide, by decide⟩
  | object members =>
    cases members with
    | nil => exact ⟨123, _, by rw [jsonStringify], by decide, by decide, by decide⟩
    | cons x xs =>
      obtain ⟨k, w⟩ := x
      exact ⟨123, _, by rw [jsonStringify], by decide, by decide, by decide⟩

theorem skipWhitespace_stringify (v : Json) (t : List Nat) :
    skipWhitespace (jsonStringify v ++ t) = jsonStringify v ++ t := by
  obtain ⟨c, r, h, _, _, hc⟩ := jsonStringify_first v
  rw [h, List.cons_append, skipWhitespace_cons _ _ hc]

theorem parseValue_number (fuel c : Nat) (rest : List Nat) (h : c = 45 ∨ isDigit c = true) :
    parseValue (fuel + 1) (c :: rest) = parseNumber (c :: rest) := by
  have hc : c ≠ 110 ∧ c ≠ 116 ∧ c ≠ 102 ∧ c ≠ 34 ∧ c ≠ 91 ∧ c ≠ 123 := by
    rcases h with rfl | h
    · decide
    · simp only [isDigit, Bool.and_eq_true, decide_eq_true_eq] at h
      omega
  rw [parseValue]
  simp [hc.1, hc.2.1, hc.2.2.1, hc.2.2.2.1, hc.2.2.2.2.1, hc.2.2.2.2.2]

theorem defineProperty_new (acc : List (List Nat × Json)) (kv : List Nat × Json)
    (h : kv.1 ∉ acc.map Prod.fst) : defineProperty acc kv = acc ++ [kv] := by
  induction acc with
  | nil => rfl
  | cons p rest ih =>
    obtain ⟨k, v⟩ := p
    simp only [List.map_cons, List.mem_cons, not_or] at h
    have hne : ¬ k = kv.1 := fun e => h.1 e.symm
    simp [defineProperty, hne, ih h.2]

theorem foldl_defineProperty (members acc : List (List Nat × Json))
    (h : ((acc ++ members).map Prod.fst).Nodup) :
    members.foldl defineProperty acc = acc ++ members := by
  induction members generalizing acc with
  | nil => simp
  | cons kv rest ih =>
    have hnot : kv.1 ∉ acc.map Prod.fst := by
      simp only [List.map_append, List.map_cons] at h
      have := (List.nodup_append.mp h).2.2
      intro hmem
      exact this hmem (by simp)
    simp only [List.foldl_cons]
    rw [defineProperty_new acc kv hnot, ih (acc ++ [kv]) (by simpa using h)]
    simp

theorem expectText_append (text rest : List Nat) : expectText text (text ++ rest) = some rest := by
  induction text with
  | nil => cases rest <;> rfl
  | cons t ts ih => simp [expectText, ih]

theorem jsonSize_pos (v : Json) : 1 ≤ jsonSize v := by
  cases v <;> simp [jsonSize]

theorem endsValue_moreItems (items : List Json) (rest : List Nat) :
    endsValue (stringifyMoreItems items ++ 93 :: rest) = true := by
  cases items with
  | nil => simp [stringifyMoreItems, endsValue]
  | cons w ws => simp [stringifyMoreItems, endsValue]

theorem endsValue_moreMembers (members : List (List Nat × Json)) (rest : List Nat) :
    endsValue (stringifyMoreMembers members ++ 125 :: rest) = true := by
  cases members with
  | nil => simp [stringifyMoreMembers, endsValue]
  | cons w ws =>
    obtain ⟨k, v⟩ := w
    simp [stringifyMoreMembers, endsValue]

/-- Reading back what `jsonStringify` wrote, for values, for the elements of an
array and for the members of an object, with enough fuel. -/
theorem parse_stringify (fuel : Nat) :
    (∀ (v : Json) (rest : List Nat), representable v = true → jsonSize v ≤ fuel →
        endsValue rest = true →
        parseValue fuel (jsonStringify v ++ rest) = some (v, rest)) ∧
    (∀ (v : Json) (items : List Json) (rest : List Nat), representable v = true →
        representableItems items = true → sizeItems (v :: items) ≤ fuel →
        parseElements fuel (jsonStringify v ++ (stringifyMoreItems items ++ 93 :: rest))
          = some (v :: items, rest)) ∧
    (∀ (k : List Nat) (v : Json) (members : List (List Nat × Json)) (rest : List Nat),
        (∀ c ∈ k, c < 65536) → representable v = true →
        representableMembers members = true → sizeMembers ((k, v) :: members) ≤ fuel →
        parseMembers fuel
            (quoteJSONString k ++
              58 :: (jsonStringify v ++ (stringifyMoreMembers members ++ 125 :: rest)))
          = some ((k, v) :: members, rest)) := by
  induction fuel with
  | zero =>
    refine ⟨?_, ?_, ?_⟩
    · intro v rest _ hsize _
      have := jsonSize_pos v
      omega
    · intro v items rest _ _ hsize
      simp only [sizeItems] at hsize
      omega
    · intro k v members rest _ _ _ hsize
      simp only [sizeMembers] at hsize
      omega
  | succ fuel ih =>
    obtain ⟨ihV, ihE, ihM⟩ := ih
    refine ⟨?_, ?_, ?_⟩
    · intro v rest hrep hsize hends
      cases v with
      | null =>
        simp only [jsonStringify, List.cons_append, parseValue, if_true]
        rw [show (117 :: 108 :: 108 :: ([] ++ rest)) = [117, 108, 108] ++ rest from rfl,
          expectText_append]
        rfl
      | bool b =>
        cases b
        · simp only [jsonStringify, List.cons_append, parseValue]
          rw [show (97 :: 108 :: 115 :: 101 :: ([] ++ rest)) = [97, 108, 115, 101] ++ rest
            from rfl, expectText_append]
          rfl
        · simp only [jsonStringify, List.cons_append, parseValue]
          rw [show (114 :: 117 :: 101 :: ([] ++ rest)) = [114, 117, 101] ++ rest from rfl,
            expectText_append]
          rfl
      | number n =>
        obtain ⟨c, t, h, hc⟩ := integerToString_head n
        have hp := parseNumber_integerToString n rest hends
        simp only [jsonStringify]
        rw [h, List.cons_append] at hp ⊢
        rw [parseValue_number fuel c _ hc, hp]
      | fraction m k => simp [representable] at hrep
      | string s =>
        simp only [representable, List.all_eq_true, decide_eq_true_eq] at hrep
        simp only [jsonStringify, quoteJSONString, List.cons_append, List.append_assoc,
          List.nil_append, parseValue]
        simp only [show (34 : Nat) ≠ 110 by decide, show (34 : Nat) ≠ 116 by decide,
          show (34 : Nat) ≠ 102 by decide, if_false, if_true]
        rw [parseStringBody_quoteBody s rest hrep]
        rfl
      | array items =>
        cases items with
        | nil =>
          simp only [jsonStringify, List.cons_append, List.nil_append, parseValue]
          simp [skipWhitespace, isJsonWhitespace]
        | cons x xs =>
          simp only [representable, representableItems, Bool.and_eq_true] at hrep
          simp only [jsonSize] at hsize
          obtain ⟨c, t, hc, h93, _, hws⟩ := jsonStringify_first x
          have hE := ihE x xs rest hrep.1 hrep.2 (by omega)
          simp only [jsonStringify, List.cons_append, List.append_assoc, List.nil_append,
            parseValue]
          simp only [show (91 : Nat) ≠ 110 by decide, show (91 : Nat) ≠ 116 by decide,
            show (91 : Nat) ≠ 102 by decide, show (91 : Nat) ≠ 34 by decide, if_false, if_true]
          rw [hc, List.cons_append] at hE ⊢
          rw [skipWhitespace_cons _ _ hws]
          simp only [h93, if_false]
          rw [hE]
          rfl
      | object members =>
        cases members with
        | nil =>
          simp only [jsonStringify, List.cons_append, List.nil_append, parseValue]
          simp [skipWhitespace, isJsonWhitespace]
        | cons x xs =>
          obtain ⟨k, w⟩ := x
          simp only [representable, representableMembers, Bool.and_eq_true, List.all_eq_true,
            decide_eq_true_eq] at hrep
          simp only [jsonSize] at hsize
          have hM := ihM k w xs rest hrep.1.1.1 hrep.1.1.2 hrep.1.2 (by omega)
          have hfold := foldl_defineProperty ((k, w) :: xs) [] (by simpa using hrep.2)
          simp only [jsonStringify, quoteJSONString, List.cons_append, List.append_assoc,
            List.nil_append, parseValue] at hM ⊢
          simp only [show (123 : Nat) ≠ 110 by decide, show (123 : Nat) ≠ 116 by decide,
            show (123 : Nat) ≠ 102 by decide, show (123 : Nat) ≠ 34 by decide,
            show (123 : Nat) ≠ 91 by decide, if_false, if_true]
          rw [skipWhitespace_cons _ _ (by decide)]
          simp only [show (34 : Nat) ≠ 125 by decide, if_false]
          rw [hM]
          simp only [Option.map_some', hfold, List.nil_append]
    · intro v items rest hv hitems hsize
      simp only [sizeItems] at hsize
      have hV := ihV v (stringifyMoreItems items ++ 93 :: rest) hv (by omega)
        (endsValue_moreItems items rest)
      rw [parseElements]
      simp only [hV]
      cases items with
      | nil =>
        simp [stringifyMoreItems, skipWhitespace, isJsonWhitespace]
      | cons w ws =>
        simp only [representableItems, Bool.and_eq_true] at hitems
        simp only [sizeItems] at hsize
        have hE := ihE w ws rest hitems.1 hitems.2 (by simp only [sizeItems]; omega)
        simp only [stringifyMoreItems, List.cons_append, List.append_assoc]
        rw [skipWhitespace_cons _ _ (by decide)]
        simp only [show (44 : Nat) ≠ 93 by decide, if_false, if_true]
        rw [skipWhitespace_stringify, hE]
        rfl
    · intro k v members rest hk hv hmem hsize
      simp only [sizeMembers] at hsize
      have hV := ihV v (stringifyMoreMembers members ++ 125 :: rest) hv (by omega)
        (endsValue_moreMembers members rest)
      simp only [quoteJSONString, List.cons_append, List.append_assoc, List.nil_append]
      rw [parseMembers]
      simp only [if_true]
      rw [parseStringBody_quoteBody k _ hk]
      simp only []
      rw [skipWhitespace_cons _ _ (by decide)]
      simp only [if_true]
      rw [skipWhitespace_stringify, hV]
      simp only []
      cases members with
      | nil =>
        simp [stringifyMoreMembers, skipWhitespace, isJsonWhitespace]
      | cons x xs =>
        obtain ⟨k2, w2⟩ := x
        simp only [representableMembers, Bool.and_eq_true, List.all_eq_true,
          decide_eq_true_eq] at hmem
        simp only [sizeMembers] at hsize
        have hM := ihM k2 w2 xs rest hmem.1.1 hmem.1.2 hmem.2
          (by simp only [sizeMembers]; omega)
        simp only [stringifyMoreMembers, quoteJSONString, List.cons_append,
          List.append_assoc, List.nil_append] at hM ⊢
        rw [skipWhitespace_cons _ _ (by decide)]
        simp only [show (44 : Nat) ≠ 125 by decide, if_false, if_true]
        rw [skipWhitespace_cons _ _ (by decide), hM]
        rfl
theorem integerToString_length (n : Int) : 1 ≤ (integerToString n).length := by
  obtain ⟨c, t, h, _⟩ := integerToString_head n
  simp [h]

/-- The text of a value is at least as long as the fuel its parse takes. -/
theorem size_le_length (n : Nat) :
    (∀ v : Json, jsonSize v ≤ n → jsonSize v ≤ (jsonStringify v).length) ∧
    (∀ items : List Json, sizeItems items ≤ n →
      sizeItems items ≤ (stringifyMoreItems items).length) ∧
    (∀ members : List (List Nat × Json), sizeMembers members ≤ n →
      sizeMembers members ≤ (stringifyMoreMembers members).length) := by
  induction n with
  | zero =>
    refine ⟨?_, ?_, ?_⟩
    · intro v h
      have := jsonSize_pos v
      omega
    · intro items h
      cases items with
      | nil => simp [sizeItems]
      | cons x xs => simp only [sizeItems] at h; omega
    · intro members h
      cases members with
      | nil => simp [sizeMembers]
      | cons x xs => obtain ⟨k, w⟩ := x; simp only [sizeMembers] at h; omega
  | succ n ih =>
    obtain ⟨ihV, ihE, ihM⟩ := ih
    refine ⟨?_, ?_, ?_⟩
    · intro v h
      cases v with
      | null => simp [jsonSize, jsonStringify]
      | bool b => cases b <;> simp [jsonSize, jsonStringify]
      | number k =>
        have := integerToString_length k
        simpa [jsonSize, jsonStringify] using this
      | fraction m k =>
        obtain ⟨c, t, hc, _⟩ := fractionToString_head m k
        simp [jsonSize, jsonStringify, hc]
      | string s => simp [jsonSize, jsonStringify, quoteJSONString]
      | array items =>
        cases items with
        | nil => simp [jsonSize, jsonStringify, sizeItems]
        | cons x xs =>
          simp only [jsonSize, sizeItems] at h ⊢
          have h1 := ihV x (by omega)
          have h2 := ihE xs (by omega)
          simp only [jsonStringify, List.length_cons, List.length_append, List.length_nil]
          omega
      | object members =>
        cases members with
        | nil => simp [jsonSize, jsonStringify, sizeMembers]
        | cons x xs =>
          obtain ⟨k, w⟩ := x
          simp only [jsonSize, sizeMembers] at h ⊢
          have h1 := ihV w (by omega)
          have h2 := ihM xs (by omega)
          simp only [jsonStringify, List.length_cons, List.length_append, List.length_nil]
          omega
    · intro items h
      cases items with
      | nil => simp [sizeItems]
      | cons x xs =>
        simp only [sizeItems] at h ⊢
        have h1 := ihV x (by omega)
        have h2 := ihE xs (by omega)
        simp only [stringifyMoreItems, List.length_cons, List.length_append]
        omega
    · intro members h
      cases members with
      | nil => simp [sizeMembers]
      | cons x xs =>
        obtain ⟨k, w⟩ := x
        simp only [sizeMembers] at h ⊢
        have h1 := ihV w (by omega)
        have h2 := ihM xs (by omega)
        simp only [stringifyMoreMembers, List.length_cons, List.length_append]
        omega

/-- `JSON.parse(JSON.stringify(v))` is `v`. -/
theorem jsonParse_jsonStringify (v : Json) (h : representable v = true) :
    jsonParse (jsonStringify v) = some v := by
  have hsize := (size_le_length (jsonSize v)).1 v (le_refl _)
  have hp := (parse_stringify ((jsonStringify v).length + 1)).1 v [] h (by omega) rfl
  have hws := skipWhitespace_stringify v []
  simp only [List.append_nil] at hp hws
  unfold jsonParse
  rw [hws, hp]
  rfl

/-! ### The text written by `jsonStringify` is well-formed UTF-16 -/

theorem wellFormed_cons (c : Nat) (l : List Nat) (h1 : c < 65536)
    (h2 : isLeadingSurrogate c = false) (h3 : isTrailingSurrogate c = false) :
    wellFormed (c :: l) = wellFormed l := by
  cases l with
  | nil => simp [wellFormed, h1, h2, h3]
  | cons d rest => simp [wellFormed, h1, h2, h3]

theorem wellFormed_plain (c : Nat) (l : List Nat) (h : c < 55296) :
    wellFormed (c :: l) = wellFormed l := by
  apply wellFormed_cons c l (by omega)
  · simp [isLeadingSurrogate]; omega
  · simp [isTrailingSurrogate]; omega

theorem wellFormed_append (a b : List Nat) (ha : wellFormed a = true)
    (hb : wellFormed b = true) : wellFormed (a ++ b) = true := by
  induction a using wellFormed.induct with
  | case1 => simpa using hb
  | case2 c =>
    simp only [wellFormed, Bool.and_eq_true, decide_eq_true_eq, Bool.not_eq_true'] at ha
    simp only [List.cons_append, List.nil_append]
    rw [wellFormed_cons c b ha.1.1 ha.1.2 ha.2]
    exact hb
  | case3 c d rest hc ih =>
    simp only [wellFormed, hc, if_true, Bool.and_eq_true] at ha
    simp only [List.cons_append, wellFormed, hc, if_true, Bool.and_eq_true]
    exact ⟨ha.1, ih ha.2⟩
  | case4 c d rest hc ih =>
    simp only [wellFormed, hc, Bool.false_eq_true, if_false, Bool.and_eq_true,
      decide_eq_true_eq, Bool.not_eq_true'] at ha
    simp only [List.cons_append, wellFormed, hc, Bool.false_eq_true, if_false, Bool.and_eq_true,
      decide_eq_true_eq, Bool.not_eq_true']
    exact ⟨ha.1, ih ha.2⟩

theorem wellFormed_of_plain (l : List Nat) (h : ∀ c ∈ l, c < 55296) : wellFormed l = true := by
  induction l with
  | nil => rfl
  | cons c rest ih =>
    rw [wellFormed_plain c rest (h c (by simp))]
    exact ih (fun x hx => h x (by simp [hx]))

theorem hexDigitLower_lt (n : Nat) (h : n < 16) : hexDigitLower n < 128 := by
  unfold hexDigitLower
  split <;> omega

theorem wellFormed_quoteUnit (c : Nat) (hc : c < 65536) : wellFormed (quoteUnit c) = true := by
  unfold quoteUnit
  split
  · decide
  split
  · decide
  split
  · decide
  split
  · decide
  split
  · decide
  split
  · decide
  split
  · decide
  split
  · apply wellFormed_of_plain
    have h1 := hexDigitLower_lt (c / 4096) (by omega)
    have h2 := hexDigitLower_lt (c / 256 % 16) (by omega)
    have h3 := hexDigitLower_lt (c / 16 % 16) (by omega)
    have h4 := hexDigitLower_lt (c % 16) (by omega)
    intro x hx
    simp only [List.mem_cons, List.mem_singleton, List.not_mem_nil, or_false] at hx
    rcases hx with rfl | rfl | rfl | rfl | rfl | rfl <;> omega
  · rename_i hraw
    simp only [Bool.or_eq_true, decide_eq_true_eq, not_or, Bool.not_eq_true] at hraw
    simp [wellFormed, hc, hraw.1.2, hraw.2]

theorem wellFormed_quoteBody (s : List Nat) (hs : ∀ c ∈ s, c < 65536) :
    wellFormed (quoteBody s) = true := by
  induction s using quoteBody.induct with
  | case1 => rfl
  | case2 c => rw [quoteBody]; exact wellFormed_quoteUnit c (hs c (by simp))
  | case3 c d rest hpair ih =>
    have ih' := ih (fun x hx => hs x (by simp [hx]))
    simp only [Bool.and_eq_true] at hpair
    rw [quoteBody]
    simp only [hpair.1, hpair.2, Bool.and_self, if_true, wellFormed, ih']
  | case4 c d rest hpair ih =>
    have ih' := ih (fun x hx => hs x (by simp [hx]))
    rw [quoteBody]
    simp only [hpair, Bool.false_eq_true, if_false]
    exact wellFormed_append _ _ (wellFormed_quoteUnit c (hs c (by simp))) ih'

theorem wellFormed_quoteJSONString (s : List Nat) (hs : ∀ c ∈ s, c < 65536) :
    wellFormed (quoteJSONString s) = true := by
  unfold quoteJSONString
  rw [wellFormed_plain 34 _ (by decide)]
  exact wellFormed_append _ _ (wellFormed_quoteBody s hs) (by decide)

theorem wellFormed_integerToString (n : Int) : wellFormed (integerToString n) = true := by
  apply wellFormed_of_plain
  intro c hc
  have hdig : ∀ x ∈ naturalToString n.natAbs, x < 55296 := by
    intro x hx
    have := naturalToString_isDigit n.natAbs x hx
    simp only [isDigit, Bool.and_eq_true, decide_eq_true_eq] at this
    omega
  unfold integerToString at hc
  split at hc
  · simp only [List.mem_cons] at hc
    rcases hc with rfl | hc
    · decide
    · exact hdig c hc
  · exact hdig c hc

/-- The text of a representable value has no unpaired surrogate. -/
theorem wellFormed_stringify (n : Nat) :
    (∀ v : Json, jsonSize v ≤ n → representable v = true →
      wellFormed (jsonStringify v) = true) ∧
    (∀ items : List Json, sizeItems items ≤ n → representableItems items = true →
      wellFormed (stringifyMoreItems items) = true) ∧
    (∀ members : List (List Nat × Json), sizeMembers members ≤ n →
      representableMembers members = true →
      wellFormed (stringifyMoreMembers members) = true) := by
  induction n with
  | zero =>
    refine ⟨?_, ?_, ?_⟩
    · intro v h
      have := jsonSize_pos v
      omega
    · intro items h _
      cases items with
      | nil => rfl
      | cons x xs => simp only [sizeItems] at h; omega
    · intro members h _
      cases members with
      | nil => rfl
      | cons x xs => obtain ⟨k, w⟩ := x; simp only [sizeMembers] at h; omega
  | succ n ih =>
    obtain ⟨ihV, ihE, ihM⟩ := ih
    refine ⟨?_, ?_, ?_⟩
    · intro v h hrep
      cases v with
      | null => rw [jsonStringify]; decide
      | bool b => cases b <;> (rw [jsonStringify]; decide)
      | number k => rw [jsonStringify]; exact wellFormed_integerToString k
      | fraction m k => simp [representable] at hrep
      | string s =>
        simp only [representable, List.all_eq_true, decide_eq_true_eq] at hrep
        rw [jsonStringify]
        exact wellFormed_quoteJSONString s hrep
      | array items =>
        cases items with
        | nil => rw [jsonStringify]; decide
        | cons x xs =>
          simp only [representable, representableItems, Bool.and_eq_true] at hrep
          simp only [jsonSize, sizeItems] at h
          rw [jsonStringify, wellFormed_plain 91 _ (by decide)]
          exact wellFormed_append _ _ (ihV x (by omega) hrep.1)
            (wellFormed_append _ _ (ihE xs (by omega) hrep.2) (by decide))
      | object members =>
        cases members with
        | nil => rw [jsonStringify]; decide
        | cons x xs =>
          obtain ⟨k, w⟩ := x
          simp only [representable, representableMembers, Bool.and_eq_true, List.all_eq_true,
            decide_eq_true_eq] at hrep
          simp only [jsonSize, sizeMembers] at h
          rw [jsonStringify, wellFormed_plain 123 _ (by decide)]
          apply wellFormed_append _ _ (wellFormed_quoteJSONString k hrep.1.1.1)
          rw [wellFormed_plain 58 _ (by decide)]
          exact wellFormed_append _ _ (ihV w (by omega) hrep.1.1.2)
            (wellFormed_append _ _ (ihM xs (by omega) hrep.1.2) (by decide))
    · intro items h hrep
      cases items with
      | nil => rfl
      | cons x xs =>
        simp only [representableItems, Bool.and_eq_true] at hrep
        simp only [sizeItems] at h
        rw [stringifyMoreItems, wellFormed_plain 44 _ (by decide)]
        exact wellFormed_append _ _ (ihV x (by omega) hrep.1) (ihE xs (by omega) hrep.2)
    · intro members h hrep
      cases members with
      | nil => rfl
      | cons x xs =>
        obtain ⟨k, w⟩ := x
        simp only [representableMembers, Bool.and_eq_true, List.all_eq_true,
          decide_eq_true_eq] at hrep
        simp only [sizeMembers] at h
        rw [stringifyMoreMembers, wellFormed_plain 44 _ (by decide)]
        apply wellFormed_append _ _ (wellFormed_quoteJSONString k hrep.1.1)
        rw [wellFormed_plain 58 _ (by decide)]
        exact wellFormed_append _ _ (ihV w (by omega) hrep.1.2) (ihM xs (by omega) hrep.2)

/-- On a well-formed string the two directions of the `Buffer` polyfill are
inverse to each other. -/
theorem buffer_roundtrip (s : List Nat) (h : wellFormed s = true) :
    (bufferUtf8ToBase64 s).bind bufferBase64ToUtf8 = some s := by
  have h1 := unescape_encodeURIComponent s h
  have h2 := atob_btoa (utf8OfString s) (utf8OfString_lt s h)
  have h3 := decodeURIComponent_escape s h
  cases he : encodeURIComponent s with
  | none => simp [he] at h1
  | some e =>
    simp only [he, Option.map_some', Option.some.injEq] at h1
    cases hb : btoa (utf8OfString s) with
    | none => simp [hb] at h2
    | some b =>
      simp only [hb, Option.some_bind] at h2
      simp [bufferUtf8ToBase64, bufferBase64ToUtf8, he, h1, hb, h2, h3]

/-- C1. Codec round trip: for every JSON value `v` that the model represents
(strings of 16-bit code units, safe integers, objects with every key once), and
so for every protocol message, `encodeBase64(JSON.stringify(v))` does not
throw and `decodeBase64` of its result is `v`. -/
theorem decodeBase64_encodeBase64 (v : Json) (h : representable v = true) :
    (encodeBase64 (jsonStringify v)).map decodeBase64 = some v := by
  have hwf := (wellFormed_stringify (jsonSize v)).1 v (le_refl _) h
  have hb := buffer_roundtrip (jsonStringify v) hwf
  have hp := jsonParse_jsonStringify v h
  unfold encodeBase64
  cases he : bufferUtf8ToBase64 (jsonStringify v) with
  | none => simp [he] at hb
  | some b =>
    simp only [he, Option.some_bind] at hb
    simp [decodeBase64, hb, hp]

/-- Instance of C1: the `ENTRY` message of `sendEntry` with an entry object. -/
theorem decodeBase64_encodeBase64_witness :
    representable entryMessageJson = true ∧
    (encodeBase64 (jsonStringify entryMessageJson)).map decodeBase64 = some entryMessageJson :=
  ⟨by decide, decodeBase64_encodeBase64 entryMessageJson (by decide)⟩

/-- Test vectors of the `Buffer` polyfill: ASCII, two- and three-octet
characters, and a surrogate pair. -/
theorem encodeBase64_vectors :
    encodeBase64 (js "hello") = some (js "aGVsbG8=") ∧
    encodeBase64 (js "é€") = some (js "w6nigqw=") ∧
    encodeBase64 (js "𝄞!") = some (js "8J2EniE=") ∧
    bufferBase64ToUtf8 (js "w6nigqw=") = some (js "é€") ∧
    bufferBase64ToUtf8 (js "8J2EniE=") = some (js "𝄞!") ∧
    encodeBase64 [55296] = none := by
  decide

/-! ## Lemmas on the collaborators and on `processReceivedEntry` -/

theorem sendData_fst (env : Env) (s : SyncState) (m : Message) :
    (sendData env s m).1 = emit s (Event.sendData m (written env s)) := by
  unfold sendData written
  cases h : s.connectedDevice with
  | none => simp
  | some d =>
    by_cases hw : env.charWrite s.trace.length <;> simp [hw]

theorem sendData_pending (env : Env) (s : SyncState) (m : Message) :
    (sendData env s m).1.pendingEntries = s.pendingEntries := by
  simp [sendData_fst, emit]

theorem getItem_setItem_same (st : List (String × List Entry)) (k : String) (v : List Entry) :
    getItem (setItem st k v) k = some v := by
  induction st with
  | nil => simp [setItem, getItem]
  | cons p rest ih =>
    obtain ⟨k1, v1⟩ := p
    by_cases h : k1 = k
    · simp [setItem, getItem, h]
    · simp [setItem, getItem, h, ih]

theorem getItem_setItem_other (st : List (String × List Entry)) (k k2 : String) (v : List Entry)
    (hne : k2 ≠ k) : getItem (setItem st k v) k2 = getItem st k2 := by
  induction st with
  | nil => simp [setItem, getItem, Ne.symm hne]
  | cons p rest ih =>
    obtain ⟨k1, v1⟩ := p
    by_cases h : k1 = k
    · subst h
      simp [setItem, getItem, Ne.symm hne]
    · by_cases h2 : k1 = k2
      · subst h2
        simp [setItem, getItem, hne]
      · simp [setItem, getItem, h, h2, ih]

theorem sent_append (a b : List Event) : sent (a ++ b) = sent a ++ sent b := by
  simp [sent, List.filterMap_append]

theorem sendEntryAcknowledgement_eq (env : Env) (s : SyncState) (entryId : String)
    (t : Option String) :
    sendEntryAcknowledgement env s entryId t =
      emit s (Event.sendData
        { type := some "ENTRY_ACK", source := s.userId, entryId := some entryId }
        (written env s)) := by
  simp [sendEntryAcknowledgement, sendData_fst]

/-- With the position fix and both storage calls succeeding, `processReceivedEntry`
either re-acknowledges a stored id or appends, acknowledges and notifies. -/
theorem processReceivedEntry_nominal (env : Env) (s : SyncState) (e : Entry)
    (src : Option String) (g : String)
    (hHost : s.isHost = true) (hg : s.currentGroupId = some g)
    (hid : e.id ≠ "") (heg : e.groupId = some g)
    (hfix : env.locationFix = true) (hread : env.storageRead = true)
    (hwrite : env.storageWrite = true) :
    processReceivedEntry env s e src =
      if (storedGroupEntries s g).any (fun x => x.id == e.id) then
        sendEntryAcknowledgement env s e.id src
      else
        let s1 : SyncState :=
          { s with
            storage := setItem s.storage (groupEntriesKey (some g)) (storedGroupEntries s g ++ [e]) }
        let s2 := sendEntryAcknowledgement env s1 e.id src
        if s2.onEntryReceived then emit s2 (Event.onEntryReceived e) else s2 := by
  simp [processReceivedEntry, hHost, hg, hid, heg, hfix, hread, hwrite, storedGroupEntries]

theorem processReceivedEntry_storage_present (env : Env) (s : SyncState) (e : Entry)
    (src : Option String) (g : String) (hg : s.currentGroupId = some g)
    (hp : (storedGroupEntries s g).any (fun x => x.id == e.id) = true) :
    (processReceivedEntry env s e src).storage = s.storage := by
  unfold storedGroupEntries at hp
  unfold processReceivedEntry
  simp only [hg, hp]
  split
  · rfl
  · split
    · rfl
    · split
      · rfl
      · split
        · rfl
        · simp [sendEntryAcknowledgement_eq, emit]

theorem processReceivedEntry_role (env : Env) (s : SyncState) (e : Entry) (src : Option String) :
    (processReceivedEntry env s e src).isHost = s.isHost ∧
    (processReceivedEntry env s e src).currentGroupId = s.currentGroupId ∧
    (processReceivedEntry env s e src).pendingEntries = s.pendingEntries ∧
    (processReceivedEntry env s e src).connectedPeers = s.connectedPeers := by
  unfold processReceivedEntry
  simp only [sendEntryAcknowledgement_eq, emit]
  repeat' split
  all_goals simp

theorem filter_id_append_absent (l : List Entry) (e : Entry)
    (ha : l.any (fun x => x.id == e.id) = false) :
    ((l ++ [e]).filter (fun x => x.id == e.id)).length = 1 := by
  have h0 : l.filter (fun x => x.id == e.id) = [] := by
    rw [List.filter_eq_nil_iff]
    intro a ha2
    simp only [List.any_eq_false] at ha
    exact ha a ha2
  simp [List.filter_append, h0]

theorem filter_id_present (l : List Entry) (e : Entry)
    (hp : l.any (fun x => x.id == e.id) = true) :
    1 ≤ (l.filter (fun x => x.id == e.id)).length := by
  rw [List.any_eq_true] at hp
  obtain ⟨x, hx, hxe⟩ := hp
  have : x ∈ l.filter (fun x => x.id == e.id) := List.mem_filter.mpr ⟨hx, hxe⟩
  exact List.length_pos_of_mem this

/-! ## C2: idempotent insertion -/

/-- C2 fails as stated: when the position fix of the host is rejected,
`processReceivedEntry` returns from its `catch` without storing, so after two
such runs the stored list holds no entry with the id; and when only the first
fix is rejected, the second run does change the stored list. -/
theorem processReceivedEntry_twice_without_fix :
    hostG1.isHost = true ∧ hostG1.currentGroupId = some "g1" ∧
    entryE1.id ≠ "" ∧ entryE1.groupId = some "g1" ∧
    (storedGroupEntries
      (processReceivedEntry { locationFix := false }
        (processReceivedEntry { locationFix := false } hostG1 entryE1 (some "u1"))
        entryE1 (some "u1")) "g1").filter (fun x => x.id == entryE1.id) = [] ∧
    storedGroupEntries
      (processReceivedEntry {}
        (processReceivedEntry { locationFix := false } hostG1 entryE1 (some "u1"))
        entryE1 (some "u1")) "g1"
      ≠ storedGroupEntries
          (processReceivedEntry { locationFix := false } hostG1 entryE1 (some "u1")) "g1" := by
  decide

/-- C2 (amended). Idempotent insertion: for every host state hosting group `g`
whose stored list holds at most one entry with the id, and every entry with a
non-empty id and `groupId = g`, if the position fix and the storage read and
write of the first run of `processReceivedEntry` succeed, then a second run
(whatever its collaborators answer) leaves `groupEntries_g` equal to the list
after the first run, that list contains exactly one entry with the id, and its
size does not change in the second run. -/
theorem processReceivedEntry_idempotent (env1 env2 : Env) (s : SyncState) (e : Entry)
    (src1 src2 : Option String) (g : String)
    (hHost : s.isHost = true) (hg : s.currentGroupId = some g)
    (hid : e.id ≠ "") (heg : e.groupId = some g)
    (hfix : env1.locationFix = true) (hread : env1.storageRead = true)
    (hwrite : env1.storageWrite = true)
    (hone : ((storedGroupEntries s g).filter (fun x => x.id == e.id)).length ≤ 1) :
    storedGroupEntries (processReceivedEntry env2 (processReceivedEntry env1 s e src1) e src2) g
        = storedGroupEntries (processReceivedEntry env1 s e src1) g ∧
    ((storedGroupEntries (processReceivedEntry env1 s e src1) g).filter
        (fun x => x.id == e.id)).length = 1 ∧
    (storedGroupEntries (processReceivedEntry env2 (processReceivedEntry env1 s e src1) e src2)
        g).length
        = (storedGroupEntries (processReceivedEntry env1 s e src1) g).length := by
  have hrole := processReceivedEntry_role env1 s e src1
  have hnom := processReceivedEntry_nominal env1 s e src1 g hHost hg hid heg hfix hread hwrite
  -- the stored list after the first run
  have hlist : (storedGroupEntries (processReceivedEntry env1 s e src1) g).any
        (fun x => x.id == e.id) = true ∧
      ((storedGroupEntries (processReceivedEntry env1 s e src1) g).filter
        (fun x => x.id == e.id)).length = 1 := by
    by_cases hp : (storedGroupEntries s g).any (fun x => x.id == e.id) = true
    · have hst : (processReceivedEntry env1 s e src1).storage = s.storage :=
        processReceivedEntry_storage_present env1 s e src1 g hg hp
      have heq : storedGroupEntries (processReceivedEntry env1 s e src1) g
          = storedGroupEntries s g := by
        simp [storedGroupEntries, hst]
      rw [heq]
      exact ⟨hp, le_antisymm hone (filter_id_present _ _ hp)⟩
    · have hpf : (storedGroupEntries s g).any (fun x => x.id == e.id) = false := by
        simpa using hp
      have heq : storedGroupEntries (processReceivedEntry env1 s e src1) g
          = storedGroupEntries s g ++ [e] := by
        rw [hnom, if_neg hp]
        simp only [sendEntryAcknowledgement_eq, emit]
        split <;> simp [storedGroupEntries, getItem_setItem_same]
      rw [heq]
      refine ⟨?_, filter_id_append_absent _ _ hpf⟩
      simp
  have hg1 : (processReceivedEntry env1 s e src1).currentGroupId = some g := by
    rw [hrole.2.1, hg]
  have hst2 := processReceivedEntry_storage_present env2 (processReceivedEntry env1 s e src1)
    e src2 g hg1 hlist.1
  have heq2 : storedGroupEntries
      (processReceivedEntry env2 (processReceivedEntry env1 s e src1) e src2) g
        = storedGroupEntries (processReceivedEntry env1 s e src1) g := by
    simp [storedGroupEntries, hst2]
  exact ⟨heq2, hlist.2, by rw [heq2]⟩

/-- Instance of C2 (amended): host of `g1` with an empty store, entry `e1`,
second run with a rejected position fix. -/
theorem processReceivedEntry_idempotent_witness :
    storedGroupEntries
        (processReceivedEntry { locationFix := false }
          (processReceivedEntry {} hostG1 entryE1 (some "u1")) entryE1 (some "u1")) "g1"
        = storedGroupEntries (processReceivedEntry {} hostG1 entryE1 (some "u1")) "g1" ∧
    ((storedGroupEntries (processReceivedEntry {} hostG1 entryE1 (some "u1")) "g1").filter
        (fun x => x.id == entryE1.id)).length = 1 ∧
    (storedGroupEntries
        (processReceivedEntry { locationFix := false }
          (processReceivedEntry {} hostG1 entryE1 (some "u1")) entryE1 (some "u1")) "g1").length
        = (storedGroupEntries (processReceivedEntry {} hostG1 entryE1 (some "u1")) "g1").length :=
  processReceivedEntry_idempotent {} { locationFix := false } hostG1 entryE1 (some "u1")
    (some "u1") "g1" rfl rfl (by decide) rfl rfl rfl rfl (by decide)

/-! ## C3: re-acknowledgement -/

/-- C3 fails as stated: with a rejected position fix the host hands no message
at all to the transport, although the entry has an id and belongs to the hosted
group. -/
theorem processReceivedEntry_no_ack_without_fix :
    hostG1.isHost = true ∧ entryE1.id ≠ "" ∧ entryE1.groupId = hostG1.currentGroupId ∧
    sent (processReceivedEntry { locationFix := false } hostG1 entryE1 (some "u1")).trace = [] := by
  decide

/-- C3 (amended). Re-ack on duplicate: for every entry with a non-empty id
whose `groupId` equals the hosted group, if the position fix of the host and
its storage read and write succeed, `processReceivedEntry` hands exactly one
message to `BluetoothService.sendData`, namely
`{type: 'ENTRY_ACK', source: userId, entryId: entry.id}`, whether the id was
absent from the stored list or already present. -/
theorem processReceivedEntry_sends_ack (env : Env) (s : SyncState) (e : Entry)
    (src : Option String) (g : String)
    (hHost : s.isHost = true) (hg : s.currentGroupId = some g)
    (hid : e.id ≠ "") (heg : e.groupId = some g)
    (hfix : env.locationFix = true) (hread : env.storageRead = true)
    (hwrite : env.storageWrite = true) :
    sent (processReceivedEntry env s e src).trace =
      sent s.trace ++
        [{ type := some "ENTRY_ACK", source := s.userId, entryId := some e.id }] := by
  rw [processReceivedEntry_nominal env s e src g hHost hg hid heg hfix hread hwrite]
  by_cases hp : (storedGroupEntries s g).any (fun x => x.id == e.id) = true
  · rw [if_pos hp]
    simp [sendEntryAcknowledgement_eq, emit, sent_append, sent]
  · rw [if_neg hp]
    simp only [sendEntryAcknowledgement_eq, emit]
    split <;> simp [sent_append, sent]

/-- Instance of C3 (amended): the second submission of `e1`, whose id is stored
by then, is acknowledged again. -/
theorem processReceivedEntry_sends_ack_witness :
    (storedGroupEntries (processReceivedEntry {} hostG1 entryE1 (some "u1")) "g1").any
        (fun x => x.id == entryE1.id) = true ∧
    sent (processReceivedEntry {} (processReceivedEntry {} hostG1 entryE1 (some "u1"))
        entryE1 (some "u1")).trace =
      sent (processReceivedEntry {} hostG1 entryE1 (some "u1")).trace ++
        [{ type := some "ENTRY_ACK",
           source := (processReceivedEntry {} hostG1 entryE1 (some "u1")).userId,
           entryId := some entryE1.id }] :=
  ⟨by decide,
   processReceivedEntry_sends_ack {} (processReceivedEntry {} hostG1 entryE1 (some "u1"))
    entryE1 (some "u1") "g1" (by decide) (by decide) (by decide) rfl rfl rfl rfl⟩

/-! ## C4: cross-group isolation -/

/-- C4. Cross-group isolation: for every host state hosting group `g` and every
`ENTRY` message whose entry has a `groupId` other than `g` (or carries no entry),
`handleDataReceived` returns the state it was given: the storage of every group
is unchanged and the trace gains no event, so no `ENTRY_ACK` is sent and
`onEntryReceived` is not invoked. This holds whatever the collaborators answer. -/
theorem handleDataReceived_cross_group (env : Env) (s : SyncState) (g : String) (d : Message)
    (hHost : s.isHost = true) (hg : s.currentGroupId = some g)
    (ht : d.type = some "ENTRY")
    (hdiff : ∀ e, d.entry = some e → e.groupId ≠ some g) :
    handleDataReceived env s (some d) = s := by
  unfold handleDataReceived
  simp only [ht, truthy]
  cases he : d.entry with
  | none => simp
  | some e =>
    have h := hdiff e he
    simp [hHost, processReceivedEntry, hg, h]

/-- Instance of C4: the host of `g1`, which already stores `e1`, receives an
entry of group `g2`. -/
theorem handleDataReceived_cross_group_witness :
    handleDataReceived {} (processReceivedEntry {} hostG1 entryE1 (some "u1"))
      (some { type := some "ENTRY", source := some "u2", groupId := some "g2",
              entry := some { id := "e9", groupId := some "g2" } })
      = processReceivedEntry {} hostG1 entryE1 (some "u1") :=
  handleDataReceived_cross_group {} (processReceivedEntry {} hostG1 entryE1 (some "u1")) "g1"
    { type := some "ENTRY", source := some "u2", groupId := some "g2",
      entry := some { id := "e9", groupId := some "g2" } }
    (by decide) (by decide) rfl (by decide)

/-! ## C5, C6, C7: the pending queue on the member side -/

theorem sendEntry_member (env : Env) (s : SyncState) (e : Entry) (hm : s.isHost = false) :
    (sendEntry env s e).isHost = false ∧
    (sendEntry env s e).pendingEntries = s.pendingEntries ++ [e] ∧
    (sendEntry env s e).connectedPeers = s.connectedPeers ∧
    sent (sendEntry env s e).trace =
      sent s.trace ++
        (if s.connectedPeers.length > 0 then
          [{ type := some "ENTRY", source := s.userId, groupId := s.currentGroupId,
             entry := some e }]
         else []) := by
  unfold sendEntry
  simp only [hm, sendData_fst, emit]
  by_cases hc : s.connectedPeers.length > 0
  · simp [hc, hm, sent_append, sent]
  · simp [hc, hm]

/-- In member role the send loop never reaches the end of the queue: every step
appends the entry it sends. -/
theorem sendLoop_member (env : Env) :
    ∀ (fuel i : Nat) (s : SyncState), s.isHost = false → i < s.pendingEntries.length →
      (sendLoop env fuel i s).2 = false ∧
      (sendLoop env fuel i s).1.pendingEntries.length = s.pendingEntries.length + fuel ∧
      (s.connectedPeers.length > 0 →
        (sent (sendLoop env fuel i s).1.trace).length = (sent s.trace).length + fuel) := by
  intro fuel
  induction fuel with
  | zero => intro i s _ _; simp [sendLoop]
  | succ n ih =>
    intro i s hm hi
    obtain ⟨e, he⟩ : ∃ e, s.pendingEntries.get? i = some e := by
      rw [List.get?_eq_get hi]; exact ⟨_, rfl⟩
    have hs := sendEntry_member env s e hm
    have hi2 : i + 1 < (sendEntry env s e).pendingEntries.length := by
      rw [hs.2.1]; simp; omega
    have h := ih (i + 1) (sendEntry env s e) hs.1 hi2
    simp only [sendLoop, he]
    refine ⟨h.1, ?_, ?_⟩
    · rw [h.2.1, hs.2.1]; simp; omega
    · intro hc
      have hc2 : (sendEntry env s e).connectedPeers.length > 0 := by rw [hs.2.2.1]; exact hc
      rw [h.2.2 hc2, hs.2.2.2]
      simp [hc]; omega

/-- C5 at its failing input. A member whose local store holds the unsynced entry
`e1` of the current group and whose in-memory queue is empty gets connected:
`handleConnectionStateChange(true, device)` returns at the guard of
`syncPendingEntries` (line 303) before the store is read, so the queue is still
empty and nothing has been handed to the transport. -/
theorem handleConnectionStateChange_skips_storage :
    ∀ (env : Env) (fuel : Nat),
      getItem restartedMember.storage (entriesKey restartedMember.userId) = some [entryE1] ∧
      entryE1.groupId = restartedMember.currentGroupId ∧ entryE1.synced = false ∧
      (handleConnectionStateChange env fuel restartedMember true (some { id := "d1" })).2 = true ∧
      (handleConnectionStateChange env fuel restartedMember true
        (some { id := "d1" })).1.pendingEntries = [] ∧
      sent (handleConnectionStateChange env fuel restartedMember true
        (some { id := "d1" })).1.trace = [] := by
  intro env fuel
  refine ⟨by decide, by decide, by decide, ?_⟩
  simp [handleConnectionStateChange, restartedMember, syncPendingEntries, sent]

/-- C6 at its failing input. For a connected member with one queued entry the
loop of `syncPendingEntries` has not ended after any number of steps, whatever
the transport answers: `sendEntry` pushes the entry it sends onto the array
that is being iterated, so after `fuel` steps `fuel` messages were handed to
the transport and the end of the queue is still ahead. -/
theorem syncPendingEntries_never_returns :
    ∀ (w : Nat → Bool) (fuel : Nat),
      (syncPendingEntries { charWrite := w } fuel connectedMember).2 = false ∧
      (sent (syncPendingEntries { charWrite := w } fuel connectedMember).1.trace).length = fuel ∧
      (syncPendingEntries { charWrite := w } fuel connectedMember).1.pendingEntries.length
        = 1 + fuel := by
  intro w fuel
  have h := sendLoop_member { charWrite := w } fuel 0 connectedMember rfl (by decide)
  have heq : syncPendingEntries { charWrite := w } fuel connectedMember
      = sendLoop { charWrite := w } fuel 0 connectedMember := by
    simp [syncPendingEntries, connectedMember, getItem]
  rw [heq]
  refine ⟨h.1, ?_, ?_⟩
  · rw [h.2.2 (by decide)]
    simp [connectedMember, sent]
  · rw [h.2.1]
    simp [connectedMember]

/-- C7 at its failing input. From the initial state of the service, two calls
of `sendEntry` with the same entry leave two copies of it in `pendingEntries`:
line 260 pushes without looking for the id. -/
theorem sendEntry_twice_queues_twice :
    ∀ env : Env,
      (sendEntry env (sendEntry env {} entryE1) entryE1).pendingEntries = [entryE1, entryE1] := by
  intro env
  simp [sendEntry]

/-! ## C8, C9: acknowledgements -/

theorem handleDataReceived_ack (env : Env) (s : SyncState) (d : Message) (entryId : String)
    (ht : d.type = some "ENTRY_ACK") (hid : d.entryId = some entryId) :
    handleDataReceived env s (some d) =
      if !s.isHost && entryId != "" then markEntryAsSynced env s entryId else s := by
  simp [handleDataReceived, ht, hid, truthy]

/-- C8 at its failing input. A member queued `e1` and has no list stored under
`entries_<userId>`. It handles `ENTRY_ACK{e1}`: `markEntryAsSynced` returns at
lines 228-230, before the queue is filtered at line 240, so `e1` is still in
the queue. The state is left as it was whatever the collaborators answer, so
that no later acknowledgement removes the entry either. -/
theorem ack_missing_store_keeps_entry :
    unstoredMember.isHost = false ∧
    getItem unstoredMember.storage (entriesKey unstoredMember.userId) = none ∧
    (handleDataReceived {} unstoredMember
      (some (entryAck (some "host") "e1"))).pendingEntries.any (fun e => e.id == "e1") = true ∧
    (∀ env : Env,
      handleDataReceived env unstoredMember (some (entryAck (some "host") "e1"))
        = unstoredMember) := by
  refine ⟨rfl, rfl, by decide, ?_⟩
  intro env
  rw [handleDataReceived_ack env unstoredMember (entryAck (some "host") "e1") "e1" rfl rfl]
  cases hr : env.storageRead <;> simp [markEntryAsSynced, hr, unstoredMember, getItem]

/-- The acknowledgement when a list is stored. For every member state in which
a list is stored under `entries_<userId>` and every non-empty `entryId`, if the
storage read and write succeed, then after handling `ENTRY_ACK{entryId}` the
pending queue is the old queue without the entries of that id (so it contains
none), the stored list is the old list in the same order where exactly the
entries with that id have `synced` set to `true`, and every other storage key is
unchanged. -/
theorem ack_effect (env : Env) (s : SyncState) (d : Message) (entryId : String)
    (entries : List Entry)
    (hm : s.isHost = false) (ht : d.type = some "ENTRY_ACK")
    (hid : d.entryId = some entryId) (hne : entryId ≠ "")
    (hst : getItem s.storage (entriesKey s.userId) = some entries)
    (hread : env.storageRead = true) (hwrite : env.storageWrite = true) :
    (∀ e ∈ (handleDataReceived env s (some d)).pendingEntries, e.id ≠ entryId) ∧
    (handleDataReceived env s (some d)).pendingEntries
      = s.pendingEntries.filter (fun e => e.id != entryId) ∧
    getItem (handleDataReceived env s (some d)).storage (entriesKey s.userId)
      = some (entries.map
          (fun e => if e.id == entryId then { e with synced := true } else e)) ∧
    (∀ k, k ≠ entriesKey s.userId →
      getItem (handleDataReceived env s (some d)).storage k = getItem s.storage k) := by
  have hp : (handleDataReceived env s (some d)).pendingEntries
      = s.pendingEntries.filter (fun e => e.id != entryId) ∧
    (handleDataReceived env s (some d)).storage = setItem s.storage (entriesKey s.userId)
      (entries.map (fun e => if e.id == entryId then { e with synced := true } else e)) := by
    have h0 : handleDataReceived env s (some d) = markEntryAsSynced env s entryId := by
      rw [handleDataReceived_ack env s d entryId ht hid]
      simp [hm, hne]
    rw [h0]
    simp only [markEntryAsSynced, hst, hread, hwrite, emit, Bool.not_true, Bool.false_eq_true,
      if_false]
    split <;> simp
  refine ⟨?_, hp.1, ?_, ?_⟩
  · intro e he
    rw [hp.1] at he
    simpa using (List.mem_filter.mp he).2
  · rw [hp.2, getItem_setItem_same]
  · intro k hk
    rw [hp.2, getItem_setItem_other _ _ _ _ hk]

/-- Instance of `ack_effect`: the member that stores `e1` and `e2` and queues
`e1` handles the acknowledgement of `e1`. -/
theorem ack_effect_witness :
    (∀ e ∈ (handleDataReceived {} listeningMember
        (some (entryAck (some "host") "e1"))).pendingEntries, e.id ≠ "e1") ∧
    (handleDataReceived {} listeningMember (some (entryAck (some "host") "e1"))).pendingEntries
      = listeningMember.pendingEntries.filter (fun e => e.id != "e1") ∧
    getItem (handleDataReceived {} listeningMember (some (entryAck (some "host") "e1"))).storage
        (entriesKey listeningMember.userId)
      = some ([entryE1, entryE2].map
          (fun e => if e.id == "e1" then { e with synced := true } else e)) ∧
    (∀ k, k ≠ entriesKey listeningMember.userId →
      getItem (handleDataReceived {} listeningMember
        (some (entryAck (some "host") "e1"))).storage k = getItem listeningMember.storage k) :=
  ack_effect {} listeningMember (entryAck (some "host") "e1") "e1" [entryE1, entryE2]
    rfl rfl rfl (by decide) (by decide) rfl rfl

/-- C9 fails as stated: the member with one queued entry handles the
acknowledgement of that entry and then a duplicate of it; `onSyncComplete` is
invoked both times, the second time with a queue that was empty already. -/
theorem duplicate_ack_fires_twice :
    listeningMember.pendingEntries.length = 1 ∧
    (handleDataReceived {} listeningMember (some (entryAck (some "host") "e1"))).pendingEntries
      = [] ∧
    (handleDataReceived {}
      (handleDataReceived {} listeningMember (some (entryAck (some "host") "e1")))
      (some (entryAck (some "host") "e1"))).trace
      = [Event.onSyncComplete, Event.onSyncComplete] := by
  decide

/-- C9 (amended). While handling an `ENTRY_ACK` with id `entryId` the only event
that can be added is one invocation of `onSyncComplete`, and it is added exactly
when the acknowledgement is processed (member role, non-empty id, a list stored
under `entries_<userId>`, storage read and write succeed), a handler is
installed and the queue without the entries of that id is empty, whether or not
the queue was empty before. -/
theorem onSyncComplete_on_ack (env : Env) (s : SyncState) (d : Message) (entryId : String)
    (ht : d.type = some "ENTRY_ACK") (hid : d.entryId = some entryId) :
    (handleDataReceived env s (some d)).trace =
      s.trace ++
        (if (!s.isHost && entryId != "" && env.storageRead &&
              (getItem s.storage (entriesKey s.userId)).isSome && env.storageWrite &&
              s.onSyncComplete &&
              (s.pendingEntries.filter (fun e => e.id != entryId)).length == 0) = true
         then [Event.onSyncComplete] else []) := by
  rw [handleDataReceived_ack env s d entryId ht hid]
  by_cases h1 : s.isHost = true
  · simp [h1]
  · by_cases h2 : entryId = ""
    · simp [h2]
    · by_cases h3 : env.storageRead = true
      · cases h4 : getItem s.storage (entriesKey s.userId) with
        | none => simp [h1, h2, markEntryAsSynced, h3, h4]
        | some entries =>
          by_cases h5 : env.storageWrite = true
          · by_cases h6 : s.onSyncComplete = true
            · by_cases h7 : (s.pendingEntries.filter (fun e => e.id != entryId)).length = 0
              · simp [h1, h2, markEntryAsSynced, h3, h4, h5, h6, h7, emit]
              · simp [h1, h2, markEntryAsSynced, h3, h4, h5, h6, h7, emit]
            · simp [h1, h2, markEntryAsSynced, h3, h4, h5, h6, emit]
          · simp [h1, h2, markEntryAsSynced, h3, h4, h5]
      · simp [h1, h2, markEntryAsSynced, h3]

/-- Instance of C9 (amended): an acknowledgement for an unknown id that reaches
a member whose queue is empty invokes `onSyncComplete`. -/
theorem onSyncComplete_on_ack_witness :
    (handleDataReceived {} { listeningMember with pendingEntries := [] }
      (some (entryAck (some "host") "zz"))).trace = [Event.onSyncComplete] :=
  (onSyncComplete_on_ack {} { listeningMember with pendingEntries := [] }
    (entryAck (some "host") "zz") "zz" rfl rfl).trans (by decide)

/-! ## C10: no silent drop -/

theorem sendEntry_keeps (env : Env) (s : SyncState) (x e : Entry)
    (he : e ∈ s.pendingEntries) : e ∈ (sendEntry env s x).pendingEntries := by
  by_cases hh : s.isHost = true
  · simp only [sendEntry, hh, if_true]
    rw [(processReceivedEntry_role env s x s.userId).2.2.1]; exact he
  · by_cases hc : s.connectedPeers.length > 0
    · simp [sendEntry, hh, hc, sendData_pending, he]
    · simp [sendEntry, hh, hc, he]

theorem sendLoop_keeps (env : Env) (e : Entry) :
    ∀ (fuel i : Nat) (s : SyncState), e ∈ s.pendingEntries →
      e ∈ (sendLoop env fuel i s).1.pendingEntries := by
  intro fuel
  induction fuel with
  | zero => intro i s he; simpa [sendLoop] using he
  | succ n ih =>
    intro i s he
    simp only [sendLoop]
    split
    · exact he
    · exact ih _ _ (sendEntry_keeps env s _ e he)

theorem mergeUnsynced_keeps (e : Entry) (unsynced pending : List Entry)
    (he : e ∈ pending) : e ∈ mergeUnsynced pending unsynced := by
  unfold mergeUnsynced
  induction unsynced generalizing pending with
  | nil => simpa using he
  | cons x rest ih =>
    simp only [List.foldl_cons]
    apply ih
    split
    · exact he
    · simp [he]

theorem syncPendingEntries_keeps (env : Env) (fuel : Nat) (s : SyncState) (e : Entry)
    (he : e ∈ s.pendingEntries) : e ∈ (syncPendingEntries env fuel s).1.pendingEntries := by
  unfold syncPendingEntries
  split
  · exact he
  · split
    · exact he
    · apply sendLoop_keeps
      split
      · exact he
      · exact mergeUnsynced_keeps e _ _ he

theorem sendAll_fold_pending (env : Env) (l : List Entry) :
    ∀ s : SyncState,
      (l.foldl
        (fun acc entry =>
          (sendData env acc
            { type := some "ENTRY", source := acc.userId, groupId := acc.currentGroupId,
              entry := some entry }).1)
        s).pendingEntries = s.pendingEntries := by
  induction l with
  | nil => intro s; rfl
  | cons x rest ih =>
    intro s
    simp only [List.foldl_cons]
    rw [ih, sendData_pending]

theorem sendAllEntries_pending (env : Env) (s : SyncState) (t : Option String) :
    (sendAllEntries env s t).pendingEntries = s.pendingEntries := by
  unfold sendAllEntries
  split
  · rfl
  · split
    · rfl
    · split
      · rfl
      · exact sendAll_fold_pending env _ s

theorem markEntryAsSynced_keeps (env : Env) (s : SyncState) (entryId : String) (e : Entry)
    (hne : e.id ≠ entryId) (he : e ∈ s.pendingEntries) :
    e ∈ (markEntryAsSynced env s entryId).pendingEntries := by
  have hf : e ∈ s.pendingEntries.filter (fun x => x.id != entryId) :=
    List.mem_filter.mpr ⟨he, by simpa using hne⟩
  unfold markEntryAsSynced
  simp only [emit]
  repeat' split
  all_goals first | exact he | exact hf

theorem handleDataReceived_keeps (env : Env) (s : SyncState) (data : Option Message)
    (e : Entry) (hack : Op.acknowledges e.id (Op.dataReceived data) = false)
    (he : e ∈ s.pendingEntries) : e ∈ (handleDataReceived env s data).pendingEntries := by
  cases data with
  | none => exact he
  | some d =>
    unfold handleDataReceived
    simp only
    split
    · exact he
    · split
      · simp only [sendPong, sendData_pending]; exact he
      · split
        · exact he
        · split
          · split
            · exact he
            · split
              · rw [(processReceivedEntry_role env s _ d.source).2.2.1]; exact he
              · exact he
          · split
            · rename_i hty
              split
              · rename_i hcond
                apply markEntryAsSynced_keeps _ _ _ _ _ he
                intro hid
                cases hd : d.entryId with
                | none => simp [hd, truthy] at hcond
                | some v =>
                  simp only [hd, Option.getD_some] at hid
                  simp [Op.acknowledges, hd, hid] at hack
                  simp [hack] at hty
              · exact he
            · split
              · split
                · rw [sendAllEntries_pending]; exact he
                · exact he
              · exact he

theorem syncIfMember_keeps (env : Env) (fuel : Nat) (s : SyncState) (e : Entry)
    (he : e ∈ s.pendingEntries) :
    e ∈ (if (!s.isHost) = true then syncPendingEntries env fuel s else (s, true)).1.pendingEntries := by
  split
  · exact syncPendingEntries_keeps env fuel s e he
  · exact he

/-- C10 fails as stated: `stop()` assigns an empty array to `pendingEntries`
(line 437), so a queued entry that was never acknowledged is gone. -/
theorem stop_drops_queue :
    entryE1 ∈ connectedMember.pendingEntries ∧
    (stop {} connectedMember).pendingEntries = [] := by
  decide

/-- C10 (amended). No silent drop short of `stop()`: an entry that is in the
pending queue of any state is still in it after every engine operation other
than `stop()` and `destroy()` (`sendEntry`, `syncPendingEntries` at any step
of its loop, connection and disconnection events, `requestFullSync`, the
periodic ping, every inbound message), whatever the transport and the storage
answer, unless the operation handles an `ENTRY_ACK` carrying the id of the
entry. -/
theorem op_keeps_queued (env : Env) (s : SyncState) (op : Op) (e : Entry)
    (he : e ∈ s.pendingEntries) (hack : op.acknowledges e.id = false) :
    e ∈ (op.run env s).pendingEntries := by
  cases op with
  | sendEntry x => exact sendEntry_keeps env s x e he
  | syncPendingEntries fuel => exact syncPendingEntries_keeps env fuel s e he
  | connectionStateChange fuel connected device =>
    simp only [Op.run, handleConnectionStateChange]
    cases device with
    | none => exact he
    | some dv =>
      simp only [emit]
      split
      · apply syncIfMember_keeps
        split <;> exact he
      · split <;> exact he
  | dataReceived data => exact handleDataReceived_keeps env s data e hack he
  | requestFullSync =>
    simp only [Op.run, requestFullSync]
    split
    · exact he
    · rw [sendData_pending]; exact he
  | sendPing =>
    simp only [Op.run, sendPing, sendData_pending]; exact he

/-- Instance of C10 (amended): the queued `e1` survives the acknowledgement of
`e2` with a failing transport. -/
theorem op_keeps_queued_witness :
    entryE1 ∈ ((Op.dataReceived (some (entryAck (some "host") "e2"))).run
      { charWrite := fun _ => false } connectedMember).pendingEntries :=
  op_keeps_queued { charWrite := fun _ => false } connectedMember
    (Op.dataReceived (some (entryAck (some "host") "e2"))) entryE1 (by decide) (by decide)

/-! ## C11, C12: submitting an entry -/

/-- C11 at its failing input. A connected member that listens for sync errors
submits an entry while every characteristic write fails: `sendData` catches
the failure and returns `false`, `sendEntry` does not look at that value, and
the only event is the failed write; `onSyncError` is not invoked. -/
theorem sendEntry_write_failure_unreported :
    joinedMember.onSyncError = true ∧ joinedMember.connectedPeers.length > 0 ∧
    (sendEntry { charWrite := fun _ => false } joinedMember entryE1).trace
      = [Event.sendData (entryMessage (some "u1") (some "g1") entryE1) false] ∧
    (sendEntry { charWrite := fun _ => false } joinedMember entryE1).pendingEntries
      = [entryE1] := by
  decide

/-- C12. Offline submit: for every member state without a connected peer and
every entry, `sendEntry` returns the state with the entry appended to the
pending queue and nothing else changed; the trace in particular is the same, so
no message is sent and `onSyncError` is not invoked. -/
theorem sendEntry_offline (env : Env) (s : SyncState) (entry : Entry)
    (hm : s.isHost = false) (hp : s.connectedPeers = []) :
    sendEntry env s entry = { s with pendingEntries := s.pendingEntries ++ [entry] } := by
  simp [sendEntry, hm, hp]

/-- Instance of C12: the initial state of the service. -/
theorem sendEntry_offline_witness :
    sendEntry { charWrite := fun _ => false } {} entryE1 = { pendingEntries := [entryE1] } :=
  sendEntry_offline { charWrite := fun _ => false } {} entryE1 rfl rfl

/-! ## C13, C14, C15, C16: the authoritative list -/

/-- C13 at its failing input. The host of `g1` receives the entry `e1` of a
member, whose `synced` is `false`: line 208 pushes the entry as it came, so the
record stored under `groupEntries_g1` has `synced = false`. -/
theorem processReceivedEntry_stores_unsynced :
    entryE1.synced = false ∧
    storedGroupEntries (processReceivedEntry {} hostG1 entryE1 (some "u1")) "g1" = [entryE1] ∧
    (storedGroupEntries (processReceivedEntry {} hostG1 entryE1 (some "u1")) "g1").map
      (fun e => e.synced) = [false] := by
  decide

theorem sendAll_fold (env : Env) (l : List Entry) :
    ∀ s : SyncState,
      sent (l.foldl
        (fun acc entry =>
          (sendData env acc
            { type := some "ENTRY", source := acc.userId, groupId := acc.currentGroupId,
              entry := some entry }).1)
        s).trace = sent s.trace ++ l.map (entryMessage s.userId s.currentGroupId) ∧
      (l.foldl
        (fun acc entry =>
          (sendData env acc
            { type := some "ENTRY", source := acc.userId, groupId := acc.currentGroupId,
              entry := some entry }).1)
        s).storage = s.storage := by
  induction l with
  | nil => intro s; simp
  | cons x rest ih =>
    intro s
    simp only [List.foldl_cons, List.map_cons]
    have h := ih (sendData env s
      { type := some "ENTRY", source := s.userId, groupId := s.currentGroupId,
        entry := some x }).1
    rw [h.1, h.2]
    simp [sendData_fst, emit, sent_append, sent, entryMessage]

/-- The events of the loop of `sendAllEntries` when the outcome of every write
is `w`: with a connected device and writes that succeed (`w = true`), or
without a connected device (`w = false`). -/
theorem sendAll_fold_trace (env : Env) (w : Bool) (l : List Entry) :
    ∀ s : SyncState,
      (∀ m (s1 : SyncState), s1.connectedDevice = s.connectedDevice →
        sendData env s1 m = (emit s1 (Event.sendData m w), w)) →
      (l.foldl
        (fun acc entry =>
          (sendData env acc
            { type := some "ENTRY", source := acc.userId, groupId := acc.currentGroupId,
              entry := some entry }).1)
        s).trace =
        s.trace ++ l.map (fun e => Event.sendData (entryMessage s.userId s.currentGroupId e) w) := by
  induction l with
  | nil => intro s _; simp
  | cons x rest ih =>
    intro s hs
    simp only [List.foldl_cons, List.map_cons]
    rw [hs _ s rfl]
    have h := ih (emit s (Event.sendData
      { type := some "ENTRY", source := s.userId, groupId := s.currentGroupId,
        entry := some x } w)) (fun m s1 h1 => hs m s1 (by rw [h1]; rfl))
    rw [h]
    simp [emit, entryMessage]

/-- C14 fails as stated: the host stores `e1` and `e2` and is connected, but
the read of the stored list is rejected. `sendAllEntries` lands in its `catch`
(line 360) and the request is left without any answer. -/
theorem syncRequest_unanswered_without_read :
    answeringHost.isHost = true ∧ answeringHost.currentGroupId = some "g1" ∧
    storedGroupEntries answeringHost "g1" = [entryE1, entryE2] ∧
    handleDataReceived { storageRead := false } answeringHost (some syncRequestG1)
      = answeringHost ∧
    sent (handleDataReceived { storageRead := false } answeringHost
      (some syncRequestG1)).trace = [] := by
  decide

/-- C14 (amended). Full-sync answer: for every host hosting group `g` whose
stored list `groupEntries_g` is `[e1..en]`, when the read of the stored list
succeeds, handling `SYNC_REQUEST{groupId: g}` hands to
`BluetoothService.sendData` exactly the `n` messages
`{type: 'ENTRY', source: userId, groupId: g, entry: e_i}`, in stored order, and
nothing else; every one of them is written when a device is connected and the
writes succeed, and none is written when no device is connected. When the read
is rejected, and when the `groupId` of the request is not `g`, the state is
left as it is and nothing is sent. -/
theorem syncRequest_answer (env : Env) (s : SyncState) (d : Message) (g : String)
    (hHost : s.isHost = true) (hg : s.currentGroupId = some g)
    (ht : d.type = some "SYNC_REQUEST") :
    (d.groupId = some g → env.storageRead = true →
      sent (handleDataReceived env s (some d)).trace =
        sent s.trace ++ (storedGroupEntries s g).map (entryMessage s.userId (some g)) ∧
      (s.connectedDevice.isSome = true → (∀ n, env.charWrite n = true) →
        (handleDataReceived env s (some d)).trace =
          s.trace ++ (storedGroupEntries s g).map
            (fun e => Event.sendData (entryMessage s.userId (some g) e) true)) ∧
      (s.connectedDevice = none →
        (handleDataReceived env s (some d)).trace =
          s.trace ++ (storedGroupEntries s g).map
            (fun e => Event.sendData (entryMessage s.userId (some g) e) false))) ∧
    (d.groupId = some g → env.storageRead = false → handleDataReceived env s (some d) = s) ∧
    (d.groupId ≠ some g → handleDataReceived env s (some d) = s) := by
  refine ⟨?_, ?_, ?_⟩
  · intro hd hread
    have h : handleDataReceived env s (some d) = sendAllEntries env s d.source := by
      simp [handleDataReceived, ht, truthy, hHost, hg, hd]
    rw [h]
    unfold sendAllEntries storedGroupEntries
    simp only [hHost, hread, hg, Bool.not_true, Bool.false_eq_true, if_false]
    cases hgi : getItem s.storage (groupEntriesKey (some g)) with
    | none => simp
    | some entries =>
      simp only [Option.getD_some]
      refine ⟨?_, ?_, ?_⟩
      · have := (sendAll_fold env entries s).1
        rw [hg] at this
        exact this
      · intro hc hw
        have := sendAll_fold_trace env true entries s (by
          intro m s1 h1
          have h2 : s1.connectedDevice.isSome = true := by rw [h1]; exact hc
          cases hcd : s1.connectedDevice with
          | none => rw [hcd] at h2; cases h2
          | some dev => simp [sendData, hcd, hw])
        rw [hg] at this
        exact this
      · intro hc
        have := sendAll_fold_trace env false entries s (by
          intro m s1 h1
          simp [sendData, h1, hc])
        rw [hg] at this
        exact this
  · intro hd hread
    simp [handleDataReceived, ht, truthy, hHost, hg, hd, sendAllEntries, hread]
  · intro hd
    simp [handleDataReceived, ht, truthy, hHost, hg, hd]

/-- Instance of C14 (amended): the connected host that stores `e1` and `e2`
writes two messages to the device. -/
theorem syncRequest_answer_witness :
    (handleDataReceived {} answeringHost (some syncRequestG1)).trace
      = [Event.sendData (entryMessage (some "host") (some "g1") entryE1) true,
         Event.sendData (entryMessage (some "host") (some "g1") entryE2) true] :=
  ((((syncRequest_answer {} answeringHost syncRequestG1 "g1" rfl rfl rfl).1 rfl rfl).2.1
    rfl (fun _ => rfl))).trans (by decide)

/-- C15 at its failing input. A member of `g1` handles the push
`{type: 'ENTRY', source: 'host', groupId: 'g1', entry: e2}` of its host:
the `ENTRY` case asks for `this.isHost` (line 154), so the state is unchanged
and nothing is stored for the member. -/
theorem member_drops_host_push :
    ∀ env : Env,
      joinedMember.isHost = false ∧ entryE2.groupId = joinedMember.currentGroupId ∧
      handleDataReceived env joinedMember
        (some (entryMessage (some "host") (some "g1") entryE2)) = joinedMember ∧
      getItem (handleDataReceived env joinedMember
        (some (entryMessage (some "host") (some "g1") entryE2))).storage
        (entriesKey joinedMember.userId) = none := by
  intro env
  have h : handleDataReceived env joinedMember
      (some (entryMessage (some "host") (some "g1") entryE2)) = joinedMember := by
    simp [handleDataReceived, entryMessage, truthy, joinedMember]
  rw [h]
  exact ⟨rfl, rfl, rfl, rfl⟩

theorem processReceivedEntry_storage (env : Env) (s : SyncState) (e : Entry)
    (src : Option String) :
    (processReceivedEntry env s e src).storage = s.storage ∨
    (processReceivedEntry env s e src).storage =
      setItem s.storage (groupEntriesKey s.currentGroupId)
        ((getItem s.storage (groupEntriesKey s.currentGroupId)).getD [] ++ [e]) := by
  unfold processReceivedEntry
  simp only [sendEntryAcknowledgement_eq, emit]
  repeat' split
  all_goals simp

/-- A handler that runs to its end with no other handler in between appends at
most: for every host state, every inbound value and every group `g`, the list
stored under `groupEntries_g` after `handleDataReceived` is the list before, or
the list before with one entry appended, whatever the collaborators answer. -/
theorem groupEntries_append_only (env : Env) (s : SyncState) (data : Option Message)
    (g : String) (hHost : s.isHost = true) :
    storedGroupEntries (handleDataReceived env s data) g = storedGroupEntries s g ∨
    ∃ e, storedGroupEntries (handleDataReceived env s data) g = storedGroupEntries s g ++ [e] := by
  have same : ∀ s2 : SyncState, s2.storage = s.storage →
      storedGroupEntries s2 g = storedGroupEntries s g := by
    intro s2 h
    simp [storedGroupEntries, h]
  cases data with
  | none => exact Or.inl rfl
  | some d =>
    unfold handleDataReceived
    simp only
    split
    · exact Or.inl rfl
    split
    · left
      apply same
      simp [sendPong, sendData_fst, emit]
    split
    · exact Or.inl rfl
    split
    · cases d.entry with
      | none => exact Or.inl rfl
      | some entry =>
        simp only [hHost, if_true]
        rcases processReceivedEntry_storage env s entry d.source with h | h
        · exact Or.inl (same _ h)
        · by_cases hk : groupEntriesKey (some g) = groupEntriesKey s.currentGroupId
          · right
            refine ⟨entry, ?_⟩
            simp only [storedGroupEntries, h, hk, getItem_setItem_same, Option.getD_some]
          · left
            simp only [storedGroupEntries, h]
            rw [getItem_setItem_other _ _ _ _ hk]
    split
    · simp [hHost]
    split
    · split
      · left
        apply same
        unfold sendAllEntries
        repeat' split
        all_goals first | rfl | exact (sendAll_fold env _ s).2
      · exact Or.inl rfl
    · exact Or.inl rfl

/-- Instance of `groupEntries_append_only`: the host of `g1`, which stores
`e1`, receives `e2`. -/
theorem groupEntries_append_only_witness :
    storedGroupEntries
        (handleDataReceived {} (processReceivedEntry {} hostG1 entryE1 (some "u1"))
          (some (entryMessage (some "u1") (some "g1") entryE2))) "g1"
      = storedGroupEntries (processReceivedEntry {} hostG1 entryE1 (some "u1")) "g1" ∨
    ∃ e, storedGroupEntries
        (handleDataReceived {} (processReceivedEntry {} hostG1 entryE1 (some "u1"))
          (some (entryMessage (some "u1") (some "g1") entryE2))) "g1"
      = storedGroupEntries (processReceivedEntry {} hostG1 entryE1 (some "u1")) "g1" ++ [e] :=
  groupEntries_append_only {} (processReceivedEntry {} hostG1 entryE1 (some "u1"))
    (some (entryMessage (some "u1") (some "g1") entryE2)) "g1" (by decide)

/-- `processReceivedEntry` is its task run to the end with nothing in between. -/
theorem processReceivedEntry_finish (env : Env) (s : SyncState) (entry : Entry)
    (sourceId : Option String) :
    processReceivedEntry env s entry sourceId =
      EntryTask.finish env 3 s (EntryTask.start s entry sourceId) := by
  unfold processReceivedEntry EntryTask.start
  split
  · rfl
  split
  · rfl
  simp only [EntryTask.finish, EntryTask.resume]
  cases env.locationFix <;> simp only [Bool.not_true, Bool.not_false, if_true, if_false,
    Bool.false_eq_true, EntryTask.finish, EntryTask.resume]
  cases env.storageRead <;> simp only [Bool.not_true, Bool.not_false, if_true, if_false,
    Bool.false_eq_true, EntryTask.finish, EntryTask.resume]
  split
  · rfl
  · simp only [EntryTask.finish, EntryTask.resume]
    cases env.storageWrite <;> simp only [Bool.not_true, Bool.not_false, if_true, if_false,
      Bool.false_eq_true, EntryTask.finish]

/-- On a host, the handling of an `ENTRY` message is its task run to the end. -/
theorem handleDataReceived_finish (env : Env) (s : SyncState) (d : Message)
    (ht : d.type = some "ENTRY") :
    handleDataReceived env s (some d) = EntryTask.finish env 3 s (entryTask s (some d)) := by
  simp only [handleDataReceived, entryTask, ht, truthy]
  cases d.entry with
  | none => simp [EntryTask.finish]
  | some entry =>
    cases hh : s.isHost
    · simp [EntryTask.finish]
    · simp [processReceivedEntry_finish]

/-- C16 at its failing input. The host of `g1` stores nothing; the messages
`ENTRY{e1}` and `ENTRY{e2}` arrive one behind the other and both handlers wait
for the position fix (line 193). Both then read the stored list (line 196)
before either has written it (line 209). The first handler stores `[e1]` and
acknowledges `e1`; the second one then stores the list it had read with `e2`
pushed, `[e2]`, and acknowledges `e2`: the stored and acknowledged entry `e1`
is removed from the authoritative list. -/
theorem overlapping_entries_lose_one :
    storedGroupEntries (twoEntriesArrived.run {} [0, 1, 0, 1, 0]).state "g1" = [entryE1] ∧
    storedGroupEntries (twoEntriesArrived.run {} [0, 1, 0, 1, 0, 1]).state "g1" = [entryE2] ∧
    sent (twoEntriesArrived.run {} [0, 1, 0, 1, 0, 1]).state.trace =
      [entryAck (some "host") "e1", entryAck (some "host") "e2"] ∧
    (twoEntriesArrived.run {} [0, 1, 0, 1, 0, 1]).tasks = [none, none] := by
  decide

/-! ## C17, C18: start and stop -/

/-- C17 at its failing input. `startHosting` is called twice and `stop()` once:
`startPeriodicPing` stores the handle of the second interval over the first
without clearing it, `stop()` clears the stored one only, and the first
interval stays active. -/
theorem stop_leaves_first_ping_timer :
    (startHosting {} (startHosting {} {} "g1").1 "g1").1.timers = [1, 2] ∧
    (stop {} (startHosting {} (startHosting {} {} "g1").1 "g1").1).timers = [1] ∧
    (stop {} (startHosting {} (startHosting {} {} "g1").1 "g1").1).syncInterval = none := by
  decide

/-- C18 at its failing input. The service is not initialised and the Bluetooth
permissions are refused: `initialize` returns `false`, yet `startHosting`
returns `true` with the host role bound and the ping timer running, and
`joinGroup` returns `true` with the group bound and the scan started. -/
theorem start_ignores_failed_initialization :
    (initializeSync { bluetoothPermission := false } {} none).2 = false ∧
    (startHosting { bluetoothPermission := false } {} "g1").2 = true ∧
    (startHosting { bluetoothPermission := false } {} "g1").1.initialized = false ∧
    (startHosting { bluetoothPermission := false } {} "g1").1.isHost = true ∧
    (startHosting { bluetoothPermission := false } {} "g1").1.currentGroupId = some "g1" ∧
    (startHosting { bluetoothPermission := false } {} "g1").1.timers = [1] ∧
    (joinGroup { bluetoothPermission := false } {} "g1").2 = true ∧
    (joinGroup { bluetoothPermission := false } {} "g1").1.initialized = false ∧
    (joinGroup { bluetoothPermission := false } {} "g1").1.currentGroupId = some "g1" ∧
    (joinGroup { bluetoothPermission := false } {} "g1").1.isScanning = true := by
  decide

/-! ## C19: decoding -/

theorem base64Encode_length (s : List Nat) : (base64Encode s).length % 4 = 0 := by
  rw [base64Encode_eq]
  simpa using (sextets_length s).1

theorem base64Value_lt (c : Nat) (h : isBase64Char c = true) : base64Value c < 64 := by
  simp only [isBase64Char, isAlphaNum, Bool.or_eq_true, Bool.and_eq_true, decide_eq_true_eq,
    beq_iff_eq] at h
  unfold base64Value
  split
  · omega
  split
  · omega
  split
  · omega
  split <;> omega

theorem decodeSextets_lt (l : List Nat) (h : ∀ x ∈ l, x < 64) :
    ∀ b ∈ decodeSextets l, b < 256 := by
  induction l using decodeSextets.induct with
  | case1 a b c d rest ih =>
    have ha := h a (by simp)
    have hb := h b (by simp)
    have hc := h c (by simp)
    have hd := h d (by simp)
    have ih' := ih (fun x hx => h x (by simp [hx]))
    simp only [decodeSextets, List.mem_cons]
    rintro x (rfl | rfl | rfl | hx)
    · omega
    · omega
    · omega
    · exact ih' x hx
  | case2 a b c =>
    have ha := h a (by simp)
    have hb := h b (by simp)
    have hc := h c (by simp)
    simp only [decodeSextets, List.mem_cons, List.mem_singleton, List.not_mem_nil, or_false]
    rintro x (rfl | rfl) <;> omega
  | case3 a b =>
    have ha := h a (by simp)
    have hb := h b (by simp)
    simp only [decodeSextets, List.mem_singleton]
    rintro x rfl
    omega
  | case4 l h1 h2 h3 =>
    rw [decodeSextets]
    · simp
    · exact h1
    · exact h2
    · exact h3

theorem atob_lt (data octets : List Nat) (h : atob data = some octets) :
    ∀ b ∈ octets, b < 256 := by
  have key : ∀ d2 : List Nat,
      (if d2.length % 4 = 1 then none
        else if d2.all isBase64Char then some (decodeSextets (d2.map base64Value))
        else none) = some octets → ∀ b ∈ octets, b < 256 := by
    intro d2 hd
    by_cases h1 : d2.length % 4 = 1
    · simp [h1] at hd
    · by_cases hall : d2.all isBase64Char = true
      · simp only [h1, if_false, hall, if_true, Option.some.injEq] at hd
        subst hd
        apply decodeSextets_lt
        intro x hx
        obtain ⟨c, hc, rfl⟩ := List.mem_map.mp hx
        exact base64Value_lt c (List.all_eq_true.mp hall c hc)
      · simp [h1, hall] at hd
  exact key _ h

theorem utf8OfString_cons (c : Nat) (t : List Nat) (h : isLeadingSurrogate c = false) :
    utf8OfString (c :: t) = utf8Octets c ++ utf8OfString t := by
  cases t with
  | nil => simp [utf8OfString]
  | cons d rest => simp [utf8OfString, h]

theorem decodeItemsFrom_inside_nil (r acc n : Nat) :
    decodeItemsFrom (OctetGroup.inside r acc n) [] = none := by
  simp [decodeItemsFrom]

/-- One continuation step of `Decode` on an octet written by `escape`. -/
theorem decodeItemsFrom_inside_cons (r acc n b : Nat) (items : List UriItem) :
    decodeItemsFrom (OctetGroup.inside r acc n) (escapedItem b :: items) =
      if 128 ≤ b ∧ b < 192 then
        if r ≤ 1 then
          if validUtf8 n (acc * 64 + b % 64) = true then
            (decodeItemsFrom OctetGroup.outside items).map
              (fun x => utf16EncodeCodePoint (acc * 64 + b % 64) ++ x)
          else none
        else decodeItemsFrom (OctetGroup.inside (r - 1) (acc * 64 + b % 64) n) items
      else none := by
  by_cases hb : 128 ≤ b
  · rw [escapedItem_high b hb]
    by_cases hb2 : b < 192
    · simp [decodeItemsFrom, isContinuation, hb, hb2]
    · simp [decodeItemsFrom, isContinuation, hb, hb2]
  · have hn : ¬ (128 ≤ b ∧ b < 192) := fun h => hb h.1
    unfold escapedItem
    split
    · simp [decodeItemsFrom, hn]
    · simp [decodeItemsFrom, isContinuation, hb, hn]

/-- The leading step of `Decode` on an octet above `0x7F`. -/
theorem decodeItems_lead (b : Nat) (items : List UriItem) (hb : 128 ≤ b) :
    decodeItems (escapedItem b :: items) =
      if b < 192 then none
      else if b < 224 then decodeItemsFrom (OctetGroup.inside 1 (b % 32) 2) items
      else if b < 240 then decodeItemsFrom (OctetGroup.inside 2 (b % 16) 3) items
      else if b < 248 then decodeItemsFrom (OctetGroup.inside 3 (b % 8) 4) items
      else none := by
  have hn : ¬ b < 128 := by omega
  rw [escapedItem_high b hb]
  simp [decodeItems, decodeItemsFrom, hn]

theorem map_eq_some_cons {α : Type} (o : Option (List α)) (p text : List α)
    (h : o.map (fun x => p ++ x) = some text) : ∃ t, o = some t ∧ text = p ++ t := by
  cases o with
  | none => simp at h
  | some t =>
    simp only [Option.map_some', Option.some.injEq] at h
    exact ⟨t, rfl, h.symm⟩

/-- What `Decode` accepts on escaped octets is well-formed UTF-16 whose UTF-8
octets are the octets read. -/
theorem decodeItems_sound (n : Nat) :
    ∀ (octets text : List Nat), octets.length ≤ n →
      decodeItems (octets.map escapedItem) = some text →
      wellFormed text = true ∧ utf8OfString text = octets := by
  induction n with
  | zero =>
    intro octets text hlen h
    have : octets = [] := List.length_eq_zero.mp (by omega)
    subst this
    simp only [List.map_nil, decodeItems, decodeItemsFrom, Option.some.injEq] at h
    subst h
    exact ⟨rfl, rfl⟩
  | succ n ih =>
    intro octets text hlen h
    cases octets with
    | nil =>
      simp only [List.map_nil, decodeItems, decodeItemsFrom, Option.some.injEq] at h
      subst h
      exact ⟨rfl, rfl⟩
    | cons b rest =>
      simp only [List.length_cons] at hlen
      simp only [List.map_cons] at h
      by_cases hb : b < 128
      · rw [decodeItems_ascii b _ hb] at h
        obtain ⟨t, ht, rfl⟩ := map_eq_some_cons _ [b] text h
        obtain ⟨hw, hu⟩ := ih rest t (by omega) ht
        refine ⟨?_, ?_⟩
        · simp only [List.cons_append, List.nil_append]
          rw [wellFormed_plain b t (by omega)]
          exact hw
        · simp only [List.cons_append, List.nil_append]
          rw [utf8OfString_cons b t (by simp [isLeadingSurrogate]; omega), hu]
          simp [utf8Octets, hb]
      · rw [decodeItems_lead b _ (by omega)] at h
        by_cases h192 : b < 192
        · simp [h192] at h
        simp only [h192, if_false] at h
        by_cases h224 : b < 224
        · -- two octets
          simp only [h224, if_true] at h
          cases rest with
          | nil => simp [decodeItemsFrom_inside_nil] at h
          | cons b2 rest2 =>
            simp only [List.map_cons, decodeItemsFrom_inside_cons] at h
            by_cases hc2 : 128 ≤ b2 ∧ b2 < 192
            · simp only [hc2, and_self, if_true, le_refl] at h
              by_cases hv : validUtf8 2 (b % 32 * 64 + b2 % 64) = true
              · simp only [hv, if_true] at h
                obtain ⟨t, ht, rfl⟩ := map_eq_some_cons _ _ text h
                simp only [List.length_cons] at hlen
                obtain ⟨hw, hu⟩ := ih rest2 t (by omega) ht
                simp only [validUtf8, if_true, decide_eq_true_eq] at hv
                have hcp : b % 32 * 64 + b2 % 64 < 2048 := by omega
                have h16 : utf16EncodeCodePoint (b % 32 * 64 + b2 % 64)
                    = [b % 32 * 64 + b2 % 64] := by
                  simp [utf16EncodeCodePoint]; omega
                rw [h16]
                simp only [List.cons_append, List.nil_append]
                refine ⟨?_, ?_⟩
                · rw [wellFormed_plain _ t (by omega)]
                  exact hw
                · rw [utf8OfString_cons _ t (by simp [isLeadingSurrogate]; omega), hu]
                  have n1 : ¬ b % 32 * 64 + b2 % 64 < 128 := by omega
                  simp only [utf8Octets, n1, if_false, hcp, if_true, List.cons_append,
                    List.nil_append, List.cons.injEq, and_true]
                  omega
              · simp [hv] at h
            · simp [hc2] at h
        simp only [h224, if_false] at h
        by_cases h240 : b < 240
        · -- three octets
          simp only [h240, if_true] at h
          cases rest with
          | nil => simp [decodeItemsFrom_inside_nil] at h
          | cons b2 rest2 =>
            simp only [List.map_cons, decodeItemsFrom_inside_cons] at h
            by_cases hc2 : 128 ≤ b2 ∧ b2 < 192
            · simp only [hc2, and_self, if_true, show ¬ (2 ≤ 1) by omega, if_false,
                show 2 - 1 = 1 by rfl] at h
              cases rest2 with
              | nil => simp [decodeItemsFrom_inside_nil] at h
              | cons b3 rest3 =>
                simp only [List.map_cons, decodeItemsFrom_inside_cons] at h
                by_cases hc3 : 128 ≤ b3 ∧ b3 < 192
                · simp only [hc3, and_self, if_true, le_refl] at h
                  by_cases hv : validUtf8 3 ((b % 16 * 64 + b2 % 64) * 64 + b3 % 64) = true
                  · simp only [hv, if_true] at h
                    obtain ⟨t, ht, rfl⟩ := map_eq_some_cons _ _ text h
                    simp only [List.length_cons] at hlen
                    obtain ⟨hw, hu⟩ := ih rest3 t (by omega) ht
                    simp only [validUtf8, show ¬ (3 = 2) by omega, if_false, if_true,
                      Bool.and_eq_true, decide_eq_true_eq, Bool.not_eq_true',
                      Bool.and_eq_false_iff, decide_eq_false_iff_not] at hv
                    obtain ⟨hv1, hv2⟩ := hv
                    have hcp : (b % 16 * 64 + b2 % 64) * 64 + b3 % 64 < 65536 := by omega
                    have h16 : utf16EncodeCodePoint ((b % 16 * 64 + b2 % 64) * 64 + b3 % 64)
                        = [(b % 16 * 64 + b2 % 64) * 64 + b3 % 64] := by
                      simp [utf16EncodeCodePoint]; omega
                    rw [h16]
                    simp only [List.cons_append, List.nil_append]
                    have hl : isLeadingSurrogate ((b % 16 * 64 + b2 % 64) * 64 + b3 % 64)
                        = false := by
                      simp [isLeadingSurrogate]; omega
                    have htr : isTrailingSurrogate ((b % 16 * 64 + b2 % 64) * 64 + b3 % 64)
                        = false := by
                      simp [isTrailingSurrogate]; omega
                    refine ⟨?_, ?_⟩
                    · rw [wellFormed_cons _ t hcp hl htr]
                      exact hw
                    · rw [utf8OfString_cons _ t hl, hu]
                      have n1 : ¬ (b % 16 * 64 + b2 % 64) * 64 + b3 % 64 < 128 := by omega
                      have n2 : ¬ (b % 16 * 64 + b2 % 64) * 64 + b3 % 64 < 2048 := by omega
                      simp only [utf8Octets, n1, n2, if_false, hcp, if_true, List.cons_append,
                        List.nil_append, List.cons.injEq, and_true]
                      omega
                  · simp [hv] at h
                · simp [hc3] at h
            · simp [hc2] at h
        simp only [h240, if_false] at h
        by_cases h248 : b < 248
        · -- four octets
          simp only [h248, if_true] at h
          cases rest with
          | nil => simp [decodeItemsFrom_inside_nil] at h
          | cons b2 rest2 =>
            simp only [List.map_cons, decodeItemsFrom_inside_cons] at h
            by_cases hc2 : 128 ≤ b2 ∧ b2 < 192
            · simp only [hc2, and_self, if_true, show ¬ (3 ≤ 1) by omega, if_false,
                show 3 - 1 = 2 by rfl] at h
              cases rest2 with
              | nil => simp [decodeItemsFrom_inside_nil] at h
              | cons b3 rest3 =>
                simp only [List.map_cons, decodeItemsFrom_inside_cons] at h
                by_cases hc3 : 128 ≤ b3 ∧ b3 < 192
                · simp only [hc3, and_self, if_true, show ¬ (2 ≤ 1) by omega, if_false,
                    show 2 - 1 = 1 by rfl] at h
                  cases rest3 with
                  | nil => simp [decodeItemsFrom_inside_nil] at h
                  | cons b4 rest4 =>
                    simp only [List.map_cons, decodeItemsFrom_inside_cons] at h
                    by_cases hc4 : 128 ≤ b4 ∧ b4 < 192
                    · simp only [hc4, and_self, if_true, le_refl] at h
                      by_cases hv : validUtf8 4
                          (((b % 8 * 64 + b2 % 64) * 64 + b3 % 64) * 64 + b4 % 64) = true
                      · simp only [hv, if_true] at h
                        obtain ⟨t, ht, rfl⟩ := map_eq_some_cons _ _ text h
                        simp only [List.length_cons] at hlen
                        obtain ⟨hw, hu⟩ := ih rest4 t (by omega) ht
                        simp only [validUtf8, show ¬ (4 = 2) by omega, show ¬ (4 = 3) by omega,
                          if_false, Bool.and_eq_true, decide_eq_true_eq] at hv
                        obtain ⟨hv1, hv2⟩ := hv
                        generalize hcpd :
                          ((b % 8 * 64 + b2 % 64) * 64 + b3 % 64) * 64 + b4 % 64 = cp at *
                        have hlead : isLeadingSurrogate (55296 + (cp - 65536) / 1024) = true := by
                          simp [isLeadingSurrogate]; omega
                        have htrail : isTrailingSurrogate (56320 + (cp - 65536) % 1024)
                            = true := by
                          simp [isTrailingSurrogate]; omega
                        have h16 : utf16EncodeCodePoint cp =
                            [55296 + (cp - 65536) / 1024, 56320 + (cp - 65536) % 1024] := by
                          have : ¬ cp < 65536 := by omega
                          simp [utf16EncodeCodePoint, this]
                        have hpair : surrogatePairToCodePoint (55296 + (cp - 65536) / 1024)
                            (56320 + (cp - 65536) % 1024) = cp := by
                          unfold surrogatePairToCodePoint
                          omega
                        rw [h16]
                        simp only [List.cons_append, List.nil_append]
                        refine ⟨?_, ?_⟩
                        · simp only [wellFormed, hlead, htrail, if_true, Bool.true_and]
                          exact hw
                        · simp only [utf8OfString, hlead, if_true, hpair, hu]
                          have n1 : ¬ cp < 128 := by omega
                          have n2 : ¬ cp < 2048 := by omega
                          have n3 : ¬ cp < 65536 := by omega
                          simp only [utf8Octets, n1, n2, n3, if_false, List.cons_append,
                            List.nil_append, List.cons.injEq, and_true]
                          omega
                      · simp [hv] at h
                    · simp [hc4] at h
                · simp [hc3] at h
            · simp [hc2] at h
        · simp [h248] at h

/-- C19 fails as stated: `atob` is forgiving, so the texts `e30` and `e3 0=`,
which are not the base64 encoding of anything (an encoding has a length
divisible by four and holds no space; that of the JSON text of the empty
object is `e30=`), are decoded to the empty object and not to `null`. -/
theorem decodeBase64_forgiving :
    decodeBase64 (js "e30") = Json.object [] ∧
    decodeBase64 (js "e3 0=") = Json.object [] ∧
    (∀ octets : List Nat, base64Encode octets ≠ js "e30" ∧ base64Encode octets ≠ js "e3 0=") ∧
    (∀ text : List Nat,
      encodeBase64 text ≠ some (js "e30") ∧ encodeBase64 text ≠ some (js "e3 0=")) := by
  have hlen : ∀ octets : List Nat,
      base64Encode octets ≠ js "e30" ∧ base64Encode octets ≠ js "e3 0=" := by
    intro octets
    have h4 := base64Encode_length octets
    constructor
    · intro h
      rw [h] at h4
      revert h4
      decide
    · intro h
      rw [h] at h4
      revert h4
      decide
  have henc : ∀ text x : List Nat, encodeBase64 text = some x → ∃ octets, x = base64Encode octets := by
    intro text x h
    unfold encodeBase64 bufferUtf8ToBase64 at h
    cases he : encodeURIComponent text with
    | none => simp [he] at h
    | some e =>
      simp only [he, Option.some_bind, btoa] at h
      split at h
      · simp only [Option.some.injEq] at h
        exact ⟨_, h.symm⟩
      · simp at h
  refine ⟨rfl, rfl, hlen, ?_⟩
  intro text
  constructor
  · intro h
    obtain ⟨octets, ho⟩ := henc text _ h
    exact (hlen octets).1 ho.symm
  · intro h
    obtain ⟨octets, ho⟩ := henc text _ h
    exact (hlen octets).2 ho.symm

/-- A number with a fraction is read as `JSON.parse` reads it: the base64 form
of the text `{"type":"PING","timestamp":1.5}` is decoded to the object with
the timestamp 1.5. -/
theorem decodeBase64_fraction :
    decodeBase64 (js "eyJ0eXBlIjoiUElORyIsInRpbWVzdGFtcCI6MS41fQ==") =
      Json.object [(js "type", Json.string (js "PING")), (js "timestamp", Json.fraction 15 1)] :=
  rfl

/-- The number literals of JSON with a fraction or an exponent are read, and
what is not a number literal is refused. -/
theorem jsonParse_numbers :
    jsonParse (js "1.5") = some (Json.fraction 15 1) ∧
    jsonParse (js "-1.50") = some (Json.fraction (-15) 1) ∧
    jsonParse (js "1.0") = some (Json.number 1) ∧
    jsonParse (js "1E+2") = some (Json.number 100) ∧
    jsonParse (js "125e-2") = some (Json.fraction 125 2) ∧
    jsonParse (js "[1.5, 2e1 ,3]")
      = some (Json.array [Json.fraction 15 1, Json.number 20, Json.number 3]) ∧
    jsonParse (js "1.") = none ∧ jsonParse (js ".5") = none ∧ jsonParse (js "1e") = none ∧
    jsonParse (js "01") = none ∧ jsonParse (js "+1") = none ∧ jsonParse (js "-") = none :=
  ⟨rfl, rfl, rfl, rfl, rfl, rfl, rfl, rfl, rfl, rfl, rfl, rfl⟩

/-- C19 (amended). `decodeBase64` is total, and it returns `null` whenever the
input is not, for the forgiving decoder `atob` (ASCII whitespace skipped,
padding optional, spare bits ignored), a base64 form of the UTF-8 octets of a
well-formed text that `JSON.parse` accepts. -/
theorem decodeBase64_null (base64 : List Nat)
    (h : ¬ ∃ text : List Nat, wellFormed text = true ∧
      atob base64 = some (utf8OfString text) ∧ (jsonParse text).isSome = true) :
    decodeBase64 base64 = Json.null := by
  unfold decodeBase64
  cases hb : (bufferBase64ToUtf8 base64).bind jsonParse with
  | none => rfl
  | some v =>
    exfalso
    apply h
    unfold bufferBase64ToUtf8 at hb
    cases ha : atob base64 with
    | none => simp [ha] at hb
    | some octets =>
      simp only [ha, Option.some_bind] at hb
      cases hd : decodeURIComponent (escape octets) with
      | none => simp [hd] at hb
      | some text =>
        simp only [hd, Option.some_bind] at hb
        have hlt := atob_lt base64 octets ha
        unfold decodeURIComponent at hd
        rw [uriItems_escape octets hlt] at hd
        simp only [Option.some_bind] at hd
        obtain ⟨hw, hu⟩ := decodeItems_sound octets.length octets text (le_refl _) hd
        exact ⟨text, hw, by rw [hu], by simp [hb]⟩

/-- Instance of C19 (amended): `%%%` holds characters outside of the base64
alphabet, `atob` throws, and `null` is returned. -/
theorem decodeBase64_null_witness : decodeBase64 (js "%%%") = Json.null :=
  decodeBase64_null (js "%%%") (by
    rintro ⟨text, _, h, _⟩
    rw [show atob (js "%%%") = none by decide] at h
    cases h)

/-! ## C20: malformed messages -/

/-- C20. Malformed messages are dropped without effect: for every state and
every inbound value that is `null`, has no type, or has a type other than
`PING`, `PONG`, `ENTRY`, `ENTRY_ACK` and `SYNC_REQUEST`, `handleDataReceived`
returns the state it was given: nothing is sent, and role, group, peers,
pending queue and storage are unchanged. -/
theorem handleDataReceived_malformed (env : Env) (s : SyncState) (data : Option Message)
    (h : ∀ d, data = some d →
      d.type ≠ some "PING" ∧ d.type ≠ some "PONG" ∧ d.type ≠ some "ENTRY" ∧
        d.type ≠ some "ENTRY_ACK" ∧ d.type ≠ some "SYNC_REQUEST") :
    handleDataReceived env s data = s := by
  cases data with
  | none => rfl
  | some d =>
    obtain ⟨h1, h2, h3, h4, h5⟩ := h d rfl
    simp [handleDataReceived, h1, h2, h3, h4, h5]

/-- Instance of C20: a message of the unknown type `HELLO` reaches a connected
member with a queued entry. -/
theorem handleDataReceived_malformed_witness :
    handleDataReceived {} connectedMember
      (some { type := some "HELLO", source := some "x", entryId := some "e1" })
      = connectedMember :=
  handleDataReceived_malformed {} connectedMember
    (some { type := some "HELLO", source := some "x", entryId := some "e1" })
    (by
      intro d hd
      cases hd
      decide)

/-! ## C21: sending without a link -/

/-- C21. Sending without a link fails cleanly: when
`BluetoothService.connectedDevice` is `null`, `sendData` returns `false` for
every message; the state it leaves is the state given with one more event in
the trace, a call of `sendData` whose characteristic write was not performed,
and `connectedDevice` is still `null`. The function has a result for every
input: the error it throws is caught inside. -/
theorem sendData_without_link (env : Env) (s : SyncState) (m : Message)
    (h : s.connectedDevice = none) :
    (sendData env s m).2 = false ∧
    (sendData env s m).1 = emit s (Event.sendData m false) ∧
    (sendData env s m).1.connectedDevice = none ∧
    (sendData env s m).1.trace = s.trace ++ [Event.sendData m false] := by
  have h1 : sendData env s m = (emit s (Event.sendData m false), false) := by
    simp [sendData, h]
  rw [h1]
  refine ⟨rfl, rfl, ?_, ?_⟩
  · simpa [emit] using h
  · simp [emit]

/-- Instance of C21: a ping sent from the initial state of the service. -/
theorem sendData_without_link_witness :
    ({ } : SyncState).connectedDevice = none ∧
    (sendData { } { } { type := some "PING" }).2 = false :=
  ⟨rfl, (sendData_without_link { } { } { type := some "PING" } rfl).1⟩

/-! ## C24: the proximity gate -/

/-- The guard of `LocationService.calculateDistance`, lines 118-120: two equal
pairs of coordinates have the distance 0 without any arithmetic. The
comparison `===` of a number with itself fails for `NaN` only. -/
theorem calculateDistance_guard {F : Type} (M : Arithmetic F) (lat lon : F)
    (hlat : M.strictEq lat lat = true) (hlon : M.strictEq lon lon = true) :
    LocationService.calculateDistance M lat lon lat lon = M.ofNat 0 := by
  simp [LocationService.calculateDistance, hlat, hlon]

/-- C24. The proximity gate: for all locations `a` and `b` and every threshold
`t`, which is 100 when none is given, `LocationService.isInProximity(a, b, t)`
is the comparison `<=` of `LocationService.calculateDistance` on the
coordinates of `a` and `b` with `t`, and `helpers.isInProximity(a, b, t)` is
the comparison `<=` of the distance that `helpers.calculateDistance(a, b)`
returns with `t`; both functions return `false` when a location is missing.
It holds whatever the arithmetic of the numbers is. -/
theorem isInProximity_le {F : Type} (M : Arithmetic F) (a b : Location F) (t : Option F)
    (l : Option (Location F)) :
    LocationService.isInProximity M (some a) (some b) t =
      M.le (LocationService.calculateDistance M a.latitude a.longitude b.latitude b.longitude)
        (t.getD (M.ofNat 100)) ∧
    (∃ d, helpers.calculateDistance M (some a) (some b) = some d ∧
      helpers.isInProximity M (some a) (some b) t = M.le d (t.getD (M.ofNat 100))) ∧
    LocationService.isInProximity M none l t = false ∧
    LocationService.isInProximity M l none t = false ∧
    helpers.isInProximity M none l t = false ∧
    helpers.isInProximity M l none t = false := by
  refine ⟨rfl, ⟨_, rfl, rfl⟩, rfl, ?_, rfl, ?_⟩
  · cases l <;> rfl
  · cases l <;> rfl

/-! ## C25: editing an entry -/

/-- C25. An edit re-enters the pending state without changing identity: for
every entry `e` and every update data `d`, `e.update(d)` sets `synced` to
`false`, leaves `id`, `groupId`, `createdBy`, `creatorName` and `createdAt` as
they were, gives `vasaNumber`, `emoNumber` and `notes` the value that `d`
defines and leaves them as they were when `d` defines none, and sets
`updatedAt` to the time of the call. -/
theorem update_keeps_identity (e : Entry) (d : EntryUpdate) (now : String) :
    (e.update d now).synced = false ∧
    (e.update d now).id = e.id ∧
    (e.update d now).groupId = e.groupId ∧
    (e.update d now).createdBy = e.createdBy ∧
    (e.update d now).creatorName = e.creatorName ∧
    (e.update d now).createdAt = e.createdAt ∧
    (e.update d now).vasaNumber = d.vasaNumber.getD e.vasaNumber ∧
    (e.update d now).emoNumber = d.emoNumber.getD e.emoNumber ∧
    (e.update d now).notes = d.notes.getD e.notes ∧
    (e.update d now).updatedAt = now := by
  obtain ⟨v, m, n⟩ := d
  cases v <;> cases m <;> cases n <;> simp [Entry.update]

/-! ## C26: validation of an entry -/

/-- The match of the repetition: all the units are of the class, there are at
most `more` of them, and with the `count` taken before they are `lo` at least. -/
theorem matchRepeat_iff (lo : Nat) (s : List Nat) : ∀ (more count : Nat),
    matchRepeat lo more count s = true ↔
      s.all numberUnit = true ∧ s.length ≤ more ∧ lo ≤ count + s.length := by
  induction s with
  | nil => intro more count; simp [matchRepeat]
  | cons c rest ih =>
    intro more count
    cases more with
    | zero => simp [matchRepeat]
    | succ more =>
      simp only [matchRepeat, Bool.and_eq_true, ih, List.all_cons, List.length_cons]
      constructor
      · rintro ⟨h1, h2, h3, h4⟩; exact ⟨⟨h1, h2⟩, by omega, by omega⟩
      · rintro ⟨⟨h1, h2⟩, h3, h4⟩; exact ⟨h1, h2, by omega, by omega⟩

/-- The units of the class are ASCII. -/
theorem numberUnit_lt {c : Nat} (h : numberUnit c = true) : c < 123 := by
  simp [numberUnit, isAlphaNum] at h
  omega

/-- No unit of the class is removed by `trim`. -/
theorem numberUnit_not_whitespace {c : Nat} (h : numberUnit c = true) :
    isTrimWhitespace c = false := by
  have h1 := numberUnit_lt h
  have h2 : 45 ≤ c := by
    simp [numberUnit, isAlphaNum] at h
    omega
  simp [isTrimWhitespace]
  omega

/-- The code units of a character are of the class exactly when the
character is a single unit of the class. -/
theorem units_all_numberUnit (n : Nat) :
    (utf16EncodeCodePoint n).all numberUnit = numberUnit n := by
  unfold utf16EncodeCodePoint
  split
  · simp
  · rename_i h
    have h1 : numberUnit n = false := by
      cases hn : numberUnit n
      · rfl
      · have := numberUnit_lt hn; omega
    have h2 : numberUnit (55296 + (n - 65536) / 1024) = false := by
      cases hn : numberUnit (55296 + (n - 65536) / 1024)
      · rfl
      · have := numberUnit_lt hn; omega
    simp [h1, h2]

/-- All the code units of a text are of the class exactly when all its
characters are. -/
theorem js_all_numberUnit (l : List Char) :
    (l.flatMap (fun ch => utf16EncodeCodePoint ch.toNat)).all numberUnit =
      l.all (fun ch => numberUnit ch.toNat) := by
  induction l with
  | nil => rfl
  | cons ch rest ih =>
    simp only [List.flatMap_cons, List.all_append, List.all_cons, ih, units_all_numberUnit]

/-- A text of characters of the class has one code unit for each character. -/
theorem js_length_of_numberUnit (l : List Char)
    (h : l.all (fun ch => numberUnit ch.toNat) = true) :
    (l.flatMap (fun ch => utf16EncodeCodePoint ch.toNat)).length = l.length := by
  induction l with
  | nil => rfl
  | cons ch rest ih =>
    simp only [List.all_cons, Bool.and_eq_true] at h
    have h1 := numberUnit_lt h.1
    have h2 : utf16EncodeCodePoint ch.toNat = [ch.toNat] := by
      simp [utf16EncodeCodePoint]; omega
    simp [List.flatMap_cons, h2, ih h.2]

/-- A text of units of the class that is not empty is not emptied by `trim`. -/
theorem trim_ne_nil (s : List Nat) (h0 : s ≠ []) (h : s.all numberUnit = true) :
    trim s ≠ [] := by
  cases s with
  | nil => exact absurd rfl h0
  | cons c rest =>
    simp only [List.all_cons, Bool.and_eq_true] at h
    have hc := numberUnit_not_whitespace h.1
    intro ht
    simp only [trim, List.reverse_eq_nil_iff, List.dropWhile_eq_nil_iff] at ht
    have h3 : List.dropWhile isTrimWhitespace (c :: rest) = c :: rest := by
      simp [List.dropWhile, hc]
    rw [h3] at ht
    have := ht c (by simp)
    rw [hc] at this
    exact Bool.noConfusion this

/-- The three checks of `validateVasaNumber` and `validateEmoNumber` together
are the documented rule. -/
theorem fieldRule (v : String) :
    (truthy (some v) = true ∧ trim (js v) ≠ [] ∧ (js v).length ≤ 20 ∧
      matchRepeat 1 20 0 (js v) = true) ↔ documentedNumber (some v) = true := by
  have hall := js_all_numberUnit v.toList
  have hjs : js v = v.toList.flatMap (fun ch => utf16EncodeCodePoint ch.toNat) := rfl
  have hlen : v.length = v.toList.length := rfl
  simp only [documentedNumber, Bool.and_eq_true, decide_eq_true_eq, matchRepeat_iff]
  constructor
  · rintro ⟨_, _, h3, h4, h5, h6⟩
    rw [hjs, hall] at h4
    have h7 := js_length_of_numberUnit v.toList h4
    rw [← hjs] at h7
    exact ⟨⟨by omega, by omega⟩, h4⟩
  · rintro ⟨⟨h1, h2⟩, h3⟩
    have h7 := js_length_of_numberUnit v.toList h3
    rw [← hjs] at h7
    have h4 : (js v).all numberUnit = true := by rw [hjs, hall]; exact h3
    have h8 : js v ≠ [] := by
      intro h; rw [h] at h7; simp at h7; omega
    refine ⟨?_, trim_ne_nil _ h8 h4, by omega, h4, by omega, by omega⟩
    simp only [truthy, bne_iff_ne, ne_eq]
    intro h; subst h; exact absurd h1 (by decide)

/-- The field `isValid` of `validateVasaNumber` is the documented rule. -/
theorem validateVasaNumber_isValid (x : Option String) :
    (validateVasaNumber x).isValid = documentedNumber x := by
  cases x with
  | none => simp [validateVasaNumber, truthy, documentedNumber]
  | some v =>
    have h := fieldRule v
    cases hd : documentedNumber (some v)
    · rw [hd] at h
      simp only [validateVasaNumber, Option.getD_some, VALIDATION.VASA_NUMBER]
      by_cases h1 : truthy (some v) = true
      · by_cases h2 : trim (js v) = []
        · simp [h2]
        · by_cases h3 : (js v).length ≤ 20
          · have h4 : matchRepeat 1 20 0 (js v) = false := by
              cases hm : matchRepeat 1 20 0 (js v)
              · rfl
              · exact absurd (h.1 ⟨h1, h2, h3, hm⟩) (by simp)
            simp [h1, h2, h4]
            split <;> rfl
          · simp [h1, h2]
            split
            · rfl
            · omega
      · simp [h1]
    · rw [hd] at h
      obtain ⟨h1, h2, h3, h4⟩ := h.2 rfl
      simp only [validateVasaNumber, Option.getD_some, VALIDATION.VASA_NUMBER]
      have h5 : ¬ (js v).length > 20 := by omega
      simp [h1, h2, h4, h5]


/-- The field `isValid` of `validateEmoNumber` is the documented rule. -/
theorem validateEmoNumber_isValid (x : Option String) :
    (validateEmoNumber x).isValid = documentedNumber x := by
  cases x with
  | none => simp [validateEmoNumber, truthy, documentedNumber]
  | some v =>
    have h := fieldRule v
    cases hd : documentedNumber (some v)
    · rw [hd] at h
      simp only [validateEmoNumber, Option.getD_some, VALIDATION.EMO_NUMBER]
      by_cases h1 : truthy (some v) = true
      · by_cases h2 : trim (js v) = []
        · simp [h2]
        · by_cases h3 : (js v).length ≤ 20
          · have h4 : matchRepeat 1 20 0 (js v) = false := by
              cases hm : matchRepeat 1 20 0 (js v)
              · rfl
              · exact absurd (h.1 ⟨h1, h2, h3, hm⟩) (by simp)
            simp [h1, h2, h4]
            split <;> rfl
          · simp [h1, h2]
            split
            · rfl
            · omega
      · simp [h1]
    · rw [hd] at h
      obtain ⟨h1, h2, h3, h4⟩ := h.2 rfl
      simp only [validateEmoNumber, Option.getD_some, VALIDATION.EMO_NUMBER]
      have h5 : ¬ (js v).length > 20 := by omega
      simp [h1, h2, h4, h5]

/-- C26. Entry validation matches its documented rules: for every entry
object whose fields are strings or missing, `validateEntry(entry).isValid` is
true if and only if `vasaNumber` and `emoNumber` are each a string of 1 to 20
characters of `[a-zA-Z0-9-]` and `groupId` is present (defined and not the
empty string); and the list of errors holds, in the order `vasaNumber`,
`emoNumber`, `groupId`, exactly one message for each of these fields that
fails and nothing else. -/
theorem validateEntry_documented (e : EntryFields) :
    ((validateEntry (some e)).isValid = true ↔
      documentedNumber e.vasaNumber = true ∧ documentedNumber e.emoNumber = true ∧
        truthy e.groupId = true) ∧
    (validateEntry (some e)).errors =
      (if documentedNumber e.vasaNumber then [] else [(validateVasaNumber e.vasaNumber).message])
      ++ (if documentedNumber e.emoNumber then [] else [(validateEmoNumber e.emoNumber).message])
      ++ (if truthy e.groupId then [] else ["Ryhmän tunniste puuttuu"]) := by
  simp only [validateEntry, validateVasaNumber_isValid, validateEmoNumber_isValid]
  cases documentedNumber e.vasaNumber <;> cases documentedNumber e.emoNumber <;>
    cases truthy e.groupId <;> simp

/-! ## C27: entry identifiers -/

/-- The hash of a text that continues another starts from the hash of that one. -/
theorem entryHash_append (a b : List Nat) :
    entryHash (a ++ b) = b.foldl (fun hash char => (hash * 31 + char) % 1000000) (entryHash a) := by
  simp [entryHash, List.foldl_append]

/-- The digits of the time 1762300000000. -/
theorem naturalToString_first :
    naturalToString 1762300000000 = [49, 55, 54, 50, 51, 48, 48, 48, 48, 48, 48, 48, 48] := by
  simp [naturalToString]

/-- The digits of the time 1762300025454. -/
theorem naturalToString_second :
    naturalToString 1762300025454 = [49, 55, 54, 50, 51, 48, 48, 48, 50, 53, 52, 53, 52] := by
  simp [naturalToString]

/-- C27 at its failing inputs. `generateEntryIdentifier` reduces the hash
modulo 1000000 at every step (line 79), so that there are a million
identifiers at most. The calf numbers 6061 and 20300 get the same identifier
whatever the number of the mother and the time are; and the numbers 12 and 34
get the same identifier at the times 1762300000000 and 1762300025454, which
are 25 seconds apart. -/
theorem generateEntryIdentifier_collides :
    (∀ (emoNumber : String) (timestamp : Nat),
      generateEntryIdentifier "6061" emoNumber timestamp =
        generateEntryIdentifier "20300" emoNumber timestamp) ∧
    generateEntryIdentifier "12" "34" 1762300000000 =
      generateEntryIdentifier "12" "34" 1762300025454 := by
  constructor
  · intro e t
    have h : entryHash (js "6061" ++ [45]) = entryHash (js "20300" ++ [45]) := by decide
    simp only [generateEntryIdentifier, List.append_assoc]
    rw [← List.append_assoc, entryHash_append, h, ← entryHash_append, List.append_assoc]
  · simp only [generateEntryIdentifier, naturalToString_first, naturalToString_second]
    have h :
        entryHash (js "12" ++ [45] ++ js "34" ++ [45] ++
          [49, 55, 54, 50, 51, 48, 48, 48, 48, 48, 48, 48, 48]) =
        entryHash (js "12" ++ [45] ++ js "34" ++ [45] ++
          [49, 55, 54, 50, 51, 48, 48, 48, 50, 53, 52, 53, 52]) := by decide
    rw [h]

/-! ## C28: an entry of the owner -/

/-- C28 at its failing input. The owner `u0` of the group `g1` adds an entry
for the numbers 123 and 456, nothing being stored before. The list of the user
is written while the entry has `synced = false` (line 283); the entry is marked
after that (line 292) and only the list of the group gets the marked entry.
The copy stored under `entries_u0` has `synced = false`, the one stored under
`groupEntries_g1` and the entry returned have `synced = true`. -/
theorem addEntry_owner_stores_unsynced :
    groupG1.ownerId = some ownerU0.id ∧
    addEntry { } (some ownerU0) none (some [groupG1]) [] "e1" "t"
      { vasaNumber := "123", emoNumber := "456" } (some "g1") =
      ([("entries_u0", [entryOfOwner]),
        ("groupEntries_g1", [{ entryOfOwner with synced := true }])],
       Except.ok { entryOfOwner with synced := true }) ∧
    entryOfOwner.synced = false := by
  refine ⟨rfl, ?_, rfl⟩
  rfl

/-- The key of the list of a user is not the key of the list of a group. -/
theorem keys_differ (a b : String) : "entries_" ++ a ≠ "groupEntries_" ++ b := by
  intro h
  have h1 := congrArg String.data h
  simp at h1

/-- The same for every owner: when the storage answers and the group of the
entry is found among the stored groups with the user as its owner, `addEntry`
returns an entry with `synced = true`, appends it to the list of the group, and
appends to the list of the user the same entry with `synced = false`. -/
theorem addEntry_owner_user_copy (env : Env) (u : User) (activeGroup : Option Group)
    (allGroups : List Group) (storage : List (String × List Entry)) (uuid now : String)
    (d : EntryData) (gid : String) (g : Group)
    (hr : env.storageRead = true) (hw : env.storageWrite = true)
    (hgid : truthy (some gid) = true)
    (hfind : allGroups.find? (fun g => some g.id == some gid) = some g)
    (ho : g.ownerId = some u.id) :
    ∃ e : Entry,
      (addEntry env (some u) activeGroup (some allGroups) storage uuid now d (some gid)).2
        = Except.ok e ∧
      e.synced = true ∧
      getItem (addEntry env (some u) activeGroup (some allGroups) storage uuid now d
          (some gid)).1 ("groupEntries_" ++ g.id)
        = some ((getItem storage ("groupEntries_" ++ g.id)).getD [] ++ [e]) ∧
      getItem (addEntry env (some u) activeGroup (some allGroups) storage uuid now d
          (some gid)).1 ("entries_" ++ u.id)
        = some ((getItem storage ("entries_" ++ u.id)).getD [] ++
            [{ e with synced := false }]) := by
  simp only [addEntry, hgid, hr, hw, hfind, ho, if_true, Bool.not_true, Bool.false_eq_true,
    if_false, beq_self_eq_true]
  refine ⟨_, rfl, rfl, ?_, ?_⟩
  · rw [getItem_setItem_same, getItem_setItem_other _ _ _ _ (keys_differ _ _).symm]
  · rw [getItem_setItem_other _ _ _ _ (keys_differ _ _), getItem_setItem_same]

/-! ## C29: the lists of a group -/

/-- C29 at its failing input. The group `g1` starts with no member and no
request, which is consistent. After `addPendingRequest` for the user `u1` and
`addMember('u1')` the user is a member and still pending: `addMember` looks at
`members` only (line 91). `acceptPendingRequest('u1')` then pushes the user
id without looking at `members` (line 167), and `members` is `['u1', 'u1']`. -/
theorem accept_after_addMember_duplicates :
    membershipConsistent groupG1 = true ∧
    membershipConsistent
      ([GroupOp.addPendingRequest (some { userId := some "u1" }),
        GroupOp.addMember (some "u1")].foldl (GroupOp.run "t") groupG1) = false ∧
    ([GroupOp.addPendingRequest (some { userId := some "u1" }),
      GroupOp.addMember (some "u1"),
      GroupOp.acceptPendingRequest (some "u1")].foldl (GroupOp.run "t") groupG1).members
      = ["u1", "u1"] := by
  decide

/-! ## C30: the table of peers -/

/-- The method `disconnect` of `BluetoothService` changes neither the table of
peers nor the trace: the handler is called with `(false, null)` (line 248),
and `handleConnectionStateChange` does nothing without a device. -/
theorem disconnect_connectedPeers (env : Env) (s : SyncState) :
    (disconnect env s).connectedPeers = s.connectedPeers ∧
    (disconnect env s).trace = s.trace := by
  unfold disconnect
  split
  · exact ⟨rfl, rfl⟩
  · split <;> exact ⟨rfl, rfl⟩

/-- C30 at its failing input. A member whose scan has seen the device `d1`
connects to it: `d1` is the connected device and is in the table of peers.
After `disconnect()` the connected device is `null`, `d1` is still in
`connectedPeers`, and the trace is empty: `onDeviceDisconnected` was not
called. -/
theorem disconnect_keeps_peer :
    (connectToDevice { } 1 scanningMember "d1").1 =
      ({ scanningMember with
          isScanning := false
          connectedDevice := some { id := "d1" }
          connectedPeers := [("d1", { id := "d1" })] }, true) ∧
    disconnect { } (connectToDevice { } 1 scanningMember "d1").1.1 =
      { scanningMember with
          isScanning := false
          connectedDevice := none
          connectedPeers := [("d1", { id := "d1" })] } ∧
    (disconnect { } (connectToDevice { } 1 scanningMember "d1").1.1).trace = [] := by
  decide

end Vasaaja
